import Mathlib

/-!
Museoo: the natural-language date-range resolver of the report chat.

Shallow embedding of `parseDateRange`, of the secondary pass `parsed` and of the
report parameters built by `generateReport` in
`Prototype/Museoo/src/components/admin/AIChat.jsx`.

The JavaScript runtime pieces the code calls are modelled after ECMAScript:
time values are integers (milliseconds since the epoch) or NaN, the calendar
functions are those of the "Date" chapter (`DayFromYear`, `YearFromTime`,
`MonthFromTime`, `DateFromTime`, `MakeDay`, `TimeClip`), regular expressions are
run by a backtracking matcher with the priority order of the language, and the
three things the code reads from its environment are explicit parameters: the
clock (`now`, one parameter per `new Date()`), the offset of local time from UTC
(`tz`, in milliseconds) and the implementation-defined string parser behind
`new Date(string)` (`parse`).
-/

namespace Museoo

/-! ## ECMAScript calendar -/

/-- Milliseconds in a day. -/
def msPerDay : Int := 86400000

/-- Number of days of year `y` (ECMAScript `DaysInYear`). -/
def daysInYear (y : Int) : Int :=
  if y % 4 ≠ 0 then 365
  else if y % 100 ≠ 0 then 366
  else if y % 400 ≠ 0 then 365
  else 366

/-- Day number of the first day of year `y` (ECMAScript `DayFromYear`). -/
def dayFromYear (y : Int) : Int :=
  365 * (y - 1970) + (y - 1969) / 4 - (y - 1901) / 100 + (y - 1601) / 400

/-- The year a day number falls in: the largest `y` with `dayFromYear y ≤ z`
(ECMAScript `YearFromTime`), found from an estimate that is off by at most one. -/
def yearFromDay (z : Int) : Int :=
  let y0 := 1970 + (400 * z) / 146097
  if dayFromYear (y0 + 1) ≤ z then y0 + 1
  else if dayFromYear y0 ≤ z then y0
  else y0 - 1

/-- One in a leap year, zero otherwise (ECMAScript `InLeapYear`). -/
def inLeapYear (y : Int) : Int := if daysInYear y = 366 then 1 else 0

/-- Day within the year on which month `m` (0 = January) starts; `monthStart leap 12`
is the length of the year. -/
def monthStart (leap : Int) (m : Int) : Int :=
  if m ≤ 0 then 0
  else if m = 1 then 31
  else if m = 2 then 59 + leap
  else if m = 3 then 90 + leap
  else if m = 4 then 120 + leap
  else if m = 5 then 151 + leap
  else if m = 6 then 181 + leap
  else if m = 7 then 212 + leap
  else if m = 8 then 243 + leap
  else if m = 9 then 273 + leap
  else if m = 10 then 304 + leap
  else if m = 11 then 334 + leap
  else 365 + leap

/-- Month (0 = January) of day `d` within a year, `leap` being one in a leap year. -/
def monthOfYearDay (leap d : Int) : Int :=
  if d < 31 then 0
  else if d < 59 + leap then 1
  else if d < 90 + leap then 2
  else if d < 120 + leap then 3
  else if d < 151 + leap then 4
  else if d < 181 + leap then 5
  else if d < 212 + leap then 6
  else if d < 243 + leap then 7
  else if d < 273 + leap then 8
  else if d < 304 + leap then 9
  else if d < 334 + leap then 10
  else 11

/-- Month (0 = January) of a day number (ECMAScript `MonthFromTime`). -/
def monthFromDay (z : Int) : Int :=
  monthOfYearDay (inLeapYear (yearFromDay z)) (z - dayFromYear (yearFromDay z))

/-- Day of the month (1-based) of a day number (ECMAScript `DateFromTime`). -/
def dateFromDay (z : Int) : Int :=
  z - dayFromYear (yearFromDay z) - monthStart (inLeapYear (yearFromDay z)) (monthFromDay z) + 1

/-- Day of the week of a day number, 0 = Sunday (ECMAScript `WeekDay`). -/
def weekDay (z : Int) : Int := (z + 4) % 7

/-- Day number of `year`, `month`, `date`, where the month may lie outside 0..11 and
the date outside the month (ECMAScript `MakeDay`). -/
def makeDay (year month date : Int) : Int :=
  dayFromYear (year + month / 12) + monthStart (inLeapYear (year + month / 12)) (month % 12) +
    date - 1

/-- Number of days of month `m` (0 = January) of year `y`. -/
def daysInMonth (y m : Int) : Int :=
  if m = 1 then 28 + inLeapYear y
  else if m = 3 ∨ m = 5 ∨ m = 8 ∨ m = 10 then 30
  else 31

/-! ## JavaScript numbers and `Date` objects -/

/-- A JavaScript number that is an integer, or `none` for NaN. -/
abbrev JSNum := Option Int

/-- A `Date` object: its time value in milliseconds since the epoch, or `none`
for an Invalid Date. -/
abbrev JSDate := Option Int

/-- The exception a JavaScript call can raise here: `toISOString` on an Invalid Date. -/
inductive JSError where
  | rangeError
  deriving DecidableEq, Repr

deriving instance DecidableEq for Except

/-- ECMAScript `TimeClip`: time values beyond 8.64e15 ms are NaN. -/
def timeClip (t : Int) : JSDate :=
  if -8640000000000000 ≤ t ∧ t ≤ 8640000000000000 then some t else none

/-- ECMAScript `Day`. -/
def day (t : Int) : Int := t / msPerDay

/-- ECMAScript `TimeWithinDay`. -/
def timeWithinDay (t : Int) : Int := t % msPerDay

/-- ECMAScript `MakeDate`. -/
def makeDate (d time : Int) : Int := d * msPerDay + time

/-- NaN-propagating addition. -/
def jsAdd (a b : JSNum) : JSNum := a.bind fun x => b.bind fun y => some (x + y)

/-- NaN-propagating subtraction. -/
def jsSub (a b : JSNum) : JSNum := a.bind fun x => b.bind fun y => some (x - y)

/-- The call `new Date(Date.UTC(year, month, date))`; years 0..99 stand for 1900..1999. -/
def dateUTC (year month date : JSNum) : JSDate :=
  year.bind fun y => month.bind fun m => date.bind fun dt =>
    let yr := if 0 ≤ y ∧ y ≤ 99 then 1900 + y else y
    timeClip (makeDate (makeDay yr m dt) 0)

/-- The method `getUTCFullYear`. -/
def getUTCFullYear (d : JSDate) : JSNum := d.map fun t => yearFromDay (day t)

/-- The method `getUTCMonth`. -/
def getUTCMonth (d : JSDate) : JSNum := d.map fun t => monthFromDay (day t)

/-- The method `getUTCDate`. -/
def getUTCDate (d : JSDate) : JSNum := d.map fun t => dateFromDay (day t)

/-- The method `getUTCDay`. -/
def getUTCDay (d : JSDate) : JSNum := d.map fun t => weekDay (day t)

/-- The method `getFullYear`: the year in local time, which is `tz` ms ahead of UTC. -/
def getFullYear (tz : Int) (d : JSDate) : JSNum := d.map fun t => yearFromDay (day (t + tz))

/-- The method `getMonth`, in local time. -/
def getMonth (tz : Int) (d : JSDate) : JSNum := d.map fun t => monthFromDay (day (t + tz))

/-- The method `getDate`, in local time. -/
def getDate (tz : Int) (d : JSDate) : JSNum := d.map fun t => dateFromDay (day (t + tz))

/-- The method `setUTCDate`, returning the updated date. -/
def setUTCDate (d : JSDate) (dt : JSNum) : JSDate :=
  d.bind fun t => dt.bind fun v =>
    timeClip (makeDate (makeDay (yearFromDay (day t)) (monthFromDay (day t)) v) (timeWithinDay t))

/-- Decimal digits of `n`, left-padded with zeros to width `w`. -/
def pad (w n : Nat) : List Char :=
  let ds := Nat.toDigits 10 n
  List.replicate (w - ds.length) '0' ++ ds

/-- Year part of `toISOString`: four digits for 0..9999, else a sign and six digits. -/
def isoYear (y : Int) : List Char :=
  if 0 ≤ y ∧ y ≤ 9999 then pad 4 y.toNat
  else (if y < 0 then '-' else '+') :: pad 6 y.natAbs

/-- The text `YYYY-MM-DD` of a year, a month number (1 = January) and a day. -/
def isoString (y mo d : Int) : String :=
  String.mk (isoYear y ++ '-' :: pad 2 mo.toNat ++ '-' :: pad 2 d.toNat)

/-- The date part of `toISOString` for a day number. -/
def isoDate (z : Int) : String :=
  isoString (yearFromDay z) (monthFromDay z + 1) (dateFromDay z)

/-! ## Strings and regular expressions -/

/-- Lower case of one character as far as the ASCII patterns of the resolver can tell:
ASCII capitals, and the two other characters whose lower case contains an ASCII
letter, the Kelvin sign (U+212A, lower case `k`) and the dotted capital I (U+0130,
lower case `i` followed by the combining dot U+0307). -/
def lowerChar (c : Char) : List Char :=
  if c = Char.ofNat 8490 then ['k']
  else if c = Char.ofNat 304 then ['i', Char.ofNat 775]
  else [c.toLower]

/-- The method `toLowerCase`. -/
def toLowerCase (s : List Char) : List Char := s.flatMap lowerChar

/-- The method `includes`: `p` occurs in `s` as a substring. -/
def includes : List Char → List Char → Bool
  | [], p => p.isEmpty
  | c :: cs, p => p.isPrefixOf (c :: cs) || includes cs p

/-- The class `\s` of ECMAScript: white space and line terminators. -/
def isSpace (c : Char) : Bool :=
  let n := c.toNat
  (9 ≤ n && n ≤ 13) || n = 32 || n = 160 || n = 5760 || (8192 ≤ n && n ≤ 8202) ||
    n = 8232 || n = 8233 || n = 8239 || n = 8287 || n = 12288 || n = 65279

/-- The class `\d`. -/
def isDigit (c : Char) : Bool := '0' ≤ c && c ≤ '9'

/-- The word characters that `\b` looks at. -/
def isWordChar (c : Char) : Bool :=
  ('a' ≤ c && c ≤ 'z') || ('A' ≤ c && c ≤ 'Z') || isDigit c || c = '_'

/-- The class of the explicit-range pattern: `a-z`, `0-9`, space, comma, slash, hyphen. -/
def isRangeChar (c : Char) : Bool :=
  ('a' ≤ c && c ≤ 'z') || isDigit c || c = ' ' || c = ',' || c = '/' || c = '-'

/-- The method `trim`. -/
def trim (s : List Char) : List Char :=
  ((s.dropWhile isSpace).reverse.dropWhile isSpace).reverse

/-- The call `parseInt(s, 10)` on a run of decimal digits. -/
def parseInt (s : List Char) : Int :=
  Int.ofNat (s.foldl (fun acc c => 10 * acc + (c.toNat - 48)) 0)

/-- Regular expressions, as far as the patterns of the resolver need them.
`rep p lo hi greedy` is a character class `p` under a quantifier. -/
inductive Re where
  | eps
  | chr (c : Char)
  | wordB
  | seq (a b : Re)
  | alt (a b : Re)
  | grp (i : Nat) (r : Re)
  | rep (p : Char → Bool) (lo : Nat) (hi : Option Nat) (greedy : Bool)
  | maybe (r : Re)

/-- A position in the subject: the character before it and what is left. -/
structure Cursor where
  prev : Option Char
  rest : List Char

/-- The captures of a match, latest first. -/
abbrev Caps := List (Nat × List Char)

/-- The assertion `\b`: exactly one of the two neighbours is a word character. -/
def atWordBoundary (cur : Cursor) : Bool :=
  let a := match cur.prev with
    | some c => isWordChar c
    | none => false
  let b := match cur.rest with
    | c :: _ => isWordChar c
    | [] => false
  a != b

/-- A quantified character class followed by the continuation `k`: greedy tries one
more character first, lazy tries the continuation first. -/
def repRun (p : Char → Bool) (greedy : Bool) (k : Cursor → Option Caps) :
    Nat → Option Nat → Option Char → List Char → Option Caps
  | lo, _, prev, [] => if lo = 0 then k ⟨prev, []⟩ else none
  | lo, hi, prev, x :: xs =>
    let stop := if lo = 0 then k ⟨prev, x :: xs⟩ else none
    let more := if p x && hi != some 0 then
      repRun p greedy k (lo - 1) (hi.map fun h => h - 1) (some x) xs else none
    if greedy then more.orElse fun _ => stop else stop.orElse fun _ => more

/-- Backtracking match of `r` at a cursor, then the continuation `k`; alternatives
are tried left to right. -/
def Re.run : Re → Cursor → Caps → (Cursor → Caps → Option Caps) → Option Caps
  | .eps, cur, caps, k => k cur caps
  | .chr c, cur, caps, k =>
    match cur.rest with
    | x :: xs => if x = c then k ⟨some x, xs⟩ caps else none
    | [] => none
  | .wordB, cur, caps, k => if atWordBoundary cur then k cur caps else none
  | .seq a b, cur, caps, k => a.run cur caps fun cur1 caps1 => b.run cur1 caps1 k
  | .alt a b, cur, caps, k => (a.run cur caps k).orElse fun _ => b.run cur caps k
  | .grp i r, cur, caps, k =>
    r.run cur caps fun cur1 caps1 =>
      k cur1 ((i, cur.rest.take (cur.rest.length - cur1.rest.length)) :: caps1)
  | .rep p lo hi greedy, cur, caps, k =>
    repRun p greedy (fun cur1 => k cur1 caps) lo hi cur.prev cur.rest
  | .maybe r, cur, caps, k => (r.run cur caps k).orElse fun _ => k cur caps

/-- The method `match` without the global flag: the match at the leftmost start. -/
def Re.search (r : Re) : Option Char → List Char → Option Caps
  | prev, [] => r.run ⟨prev, []⟩ [] fun _ caps => some caps
  | prev, x :: xs =>
    (r.run ⟨prev, x :: xs⟩ [] fun _ caps => some caps).orElse fun _ => r.search (some x) xs

/-- A literal word. -/
def Re.word (s : String) : Re := s.toList.foldr (fun c r => Re.seq (Re.chr c) r) Re.eps

/-- Concatenation of a list of patterns. -/
def Re.cat (rs : List Re) : Re := rs.foldr Re.seq Re.eps

/-- The quantified class `\s+`. -/
def Re.spaces : Re := Re.rep isSpace 1 none true

/-- Capture `i` of a match. -/
def capture (caps : Caps) (i : Nat) : List Char := (caps.lookup i).getD []

/-- Pattern `\b(from|between)\s+(C+?)\s+(to|and)\s+(C+)\b`, with `C` the class
`isRangeChar`. -/
def rangeRe : Re :=
  Re.cat [Re.wordB, Re.grp 1 (Re.alt (Re.word "from") (Re.word "between")), Re.spaces,
    Re.grp 2 (Re.rep isRangeChar 1 none false), Re.spaces,
    Re.grp 3 (Re.alt (Re.word "to") (Re.word "and")), Re.spaces,
    Re.grp 4 (Re.rep isRangeChar 1 none true), Re.wordB]

/-- Pattern `/last\s+(\d{1,3})\s+days?/`. -/
def lastNDaysRe : Re :=
  Re.cat [Re.word "last", Re.spaces, Re.grp 1 (Re.rep isDigit 1 (some 3) true), Re.spaces,
    Re.word "day", Re.maybe (Re.chr 's')]

/-- Pattern `/\bq([1-4])\s*(\d{4})\b/`. -/
def quarterRe : Re :=
  Re.cat [Re.wordB, Re.chr 'q', Re.grp 1 (Re.rep (fun c => '1' ≤ c && c ≤ '4') 1 (some 1) true),
    Re.rep isSpace 0 none true, Re.grp 2 (Re.rep isDigit 4 (some 4) true), Re.wordB]

/-- Pattern `/\b(20\d{2})\b/`. -/
def yearRe : Re :=
  Re.cat [Re.wordB, Re.grp 1 (Re.seq (Re.word "20") (Re.rep isDigit 2 (some 2) true)), Re.wordB]

/-- Pattern `/(?:for\s+)?(\d{1,2})\s+weeks?/`. -/
def nWeeksRe : Re :=
  Re.cat [Re.maybe (Re.seq (Re.word "for") Re.spaces), Re.grp 1 (Re.rep isDigit 1 (some 2) true),
    Re.spaces, Re.word "week", Re.maybe (Re.chr 's')]

/-- Pattern `/(?:for\s+)?(\d{1,3})\s+days?/`. -/
def nDaysRe : Re :=
  Re.cat [Re.maybe (Re.seq (Re.word "for") Re.spaces), Re.grp 1 (Re.rep isDigit 1 (some 3) true),
    Re.spaces, Re.word "day", Re.maybe (Re.chr 's')]

/-- The call `m.match(r)` from the start of the text. -/
def jsMatch (r : Re) (m : List Char) : Option Caps := r.search none m


/-! ## The resolver -/

/-- The object returned by the resolver. -/
structure DateRange where
  startDate : String
  endDate : String
  deriving DecidableEq, Repr

/-- The helper `normalize`: UTC midnight of the local calendar date of `d`. -/
def normalize (tz : Int) (d : JSDate) : JSDate :=
  dateUTC (getFullYear tz d) (getMonth tz d) (getDate tz d)

/-- The helper `format`: `d.toISOString().split('T')[0]`; `toISOString` throws a
RangeError on an Invalid Date. -/
def format (d : JSDate) : Except JSError String :=
  match d with
  | some t => .ok (isoDate (day t))
  | none => .error .rangeError

/-- The object literal with `startDate: format(a)` and `endDate: format(b)`. -/
def mkRange (a b : JSDate) : Except JSError DateRange :=
  (format a).bind fun s => (format b).bind fun e => .ok ⟨s, e⟩

/-- The twelve names the month rule looks for, in calendar order. -/
def monthNames : List String :=
  ["january", "february", "march", "april", "may", "june", "july", "august", "september",
    "october", "november", "december"]

/-- The helper `firstDayOfMonth`. -/
def firstDayOfMonth (year monthIdx : JSNum) : JSDate := dateUTC year monthIdx (some 1)

/-- The helper `lastDayOfMonth`: day 0 of the following month. -/
def lastDayOfMonth (year monthIdx : JSNum) : JSDate :=
  dateUTC year (jsAdd monthIdx (some 1)) (some 0)

/-- The helper `getQuarter`: `Math.floor(d.getMonth() / 3) + 1`, on the local month. -/
def getQuarter (tz : Int) (d : JSDate) : JSNum := (getMonth tz d).map fun mo => mo / 3 + 1

/-- The helper `quarterRange`, with its `start` and `end` already put in a range. -/
def quarterRange (q year : JSNum) : Except JSError DateRange :=
  let startMonth := q.map fun v => (v - 1) * 3
  mkRange (firstDayOfMonth year startMonth) (lastDayOfMonth year (jsAdd startMonth (some 2)))

/-- A rule of the resolver: `none` when its `if` is not taken, else what it returns
or throws. -/
abbrev Rule := Option (Except JSError DateRange)

/-- Rule "from X to Y" or "between X and Y". -/
def ruleExplicitRange (parse : String → JSDate) (tz : Int) (m : List Char) : Rule :=
  match jsMatch rangeRe m with
  | none => none
  | some rangeMatch =>
    let startRaw := trim (capture rangeMatch 2)
    let endRaw := trim (capture rangeMatch 4)
    let s := parse (String.mk startRaw)
    let e := parse (String.mk endRaw)
    if s.isSome && e.isSome then some (mkRange (normalize tz s) (normalize tz e)) else none

/-- Rule "last N days". -/
def ruleLastNDays (today : JSDate) (m : List Char) : Rule :=
  match jsMatch lastNDaysRe m with
  | none => none
  | some lastNDays =>
    let n := parseInt (capture lastNDays 1)
    let start := setUTCDate today (jsSub (getUTCDate today) (some (n - 1)))
    some (mkRange start today)

/-- Rule "this week". -/
def ruleThisWeek (today : JSDate) (m : List Char) : Rule :=
  if includes m "this week".toList then
    let wd := getUTCDay today
    let diff := wd.map fun d => (d + 6) % 7
    let start := setUTCDate today (jsSub (getUTCDate today) diff)
    let endD := setUTCDate start (jsAdd (getUTCDate start) (some 6))
    some (mkRange start endD)
  else none

/-- Rule "last week". -/
def ruleLastWeek (today : JSDate) (m : List Char) : Rule :=
  if includes m "last week".toList then
    let wd := getUTCDay today
    let diff := wd.map fun d => (d + 6) % 7
    let thisWeekStart := setUTCDate today (jsSub (getUTCDate today) diff)
    let start := setUTCDate thisWeekStart (jsSub (getUTCDate thisWeekStart) (some 7))
    let endD := setUTCDate thisWeekStart (jsSub (getUTCDate thisWeekStart) (some 1))
    some (mkRange start endD)
  else none

/-- Rule "this month". -/
def ruleThisMonth (today : JSDate) (m : List Char) : Rule :=
  if includes m "this month".toList then
    let start := firstDayOfMonth (getUTCFullYear today) (getUTCMonth today)
    let endD := lastDayOfMonth (getUTCFullYear today) (getUTCMonth today)
    some (mkRange start endD)
  else none

/-- Rule "last month". -/
def ruleLastMonth (today : JSDate) (m : List Char) : Rule :=
  if includes m "last month".toList then
    let year := if getUTCMonth today = some 0 then jsSub (getUTCFullYear today) (some 1)
      else getUTCFullYear today
    let month := (getUTCMonth today).map fun mo => (mo + 11) % 12
    some (mkRange (firstDayOfMonth year month) (lastDayOfMonth year month))
  else none

/-- Rule "this quarter". -/
def ruleThisQuarter (tz : Int) (today : JSDate) (m : List Char) : Rule :=
  if includes m "this quarter".toList then
    let q := getQuarter tz today
    some (quarterRange q (getUTCFullYear today))
  else none

/-- Rule "last quarter". -/
def ruleLastQuarter (tz : Int) (today : JSDate) (m : List Char) : Rule :=
  if includes m "last quarter".toList then
    let q := jsSub (getQuarter tz today) (some 1)
    let year := getUTCFullYear today
    if q = some 0 then some (quarterRange (some 4) (jsSub year (some 1)))
    else some (quarterRange q year)
  else none

/-- Rule "QN YYYY". -/
def ruleQuarterYear (m : List Char) : Rule :=
  match jsMatch quarterRe m with
  | none => none
  | some qMatch =>
    let q := parseInt (capture qMatch 1)
    let year := parseInt (capture qMatch 2)
    some (quarterRange (some q) (some year))

/-- The year of the month rule: the first `20xx` token of the text, else the year of
today. -/
def monthRuleYear (today : JSDate) (m : List Char) : JSNum :=
  match jsMatch yearRe m with
  | some yearMatch => some (parseInt (capture yearMatch 1))
  | none => getUTCFullYear today

/-- The loop over `monthNames` from index `i` on: the first name the text includes
decides the month. -/
def monthLoop (today : JSDate) (m : List Char) : List String → Int → Rule
  | [], _ => none
  | name :: rest, i =>
    if includes m name.toList then
      let year := monthRuleYear today m
      some (mkRange (firstDayOfMonth year (some i)) (lastDayOfMonth year (some i)))
    else monthLoop today m rest (i + 1)

/-- Rule "month name, with or without a year". -/
def ruleMonthName (today : JSDate) (m : List Char) : Rule := monthLoop today m monthNames 0

/-- Rule "today". -/
def ruleToday (today : JSDate) (m : List Char) : Rule :=
  if includes m "today".toList then some (mkRange today today) else none

/-- Rule "yesterday". -/
def ruleYesterday (today : JSDate) (m : List Char) : Rule :=
  if includes m "yesterday".toList then
    let y := setUTCDate today (jsSub (getUTCDate today) (some 1))
    some (mkRange y y)
  else none

/-- Rule of the fallback: the whole text, as typed, parsed as one date. -/
def ruleSingleDate (parse : String → JSDate) (tz : Int) (text : String) : Rule :=
  let singleDate := parse text
  if singleDate.isSome then
    let d := normalize tz singleDate
    some (mkRange d d)
  else none

/-- Sequence of `if (...) return ...` blocks: the first rule that is taken decides,
and `null` is returned when none is. -/
def firstOf : List Rule → Except JSError (Option DateRange)
  | [] => .ok none
  | some r :: _ => r.map some
  | none :: rest => firstOf rest

/-- The function `parseDateRange`, reading the clock as `now`. -/
def parseDateRange (parse : String → JSDate) (tz now : Int) (text : String) :
    Except JSError (Option DateRange) :=
  let today := normalize tz (some now)
  let m := toLowerCase text.toList
  firstOf [ruleExplicitRange parse tz m, ruleLastNDays today m, ruleThisWeek today m,
    ruleLastWeek today m, ruleThisMonth today m, ruleLastMonth today m,
    ruleThisQuarter tz today m, ruleLastQuarter tz today m, ruleQuarterYear m,
    ruleMonthName today m, ruleToday today m, ruleYesterday today m,
    ruleSingleDate parse tz text]

/-- Secondary rule "N weeks". -/
def ruleNWeeks (today : JSDate) (m : List Char) : Rule :=
  match jsMatch nWeeksRe m with
  | none => none
  | some nWeeks =>
    let n := parseInt (capture nWeeks 1)
    let start := setUTCDate today (jsSub (getUTCDate today) (some (n * 7 - 1)))
    some (mkRange start today)

/-- Secondary rule "N days". -/
def ruleNDays (today : JSDate) (m : List Char) : Rule :=
  match jsMatch nDaysRe m with
  | none => none
  | some nDays =>
    let n := parseInt (capture nDays 1)
    let start := setUTCDate today (jsSub (getUTCDate today) (some (n - 1)))
    some (mkRange start today)

/-- Secondary rule "a day", "one day", "day report", "daily". -/
def ruleDaily (today : JSDate) (m : List Char) : Rule :=
  if includes m "a day".toList || includes m "one day".toList ||
      includes m "day report".toList || includes m "daily".toList then
    some (mkRange today today)
  else none

/-- Secondary rule "a week", "one week", "weekly". -/
def ruleWeekly (today : JSDate) (m : List Char) : Rule :=
  if includes m "a week".toList || includes m "one week".toList ||
      includes m "weekly".toList then
    let start := setUTCDate today (jsSub (getUTCDate today) (some 6))
    some (mkRange start today)
  else none

/-- Secondary rule "monthly". -/
def ruleMonthly (today : JSDate) (m : List Char) : Rule :=
  if includes m "monthly".toList then
    let start := dateUTC (getUTCFullYear today) (getUTCMonth today) (some 1)
    let endD := dateUTC (getUTCFullYear today) (jsAdd (getUTCMonth today) (some 1)) (some 0)
    some (mkRange start endD)
  else none

/-- Secondary rule "past week". -/
def rulePastWeek (today : JSDate) (m : List Char) : Rule :=
  if includes m "past week".toList then
    let start := setUTCDate today (jsSub (getUTCDate today) (some 6))
    some (mkRange start today)
  else none

/-- Secondary rule "last year". -/
def ruleLastYear (today : JSDate) (m : List Char) : Rule :=
  if includes m "last year".toList then
    let year := jsSub (getUTCFullYear today) (some 1)
    some (mkRange (dateUTC year (some 0) (some 1)) (dateUTC year (some 11) (some 31)))
  else none

/-- Secondary rule "this year", "year to date", "ytd". -/
def ruleThisYear (today : JSDate) (m : List Char) : Rule :=
  if includes m "this year".toList || includes m "year to date".toList ||
      includes m "ytd".toList then
    let year := getUTCFullYear today
    some (mkRange (dateUTC year (some 0) (some 1)) today)
  else none

/-- The constant `parsed`: the primary pass (clock read as `now1`), and when that
returns `null` the secondary phrases (clock read as `now2`). -/
def parsed (parse : String → JSDate) (tz now1 now2 : Int) (userRequest : String) :
    Except JSError (Option DateRange) :=
  let m := toLowerCase userRequest.toList
  match parseDateRange parse tz now1 userRequest with
  | .error err => .error err
  | .ok (some base) => .ok (some base)
  | .ok none =>
    let today := normalize tz (some now2)
    firstOf [ruleNWeeks today m, ruleNDays today m, ruleDaily today m, ruleWeekly today m,
      ruleMonthly today m, rulePastWeek today m, ruleLastYear today m, ruleThisYear today m]

/-! ## The report parameters -/

/-- The report type chosen from the keywords of the lower-cased request. -/
def classifyReportType (lowerRequest : List Char) : String :=
  let has := fun (w : String) => includes lowerRequest w.toList
  if has "visitor" || has "visitors" then "visitor_analytics"
  else if has "cultural" || has "object" then "cultural_objects"
  else if has "archive" || has "digital" then "archive_analytics"
  else if has "donation" then
    if has "monetary" || has "loan" || has "donated" then "donation_type_report"
    else "donation_report"
  else if has "financial" || has "revenue" then "financial_report"
  else if has "event" && (has "participant" || has "attendee") then "event_participants"
  else if has "event" then "event_list"
  else if has "exhibit" && has "duration" then "exhibits_report"
  else if has "exhibit" then "exhibit_analytics"
  else if has "staff" || has "performance" then "staff_performance"
  else if has "predict" || has "forecast" then "predictive_analytics"
  else "comprehensive_dashboard"

/-- The object `reportParams` posted to the report endpoint. -/
structure ReportParams where
  reportType : String
  startDate : String
  endDate : String
  aiAssisted : Bool
  includeCharts : Bool
  includeRecommendations : Bool
  includePredictions : Bool
  includeComparisons : Bool
  userRequest : String
  donationType : Option String
  deriving DecidableEq, Repr

/-- The expression `(parsed?.field) || fallback`: the fallback is evaluated only when
the field is missing or the empty string. -/
def orDefault (field : Option String) (fallback : Except JSError String) :
    Except JSError String :=
  match field with
  | some v => if v = "" then fallback else .ok v
  | none => fallback

/-- The donation type added to the parameters of a donation type report. -/
def donationTypeOf (reportType : String) (lowerRequest : List Char) : Option String :=
  if reportType = "donation_type_report" then
    if includes lowerRequest "monetary".toList then some "monetary"
    else if includes lowerRequest "loan".toList then some "loan"
    else if includes lowerRequest "donated".toList then some "donated"
    else none
  else none

/-- The test `isAllDataRequest` of `generateReport`. -/
def isAllDataRequest (userRequest : String) : Bool :=
  includes (toLowerCase userRequest.toList) "all available data".toList ||
    includes (toLowerCase userRequest.toList) "for all".toList

/-- The part of `generateReport` from the choice of the report type to the request
sent to the endpoint: the value of `reportParams`, or the exception raised on the
way. The clock is read as `now1` and `now2` by the resolver and as `now3` for the
default window. -/
def reportParams (parse : String → JSDate) (tz now1 now2 now3 : Int) (userRequest : String) :
    Except JSError ReportParams :=
  let lowerRequest := toLowerCase userRequest.toList
  let reportType := classifyReportType lowerRequest
  let donation := donationTypeOf reportType lowerRequest
  (parsed parse tz now1 now2 userRequest).bind fun p =>
    if isAllDataRequest userRequest then
      .ok ⟨reportType, "all", "all", true, true, true, true, true, userRequest, donation⟩
    else
      let defaultStart := timeClip (now3 - 90 * 24 * 60 * 60 * 1000)
      let defaultEnd := timeClip (now3 + 30 * 24 * 60 * 60 * 1000)
      (orDefault (p.map fun r => r.startDate) (format defaultStart)).bind fun s =>
        (orDefault (p.map fun r => r.endDate) (format defaultEnd)).bind fun e =>
          .ok ⟨reportType, s, e, true, true, true, true, true, userRequest, donation⟩

/-! ## A model of the string parser -/

/-- The ISO date-only form `YYYY-MM-DD`, which ECMAScript reads as UTC midnight. -/
def parseIsoDate : List Char → JSDate
  | [y1, y2, y3, y4, '-', m1, m2, '-', d1, d2] =>
    if [y1, y2, y3, y4, m1, m2, d1, d2].all isDigit then
      let y := parseInt [y1, y2, y3, y4]
      let mo := parseInt [m1, m2]
      let d := parseInt [d1, d2]
      if 1 ≤ mo ∧ mo ≤ 12 ∧ 1 ≤ d ∧ d ≤ daysInMonth y (mo - 1) then
        timeClip (makeDate (makeDay y (mo - 1) d) 0)
      else none
    else none
  | _ => none

/-- Index of a month name in `monthNames`. -/
def monthIndex (name : List Char) : Option Nat :=
  (monthNames.map String.toList).indexOf? name

/-- The form `Month D, YYYY` (month name in any case), read as local midnight. -/
def parseMonthDayYear (tz : Int) (s : List Char) : JSDate :=
  let name := toLowerCase (s.takeWhile Char.isAlpha)
  match s.dropWhile Char.isAlpha with
  | ' ' :: r2 =>
    let ds := r2.takeWhile isDigit
    match r2.dropWhile isDigit with
    | [',', ' ', y1, y2, y3, y4] =>
      match monthIndex name with
      | some i =>
        let y := parseInt [y1, y2, y3, y4]
        let d := parseInt ds
        if [y1, y2, y3, y4].all isDigit ∧ 1 ≤ ds.length ∧ ds.length ≤ 2 ∧
            1 ≤ d ∧ d ≤ daysInMonth y i then
          timeClip (makeDate (makeDay y i d) 0 - tz)
        else none
      | none => none
    | _ => none
  | _ => none

/-- The ISO date-only form with an expanded year, a sign and six digits, which
ECMAScript reads as UTC midnight; minus zero is not a year. -/
def parseIsoExpanded : List Char → JSDate
  | [sg, y1, y2, y3, y4, y5, y6, '-', m1, m2, '-', d1, d2] =>
    if (sg = '+' ∨ sg = '-') ∧ [y1, y2, y3, y4, y5, y6, m1, m2, d1, d2].all isDigit then
      let ya := parseInt [y1, y2, y3, y4, y5, y6]
      let y := if sg = '-' then -ya else ya
      let mo := parseInt [m1, m2]
      let d := parseInt [d1, d2]
      if ¬(sg = '-' ∧ ya = 0) ∧ 1 ≤ mo ∧ mo ≤ 12 ∧ 1 ≤ d ∧ d ≤ daysInMonth y (mo - 1) then
        timeClip (makeDate (makeDay y (mo - 1) d) 0)
      else none
    else none
  | _ => none

/-- Modelled from ECMAScript `Date.parse`, in a zone `tz` ms ahead of UTC, on the
forms the examples use: the ISO date-only form, with a four-digit or an expanded
year, is UTC midnight of that date, `Month D, YYYY` is local midnight of that date.
Every other string is answered with Invalid Date here, so this model stands for the
runtime only on strings of these forms and on strings without any digit. -/
def jsDateParse (tz : Int) (s : String) : JSDate :=
  match parseIsoDate s.toList with
  | some t => some t
  | none =>
    match parseIsoExpanded s.toList with
    | some t => some t
    | none => parseMonthDayYear tz s.toList

/-! ## The date range chosen in the chat and the request sent on -/

/-- The call `new Date(year, month, date)`: local midnight of that date, as a time
value; years 0..99 stand for 1900..1999. -/
def dateLocal (tz : Int) (year month date : JSNum) : JSDate :=
  year.bind fun y => month.bind fun m => date.bind fun dt =>
    let yr := if 0 ≤ y ∧ y ≤ 99 then 1900 + y else y
    timeClip (makeDate (makeDay yr m dt) 0 - tz)

/-- The text `dateRange` of `generateReportWithDateRange` for the option chosen in the
chat (`reportType` is `all`, `1month` or `custom`) and the two dates of the date
picker; the clock is read as `now0`. -/
def dateRangeText (tz now0 : Int) (reportType startDate endDate : String) :
    Except JSError String :=
  if reportType = "all" then .ok "for all available data"
  else if reportType = "1month" then
    let today : JSDate := some now0
    let start := dateLocal tz (getFullYear tz today) (getMonth tz today) (some 1)
    let endD := dateLocal tz (getFullYear tz today) (jsAdd (getMonth tz today) (some 1)) (some 0)
    (format start).bind fun s => (format endD).bind fun e => .ok ("from " ++ s ++ " to " ++ e)
  else if reportType = "custom" ∧ startDate ≠ "" ∧ endDate ≠ "" then
    .ok ("from " ++ startDate ++ " to " ++ endDate)
  else .ok ""

/-- The test `isJustListRequest` of `generateReport`. -/
def isJustListRequest (lowerRequest : List Char) : Bool :=
  includes lowerRequest "list".toList && !includes lowerRequest "visitor".toList &&
    !includes lowerRequest "event".toList && !includes lowerRequest "donation".toList

/-- The function `generateReport` up to the request it posts: `none` when it asks
which list is meant instead, else the report parameters. -/
def generateReport (parse : String → JSDate) (tz now1 now2 now3 : Int) (userRequest : String) :
    Except JSError (Option ReportParams) :=
  if isJustListRequest (toLowerCase userRequest.toList) then .ok none
  else (reportParams parse tz now1 now2 now3 userRequest).map some

/-- The function `generateReportWithDateRange` up to the request posted: the date
range text is appended to the pending request and the whole is given to
`generateReport`. -/
def generateReportWithDateRange (parse : String → JSDate) (tz now0 now1 now2 now3 : Int)
    (reportType startDate endDate userRequest : String) :
    Except JSError (Option ReportParams) :=
  (dateRangeText tz now0 reportType startDate endDate).bind fun dateRange =>
    generateReport parse tz now1 now2 now3 (userRequest ++ " " ++ dateRange)

/-! ## The report endpoint -/

/-- The fields of the body of `POST /generate` that decide the date range; a field
that is missing is `none`. -/
structure GenerateBody where
  reportType : Option String
  startDate : Option String
  endDate : Option String
  userRequest : Option String
  deriving DecidableEq, Repr

/-- The call of a report-data function made by the endpoint: its name and the two
date arguments it is given. -/
structure DataCall where
  fn : String
  startDate : Option String
  endDate : Option String
  deriving DecidableEq, Repr

/-- JavaScript truthiness of a field that is a string or missing. -/
def truthy (v : Option String) : Bool :=
  match v with
  | some s => s ≠ ""
  | none => false

/-- The expression `req.body.userRequest?.toLowerCase().includes(phrase)`, as a
condition. -/
def requestIncludes (userRequest : Option String) (phrase : String) : Bool :=
  match userRequest with
  | some u => includes (toLowerCase u.toList) phrase.toList
  | none => false

/-- The test `isAllDataRequest` of the endpoint. -/
def endpointAllData (b : GenerateBody) : Bool :=
  !truthy b.startDate || !truthy b.endDate || b.startDate = some "all" || b.endDate = some "all" ||
    requestIncludes b.userRequest "all available data" || requestIncludes b.userRequest "for all"

/-- The switch on `reportType` of `POST /generate`: the report-data function that is
called and the dates it is handed, `effective` standing for the pair
`effectiveStartDate`, `effectiveEndDate` and `raw` for `startDate`, `endDate`; the
`default` branch answers 400 "Invalid report type". -/
def dispatchReport (reportType : String) (raw effective : Option String × Option String) :
    Except String DataCall :=
  if reportType = "visitor_analytics" then .ok ⟨"generateVisitorAnalytics", effective.1, effective.2⟩
  else if reportType = "monthly_summary" then .ok ⟨"generateMonthlySummary", raw.1, raw.2⟩
  else if reportType = "financial_report" then .ok ⟨"generateFinancialReport", raw.1, raw.2⟩
  else if reportType = "exhibit_analytics" then .ok ⟨"generateExhibitAnalytics", raw.1, raw.2⟩
  else if reportType = "cultural_objects" then
    .ok ⟨"generateCulturalObjectsReport", raw.1, raw.2⟩
  else if reportType = "archive_analytics" then
    .ok ⟨"generateArchiveReport", effective.1, effective.2⟩
  else if reportType = "event_analytics" then
    .ok ⟨"generateEventAnalytics", effective.1, effective.2⟩
  else if reportType = "event_performance" then
    .ok ⟨"generateEventPerformance", effective.1, effective.2⟩
  else if reportType = "event_attendance" then
    .ok ⟨"generateEventAttendance", effective.1, effective.2⟩
  else if reportType = "staff_performance" then .ok ⟨"generateStaffPerformance", raw.1, raw.2⟩
  else if reportType = "visitor_list" then .ok ⟨"generateVisitorList", raw.1, raw.2⟩
  else if reportType = "event_list" then .ok ⟨"generateEventList", raw.1, raw.2⟩
  else if reportType = "donation_list" then .ok ⟨"generateDonationList", raw.1, raw.2⟩
  else if reportType = "donation_report" then .ok ⟨"generateDonationList", raw.1, raw.2⟩
  else if reportType = "donation_type_report" then
    .ok ⟨"generateDonationListByType", raw.1, raw.2⟩
  else if reportType = "booking_list" then .ok ⟨"generateBookingList", raw.1, raw.2⟩
  else if reportType = "events_report" then
    .ok ⟨"generateEventsReport", effective.1, effective.2⟩
  else if reportType = "exhibits_report" then .ok ⟨"generateExhibitsReport", raw.1, raw.2⟩
  else if reportType = "cultural_objects_report" then
    .ok ⟨"generateCulturalObjectsReport", effective.1, effective.2⟩
  else if reportType = "archive_report" then
    .ok ⟨"generateArchiveReport", effective.1, effective.2⟩
  else .error "Invalid report type"

/-- The handler of `POST /generate` up to the call of the report-data function: the
answer 400 when the report type is missing or not one of the switch, else the
function called and the date range it is handed. -/
def generateEndpoint (b : GenerateBody) : Except String DataCall :=
  if !truthy b.reportType then .error "Report type is required"
  else
    let effective : Option String × Option String :=
      if endpointAllData b then (some "1900-01-01", some "2100-12-31")
      else (b.startDate, b.endDate)
    dispatchReport (b.reportType.getD "") (b.startDate, b.endDate) effective

/-- The report types of the switch of `POST /generate`. -/
def endpointReportTypes : List String :=
  ["visitor_analytics", "monthly_summary", "financial_report", "exhibit_analytics",
    "cultural_objects", "archive_analytics", "event_analytics", "event_performance",
    "event_attendance", "staff_performance", "visitor_list", "event_list", "donation_list",
    "donation_report", "donation_type_report", "booking_list", "events_report",
    "exhibits_report", "cultural_objects_report", "archive_report"]

/-! ## Notions used to state the properties -/

/-- The local calendar date of a clock reading, as a day number: the reference date. -/
def localDay (tz now : Int) : Int := day (now + tz)

/-- Reference dates the theorems range over: the days of the years 1000 to 9999,
the years that `YYYY-MM-DD` writes with four digits. -/
def RefDate (R : Int) : Prop := -354285 ≤ R ∧ R ≤ 2932896

/-- The twelve month names as they are usually written. -/
def englishMonths : List String :=
  ["January", "February", "March", "April", "May", "June", "July", "August", "September",
    "October", "November", "December"]

/-- Index, counted from `i`, of the first of the names that the text includes. -/
def firstIncluded (m : List Char) : List String → Int → Option Int
  | [], _ => none
  | name :: rest, i => if includes m name.toList then some i else firstIncluded m rest (i + 1)

/-- Last day of month `i` (0 = January) of year `y` by the Gregorian rule: February
has 29 days in the years divisible by 4 that are not divisible by 100 or are
divisible by 400. -/
def lastDayGregorian (y i : Int) : Int :=
  if i = 1 then (if y % 4 = 0 ∧ (y % 100 ≠ 0 ∨ y % 400 = 0) then 29 else 28)
  else if i = 3 ∨ i = 5 ∨ i = 8 ∨ i = 10 then 30
  else 31

/-- The phrases of the first eight rules of the primary pass are all absent from `m`. -/
def noEarlyPhrase (m : List Char) : Bool :=
  (jsMatch rangeRe m).isNone && (jsMatch lastNDaysRe m).isNone &&
    !includes m "this week".toList && !includes m "last week".toList &&
    !includes m "this month".toList && !includes m "last month".toList &&
    !includes m "this quarter".toList && !includes m "last quarter".toList


/-- None of the patterns of the primary and of the secondary pass is found in `m`. -/
def noPattern (m : List Char) : Bool :=
  noEarlyPhrase m && (jsMatch quarterRe m).isNone &&
    monthNames.all (fun name => !includes m name.toList) &&
    !includes m "today".toList && !includes m "yesterday".toList &&
    (jsMatch nWeeksRe m).isNone && (jsMatch nDaysRe m).isNone &&
    !includes m "a day".toList && !includes m "one day".toList &&
    !includes m "day report".toList && !includes m "daily".toList &&
    !includes m "a week".toList && !includes m "one week".toList &&
    !includes m "weekly".toList && !includes m "monthly".toList &&
    !includes m "past week".toList && !includes m "last year".toList &&
    !includes m "this year".toList && !includes m "year to date".toList &&
    !includes m "ytd".toList

/-- The range runs forward: its two texts are the dates of two day numbers, the
first not after the second. -/
def Ordered (r : DateRange) : Prop :=
  ∃ s e : Int, s ≤ e ∧ r.startDate = isoDate s ∧ r.endDate = isoDate e

/-- Every range a rule returns runs forward. -/
def RuleOrdered (rule : Rule) : Prop := ∀ r, rule = some (.ok r) → Ordered r


/-- The rules of the primary pass in the order of the source. -/
def primaryRules (parse : String → JSDate) (tz now : Int) (text : String) : List Rule :=
  [ruleExplicitRange parse tz (toLowerCase text.toList),
    ruleLastNDays (normalize tz (some now)) (toLowerCase text.toList),
    ruleThisWeek (normalize tz (some now)) (toLowerCase text.toList),
    ruleLastWeek (normalize tz (some now)) (toLowerCase text.toList),
    ruleThisMonth (normalize tz (some now)) (toLowerCase text.toList),
    ruleLastMonth (normalize tz (some now)) (toLowerCase text.toList),
    ruleThisQuarter tz (normalize tz (some now)) (toLowerCase text.toList),
    ruleLastQuarter tz (normalize tz (some now)) (toLowerCase text.toList),
    ruleQuarterYear (toLowerCase text.toList),
    ruleMonthName (normalize tz (some now)) (toLowerCase text.toList),
    ruleToday (normalize tz (some now)) (toLowerCase text.toList),
    ruleYesterday (normalize tz (some now)) (toLowerCase text.toList),
    ruleSingleDate parse tz text]

/-- The rules of the secondary pass in the order of the source. -/
def secondaryRules (tz now : Int) (text : String) : List Rule :=
  [ruleNWeeks (normalize tz (some now)) (toLowerCase text.toList),
    ruleNDays (normalize tz (some now)) (toLowerCase text.toList),
    ruleDaily (normalize tz (some now)) (toLowerCase text.toList),
    ruleWeekly (normalize tz (some now)) (toLowerCase text.toList),
    ruleMonthly (normalize tz (some now)) (toLowerCase text.toList),
    rulePastWeek (normalize tz (some now)) (toLowerCase text.toList),
    ruleLastYear (normalize tz (some now)) (toLowerCase text.toList),
    ruleThisYear (normalize tz (some now)) (toLowerCase text.toList)]

/-! ## Further notions used to state the properties -/

/-- None of the first `n` rules of the list is taken. -/
def noneTaken (rules : List Rule) (n : Nat) : Prop := ∀ x ∈ rules.take n, x = none

/-- The year written at a position of the text, when a token `20xx` stands there: the
characters `2`, `0` and two digits, with no word character right before or right
after them; `prev` is the character before the position. -/
def yearTokenAt (prev : Option Char) (rest : List Char) : Option Int :=
  match rest with
  | c1 :: c2 :: d1 :: d2 :: tail =>
    if (prev.all fun c => !isWordChar c) ∧ c1 = '2' ∧ c2 = '0' ∧ isDigit d1 = true ∧
        isDigit d2 = true ∧ (tail.head?.all fun c => !isWordChar c) then
      some (2000 + 10 * ((d1.toNat - 48 : Nat) : Int) + ((d2.toNat - 48 : Nat) : Int))
    else none
  | _ => none

/-- The year of the first token `20xx` of the text, reading from the left. -/
def firstYearToken : Option Char → List Char → Option Int
  | _, [] => none
  | prev, x :: xs => (yearTokenAt prev (x :: xs)).orElse fun _ => firstYearToken (some x) xs

/-- The pattern has no capture group. -/
def Re.noGrp : Re → Bool
  | .grp _ _ => false
  | .seq a b => a.noGrp && b.noGrp
  | .alt a b => a.noGrp && b.noGrp
  | .maybe r => r.noGrp
  | _ => true

/-- None of the phrases and patterns of the primary pass is found in `m`. -/
def noPrimaryPhrase (m : List Char) : Bool :=
  noEarlyPhrase m && (jsMatch quarterRe m).isNone &&
    monthNames.all (fun name => !includes m name.toList) &&
    !includes m "today".toList && !includes m "yesterday".toList

/-- The text is a date written `YYYY-MM-DD`: ten characters, four digits, a hyphen,
two digits that are a month from 01 to 12, a hyphen, and two digits that are a day
of that month of that year. -/
def isoShaped (s : String) : Bool :=
  match s.toList with
  | [y1, y2, y3, y4, h1, m1, m2, h2, d1, d2] =>
    h1 = '-' && h2 = '-' && [y1, y2, y3, y4, m1, m2, d1, d2].all isDigit &&
      decide (1 ≤ parseInt [m1, m2] ∧ parseInt [m1, m2] ≤ 12 ∧ 1 ≤ parseInt [d1, d2] ∧
        parseInt [d1, d2] ≤ lastDayGregorian (parseInt [y1, y2, y3, y4]) (parseInt [m1, m2] - 1))
  | _ => false

/-- The text is a date written with an expanded year, the way `toISOString` writes
the years outside 0 to 9999: thirteen characters, a sign, six digits that are a year
before 0 under the minus sign and a year after 9999 under the plus sign, a hyphen,
two digits that are a month from 01 to 12, a hyphen, and two digits that are a day of
that month of that year. -/
def expandedShaped (s : String) : Bool :=
  match s.toList with
  | [sg, y1, y2, y3, y4, y5, y6, h1, m1, m2, h2, d1, d2] =>
    (sg = '+' || sg = '-') && h1 = '-' && h2 = '-' &&
      [y1, y2, y3, y4, y5, y6, m1, m2, d1, d2].all isDigit &&
      decide ((if sg = '-' then 1 ≤ parseInt [y1, y2, y3, y4, y5, y6]
          else 10000 ≤ parseInt [y1, y2, y3, y4, y5, y6]) ∧
        1 ≤ parseInt [m1, m2] ∧ parseInt [m1, m2] ≤ 12 ∧ 1 ≤ parseInt [d1, d2] ∧
        parseInt [d1, d2] ≤ lastDayGregorian
          (if sg = '-' then -parseInt [y1, y2, y3, y4, y5, y6]
            else parseInt [y1, y2, y3, y4, y5, y6]) (parseInt [m1, m2] - 1))
  | _ => false

/-- The text is the date part of `toISOString` for some day, written in the form the
year of that day calls for: `YYYY-MM-DD` when the year is one of 0 to 9999, and a
sign, six digits and `-MM-DD` when it is not. -/
def DateText (s : String) : Prop :=
  ∃ z : Int, s = isoDate z ∧
    if 0 ≤ yearFromDay z ∧ yearFromDay z ≤ 9999 then isoShaped s = true
    else expandedShaped s = true

/-- Every range a rule returns is made of two date texts. -/
def RuleText (rule : Rule) : Prop :=
  ∀ r, rule = some (.ok r) → DateText r.startDate ∧ DateText r.endDate

/-- The date is an Invalid Date or a time value that `TimeClip` lets through. -/
def Clipped (d : JSDate) : Prop :=
  ∀ t, d = some t → -8640000000000000 ≤ t ∧ t ≤ 8640000000000000

/-! ## Calendar lemmas -/

theorem dayFromYear_succ (y : Int) : dayFromYear (y + 1) = dayFromYear y + daysInYear y := by
  unfold dayFromYear daysInYear
  split_ifs <;> omega

theorem dayFromYear_lt {a b : Int} (h : a < b) : dayFromYear a < dayFromYear b := by
  unfold dayFromYear
  omega

theorem yearFromDay_spec (z : Int) :
    dayFromYear (yearFromDay z) ≤ z ∧ z < dayFromYear (yearFromDay z + 1) := by
  unfold yearFromDay
  simp only
  split_ifs with h1 h2
  · refine ⟨h1, ?_⟩
    unfold dayFromYear at *
    omega
  · exact ⟨h2, by simpa using h1⟩
  · refine ⟨?_, by simpa using h2⟩
    unfold dayFromYear at *
    omega

theorem yearFromDay_unique {z y : Int} (h1 : dayFromYear y ≤ z) (h2 : z < dayFromYear (y + 1)) :
    yearFromDay z = y := by
  have hs := yearFromDay_spec z
  by_contra hne
  rcases lt_or_gt_of_ne hne with hlt | hgt
  · have hle : yearFromDay z + 1 ≤ y := hlt
    rcases eq_or_lt_of_le hle with e | l
    · rw [e] at hs; omega
    · have := dayFromYear_lt l; omega
  · have hle : y + 1 ≤ yearFromDay z := hgt
    rcases eq_or_lt_of_le hle with e | l
    · rw [← e] at hs; omega
    · have := dayFromYear_lt l; omega

theorem inLeapYear_cases (y : Int) : inLeapYear y = 0 ∨ inLeapYear y = 1 := by
  unfold inLeapYear
  split_ifs <;> simp

theorem daysInYear_eq (y : Int) : daysInYear y = 365 + inLeapYear y := by
  unfold inLeapYear daysInYear
  split_ifs <;> omega

/-- The day within its year of a day number lies in the year. -/
theorem dayWithinYear_range (z : Int) :
    0 ≤ z - dayFromYear (yearFromDay z) ∧
      z - dayFromYear (yearFromDay z) < 365 + inLeapYear (yearFromDay z) := by
  have hs := yearFromDay_spec z
  rw [dayFromYear_succ, daysInYear_eq] at hs
  omega

/-- The table of month starts, entry by entry. -/
theorem monthStart_values (leap : Int) :
    monthStart leap 0 = 0 ∧ monthStart leap 1 = 31 ∧ monthStart leap 2 = 59 + leap ∧
    monthStart leap 3 = 90 + leap ∧ monthStart leap 4 = 120 + leap ∧
    monthStart leap 5 = 151 + leap ∧ monthStart leap 6 = 181 + leap ∧
    monthStart leap 7 = 212 + leap ∧ monthStart leap 8 = 243 + leap ∧
    monthStart leap 9 = 273 + leap ∧ monthStart leap 10 = 304 + leap ∧
    monthStart leap 11 = 334 + leap ∧ monthStart leap 12 = 365 + leap := by
  simp [monthStart]

theorem monthOfYearDay_range (leap d : Int) :
    0 ≤ monthOfYearDay leap d ∧ monthOfYearDay leap d ≤ 11 := by
  unfold monthOfYearDay
  omega

theorem monthOfYearDay_unique (leap d m : Int) (hl : leap = 0 ∨ leap = 1)
    (hm : 0 ≤ m ∧ m ≤ 11) (h0 : monthStart leap m ≤ d) (h1 : d < monthStart leap (m + 1)) :
    monthOfYearDay leap d = m := by
  unfold monthOfYearDay
  unfold monthStart at h0 h1
  omega

theorem monthStart_succ (y m : Int) (hm : 0 ≤ m ∧ m ≤ 11) :
    monthStart (inLeapYear y) (m + 1) = monthStart (inLeapYear y) m + daysInMonth y m := by
  unfold monthStart daysInMonth
  omega

theorem monthFromDay_range (z : Int) : 0 ≤ monthFromDay z ∧ monthFromDay z ≤ 11 :=
  monthOfYearDay_range _ _

/-- Going from a day number to year, month and date and back with `makeDay`, moving
the date by `k`, moves the day number by `k`. -/
theorem makeDay_civil (z k : Int) :
    makeDay (yearFromDay z) (monthFromDay z) (dateFromDay z + k) = z + k := by
  have hm := monthFromDay_range z
  have h12 : monthFromDay z / 12 = 0 := by omega
  have hmod : monthFromDay z % 12 = monthFromDay z := by omega
  unfold makeDay dateFromDay
  rw [h12, hmod, add_zero]
  omega

theorem monthStart_bounds (y m d : Int) (hm : 0 ≤ m ∧ m ≤ 11)
    (hd : 1 ≤ d ∧ d ≤ daysInMonth y m) :
    0 ≤ monthStart (inLeapYear y) m + d - 1 ∧
      monthStart (inLeapYear y) m + d - 1 < 365 + inLeapYear y := by
  have hl := inLeapYear_cases y
  unfold monthStart
  unfold daysInMonth at hd
  omega

/-- Year, month and date of the day number `makeDay y m d` for a month and a date
that exist. -/
theorem civil_makeDay (y m d : Int) (hm : 0 ≤ m ∧ m ≤ 11) (hd : 1 ≤ d ∧ d ≤ daysInMonth y m) :
    yearFromDay (makeDay y m d) = y ∧ monthFromDay (makeDay y m d) = m ∧
      dateFromDay (makeDay y m d) = d := by
  have h12 : m / 12 = 0 := by omega
  have hmod : m % 12 = m := by omega
  have hb := monthStart_bounds y m d hm hd
  have hmk : makeDay y m d = dayFromYear y + (monthStart (inLeapYear y) m + d - 1) := by
    unfold makeDay
    rw [h12, hmod, add_zero]
    omega
  have hy : yearFromDay (makeDay y m d) = y := by
    apply yearFromDay_unique
    · omega
    · rw [dayFromYear_succ, daysInYear_eq]; omega
  have hmo : monthFromDay (makeDay y m d) = m := by
    unfold monthFromDay
    rw [hy, hmk]
    apply monthOfYearDay_unique _ _ _ (inLeapYear_cases y) hm
    · omega
    · rw [monthStart_succ y m hm]; omega
  refine ⟨hy, hmo, ?_⟩
  unfold dateFromDay
  rw [hy, hmo, hmk]
  omega

/-! ## Lemmas on dates at UTC midnight -/

theorem day_midnight (D : Int) : day (D * msPerDay) = D := by
  unfold day msPerDay
  omega

theorem timeWithinDay_midnight (D : Int) : timeWithinDay (D * msPerDay) = 0 := by
  unfold timeWithinDay msPerDay
  omega

theorem timeClip_midnight (D : Int) (h : -100000000 ≤ D ∧ D ≤ 100000000) :
    timeClip (D * msPerDay) = some (D * msPerDay) := by
  unfold timeClip msPerDay
  rw [if_pos]
  omega

theorem yearFromDay_mono {a b : Int} (h : a ≤ b) : yearFromDay a ≤ yearFromDay b := by
  have ha := yearFromDay_spec a
  have hb := yearFromDay_spec b
  by_contra hlt
  have h1 : yearFromDay b + 1 ≤ yearFromDay a := by omega
  rcases eq_or_lt_of_le h1 with e | l
  · rw [e] at hb; omega
  · have := dayFromYear_lt l; omega

theorem yearFromDay_dayFromYear (y : Int) : yearFromDay (dayFromYear y) = y := by
  apply yearFromDay_unique (le_refl _)
  exact dayFromYear_lt (by omega)

theorem dayFromYear_values : dayFromYear 1000 = -354285 ∧ dayFromYear 10000 = 2932897 := by
  decide

/-- The year of a reference date has four digits. -/
theorem RefDate.year {R : Int} (h : RefDate R) : 1000 ≤ yearFromDay R ∧ yearFromDay R ≤ 9999 := by
  obtain ⟨h1, h2⟩ := h
  have hv := dayFromYear_values
  constructor
  · have := yearFromDay_mono (show dayFromYear 1000 ≤ R by omega)
    rwa [yearFromDay_dayFromYear] at this
  · have hs := yearFromDay_spec R
    by_contra hc
    have hl : (10000 : Int) ≤ yearFromDay R := by omega
    rcases eq_or_lt_of_le hl with e | l
    · rw [← e] at hs; omega
    · have := dayFromYear_lt l; omega

theorem dateUTC_eq (y m d : Int) (hy : ¬(0 ≤ y ∧ y ≤ 99)) :
    dateUTC (some y) (some m) (some d) = timeClip (makeDay y m d * msPerDay) := by
  simp only [dateUTC, Option.bind, if_neg hy, makeDate, add_zero]

/-- The helper `normalize` on the clock reading: UTC midnight of the reference date. -/
theorem normalize_now (tz now : Int) (h : RefDate (localDay tz now)) :
    normalize tz (some now) = some (localDay tz now * msPerDay) := by
  have hy := h.year
  unfold localDay at *
  simp only [normalize, getFullYear, getMonth, getDate, Option.map]
  rw [dateUTC_eq _ _ _ (by omega)]
  have hk := makeDay_civil (day (now + tz)) 0
  rw [add_zero, add_zero] at hk
  rw [hk]
  exact timeClip_midnight _ (by unfold RefDate at h; omega)

theorem getUTCDate_midnight (D : Int) : getUTCDate (some (D * msPerDay)) = some (dateFromDay D) := by
  simp only [getUTCDate, Option.map, day_midnight]

theorem getUTCDay_midnight (D : Int) : getUTCDay (some (D * msPerDay)) = some (weekDay D) := by
  simp only [getUTCDay, Option.map, day_midnight]

theorem getUTCMonth_midnight (D : Int) :
    getUTCMonth (some (D * msPerDay)) = some (monthFromDay D) := by
  simp only [getUTCMonth, Option.map, day_midnight]

theorem getUTCFullYear_midnight (D : Int) :
    getUTCFullYear (some (D * msPerDay)) = some (yearFromDay D) := by
  simp only [getUTCFullYear, Option.map, day_midnight]

/-- The method `setUTCDate` on a date at UTC midnight moves it by whole days. -/
theorem setUTCDate_midnight (D v : Int) :
    setUTCDate (some (D * msPerDay)) (some v) = timeClip ((D + (v - dateFromDay D)) * msPerDay) := by
  simp only [setUTCDate, Option.bind, day_midnight, timeWithinDay_midnight, makeDate, add_zero]
  have hk := makeDay_civil D (v - dateFromDay D)
  rw [show dateFromDay D + (v - dateFromDay D) = v by omega] at hk
  rw [hk]

theorem format_midnight (D : Int) : format (some (D * msPerDay)) = .ok (isoDate D) := by
  simp only [format, day_midnight]

/-- A range of two dates at UTC midnight. -/
theorem mkRange_midnight (a b : Int) :
    mkRange (some (a * msPerDay)) (some (b * msPerDay)) = .ok ⟨isoDate a, isoDate b⟩ := by
  simp only [mkRange, format_midnight, Except.bind]

theorem dayFromYear_bounds (y : Int) (h : -270000 ≤ y ∧ y ≤ 270000) :
    -99600000 ≤ dayFromYear y ∧ dayFromYear y ≤ 99600000 := by
  unfold dayFromYear
  omega

/-- Day 0 of the month after `i` is the last day of month `i`. -/
theorem makeDay_zero_next (y i : Int) (hi : 0 ≤ i ∧ i ≤ 11) :
    makeDay y (i + 1) 0 = makeDay y i (daysInMonth y i) := by
  have hs := monthStart_succ y i hi
  have h12 : i / 12 = 0 := by omega
  have hmod : i % 12 = i := by omega
  rcases eq_or_lt_of_le hi.2 with e | l
  · subst e
    have hv := monthStart_values (inLeapYear (y + 1))
    unfold makeDay
    norm_num
    rw [dayFromYear_succ, daysInYear_eq, hv.1]
    norm_num at hs
    have hv2 := monthStart_values (inLeapYear y)
    omega
  · have h12b : (i + 1) / 12 = 0 := by omega
    have hmodb : (i + 1) % 12 = i + 1 := by omega
    unfold makeDay
    simp only [h12, hmod, h12b, hmodb, add_zero, hs]
    omega

theorem daysInMonth_pos (y i : Int) : 28 ≤ daysInMonth y i ∧ daysInMonth y i ≤ 31 := by
  have hl := inLeapYear_cases y
  unfold daysInMonth
  omega

theorem makeDay_bounds (y i d : Int) (hy : -270000 ≤ y ∧ y ≤ 270000) (hi : 0 ≤ i ∧ i ≤ 11)
    (hd : 1 ≤ d ∧ d ≤ daysInMonth y i) :
    -100000000 ≤ makeDay y i d ∧ makeDay y i d ≤ 100000000 := by
  have hb := monthStart_bounds y i d hi hd
  have hl := inLeapYear_cases y
  have hyb := dayFromYear_bounds y hy
  have h12 : i / 12 = 0 := by omega
  have hmod : i % 12 = i := by omega
  unfold makeDay
  rw [h12, hmod, add_zero]
  omega

/-- The date text of day `d` of month `i` of year `y`, built with `Date.UTC`. -/
theorem format_dateUTC (y i d : Int) (hy0 : ¬(0 ≤ y ∧ y ≤ 99)) (hy : -270000 ≤ y ∧ y ≤ 270000)
    (hi : 0 ≤ i ∧ i ≤ 11) (hd : 1 ≤ d ∧ d ≤ daysInMonth y i) :
    format (dateUTC (some y) (some i) (some d)) = .ok (isoString y (i + 1) d) := by
  rw [dateUTC_eq _ _ _ hy0, timeClip_midnight _ (makeDay_bounds y i d hy hi hd), format_midnight]
  obtain ⟨h1, h2, h3⟩ := civil_makeDay y i d hi hd
  unfold isoDate
  rw [h1, h2, h3]

theorem format_firstDayOfMonth (y i : Int) (hy0 : ¬(0 ≤ y ∧ y ≤ 99))
    (hy : -270000 ≤ y ∧ y ≤ 270000) (hi : 0 ≤ i ∧ i ≤ 11) :
    format (firstDayOfMonth (some y) (some i)) = .ok (isoString y (i + 1) 1) := by
  have hd := daysInMonth_pos y i
  exact format_dateUTC y i 1 hy0 hy hi (by omega)

theorem format_lastDayOfMonth (y i : Int) (hy0 : ¬(0 ≤ y ∧ y ≤ 99))
    (hy : -270000 ≤ y ∧ y ≤ 270000) (hi : 0 ≤ i ∧ i ≤ 11) :
    format (lastDayOfMonth (some y) (some i)) = .ok (isoString y (i + 1) (daysInMonth y i)) := by
  have hd := daysInMonth_pos y i
  have h := format_dateUTC y i (daysInMonth y i) hy0 hy hi (by omega)
  rw [dateUTC_eq _ _ _ hy0] at h
  simp only [lastDayOfMonth, jsAdd, Option.bind]
  rw [dateUTC_eq _ _ _ hy0, makeDay_zero_next y i hi]
  exact h

/-! ## More of the calendar -/

theorem monthOfYearDay_start (leap d : Int) (hl : leap = 0 ∨ leap = 1) (h0 : 0 ≤ d)
    (h1 : d < 365 + leap) :
    monthStart leap (monthOfYearDay leap d) ≤ d ∧
      d - monthStart leap (monthOfYearDay leap d) ≤ 30 := by
  generalize hM : monthOfYearDay leap d = M
  unfold monthOfYearDay at hM
  unfold monthStart
  omega

theorem dateFromDay_bounds (z : Int) : 1 ≤ dateFromDay z ∧ dateFromDay z ≤ 31 := by
  have hr := dayWithinYear_range z
  have h := monthOfYearDay_start _ _ (inLeapYear_cases (yearFromDay z)) hr.1 hr.2
  unfold dateFromDay monthFromDay
  omega

/-- A date from 1 to 31 of a month 0..11 stays in the year. -/
theorem yearFromDay_makeDay (y m d : Int) (hm : 0 ≤ m ∧ m ≤ 11) (hd : 1 ≤ d ∧ d ≤ 31) :
    yearFromDay (makeDay y m d) = y := by
  have h12 : m / 12 = 0 := by omega
  have hmod : m % 12 = m := by omega
  have hl := inLeapYear_cases y
  have hb : 0 ≤ monthStart (inLeapYear y) m + d - 1 ∧
      monthStart (inLeapYear y) m + d - 1 < 365 + inLeapYear y := by
    unfold monthStart
    omega
  apply yearFromDay_unique
  · unfold makeDay
    rw [h12, hmod, add_zero]
    omega
  · rw [dayFromYear_succ, daysInYear_eq]
    unfold makeDay
    rw [h12, hmod, add_zero]
    omega

/-- The first day of a month is not after day 0 of the month three months later. -/
theorem makeDay_quarter_le (y m : Int) : makeDay y m 1 ≤ makeDay y (m + 3) 0 := by
  have hl := inLeapYear_cases (y + m / 12)
  have hl2 := inLeapYear_cases (y + (m + 3) / 12)
  have hs := dayFromYear_succ (y + m / 12)
  rw [daysInYear_eq] at hs
  by_cases h : m % 12 ≤ 8
  · have e1 : (m + 3) / 12 = m / 12 := by omega
    have e2 : (m + 3) % 12 = m % 12 + 3 := by omega
    unfold makeDay
    rw [e1, e2]
    unfold monthStart
    omega
  · have e1 : (m + 3) / 12 = m / 12 + 1 := by omega
    have e2 : (m + 3) % 12 = m % 12 - 9 := by omega
    rw [e1, ← add_assoc] at hl2
    unfold makeDay
    rw [e1, e2, ← add_assoc, hs]
    unfold monthStart
    omega

/-- The first day of a month is not after day 0 of the next month. -/
theorem makeDay_month_le (y m : Int) : makeDay y m 1 ≤ makeDay y (m + 1) 0 := by
  have hl := inLeapYear_cases (y + m / 12)
  have hl2 := inLeapYear_cases (y + (m + 1) / 12)
  have hs := dayFromYear_succ (y + m / 12)
  rw [daysInYear_eq] at hs
  by_cases h : m % 12 ≤ 10
  · have e1 : (m + 1) / 12 = m / 12 := by omega
    have e2 : (m + 1) % 12 = m % 12 + 1 := by omega
    unfold makeDay
    rw [e1, e2]
    unfold monthStart
    omega
  · have e1 : (m + 1) / 12 = m / 12 + 1 := by omega
    have e2 : (m + 1) % 12 = m % 12 - 11 := by omega
    rw [e1, ← add_assoc] at hl2
    unfold makeDay
    rw [e1, e2, ← add_assoc, hs]
    unfold monthStart
    omega

theorem makeDay_year_le (y : Int) : makeDay y 0 1 ≤ makeDay y 11 31 := by
  have hl := inLeapYear_cases y
  unfold makeDay
  norm_num
  unfold monthStart
  omega

theorem makeDay_jan1 (y : Int) : makeDay y 0 1 = dayFromYear y := by
  unfold makeDay monthStart
  norm_num

/-! ## Lemmas on the passes -/

theorem parsed_of_primary {parse : String → JSDate} {tz now1 : Int} {text : String}
    {r : DateRange} (now2 : Int) (h : parseDateRange parse tz now1 text = .ok (some r)) :
    parsed parse tz now1 now2 text = .ok (some r) := by
  unfold parsed
  simp only [h]

theorem firstOf_none (rs : List Rule) : firstOf (none :: rs) = firstOf rs := rfl

theorem firstOf_some (r : Except JSError DateRange) (rs : List Rule) :
    firstOf (some r :: rs) = r.map some := rfl

/-- The texts "last N days" for N from 1 to 100: no explicit range, and the number is read. -/
theorem lastNDays_text (N : Nat) (h1 : 1 ≤ N) (h2 : N ≤ 100) :
    jsMatch rangeRe (toLowerCase ("last " ++ toString N ++ " days").toList) = none ∧
      (jsMatch lastNDaysRe (toLowerCase ("last " ++ toString N ++ " days").toList)).map
        (fun c => parseInt (capture c 1)) = some (N : Int) := by
  have hall : ∀ k : Fin 100,
      jsMatch rangeRe (toLowerCase ("last " ++ toString (k.val + 1) ++ " days").toList) = none ∧
      (jsMatch lastNDaysRe (toLowerCase ("last " ++ toString (k.val + 1) ++ " days").toList)).map
        (fun c => parseInt (capture c 1)) = some ((k.val + 1 : Nat) : Int) := by
    decide!
  have h := hall ⟨N - 1, by omega⟩
  simp only [Nat.sub_add_cancel h1] at h
  exact h

/-- The rule "last N days" once the number is read: the window of `n` days ending today. -/
theorem ruleLastNDays_eq (R : Int) (hR : RefDate R) (m : List Char) (n : Int)
    (hn : -1000 ≤ n ∧ n ≤ 1000)
    (h : (jsMatch lastNDaysRe m).map (fun c => parseInt (capture c 1)) = some n) :
    ruleLastNDays (some (R * msPerDay)) m = some (.ok ⟨isoDate (R - (n - 1)), isoDate R⟩) := by
  unfold ruleLastNDays
  cases hm : jsMatch lastNDaysRe m with
  | none => rw [hm] at h; simp at h
  | some caps =>
    rw [hm] at h
    simp only [Option.map, Option.some.injEq] at h
    simp only [h, getUTCDate_midnight, jsSub, Option.bind, setUTCDate_midnight]
    have hc := timeClip_midnight (R + (dateFromDay R - (n - 1) - dateFromDay R))
      (by unfold RefDate at hR; omega)
    rw [hc, mkRange_midnight, show R + (dateFromDay R - (n - 1) - dateFromDay R) = R - (n - 1) by omega]

/-- C1: for every reference date and every N from 1 to 100, "last N days" resolves to the
window of N calendar days that ends on the reference date: endDate is the reference
date, startDate is N - 1 days before it. -/
theorem last_n_days_window (parse : String → JSDate) (tz now now2 : Int) (N : Nat)
    (hR : RefDate (localDay tz now)) (h1 : 1 ≤ N) (h2 : N ≤ 100) :
    ∃ s e : Int,
      parseDateRange parse tz now ("last " ++ toString N ++ " days") =
        .ok (some ⟨isoDate s, isoDate e⟩) ∧
      parsed parse tz now now2 ("last " ++ toString N ++ " days") =
        .ok (some ⟨isoDate s, isoDate e⟩) ∧
      e = localDay tz now ∧ s = localDay tz now - ((N : Int) - 1) ∧ e - s = (N : Int) - 1 := by
  obtain ⟨hr, hl⟩ := lastNDays_text N h1 h2
  have hp : parseDateRange parse tz now ("last " ++ toString N ++ " days") =
      .ok (some ⟨isoDate (localDay tz now - ((N : Int) - 1)), isoDate (localDay tz now)⟩) := by
    unfold parseDateRange
    simp only [ruleExplicitRange, hr, firstOf_none, normalize_now tz now hR]
    rw [ruleLastNDays_eq _ hR _ (N : Int) (by omega) hl, firstOf_some]
    rfl
  exact ⟨_, _, hp, parsed_of_primary now2 hp, rfl, rfl, by omega⟩

theorem last_n_days_window_witness :
    ∃ s e : Int,
      parseDateRange (jsDateParse 28800000) 28800000 1762300800000 ("last " ++ toString 30 ++ " days") =
        .ok (some ⟨isoDate s, isoDate e⟩) ∧
      parsed (jsDateParse 28800000) 28800000 1762300800000 1762300800000
        ("last " ++ toString 30 ++ " days") = .ok (some ⟨isoDate s, isoDate e⟩) ∧
      e = localDay 28800000 1762300800000 ∧
      s = localDay 28800000 1762300800000 - (((30 : Nat) : Int) - 1) ∧
      e - s = ((30 : Nat) : Int) - 1 :=
  last_n_days_window (jsDateParse 28800000) 28800000 1762300800000 1762300800000 30
    (by unfold RefDate localDay day msPerDay; decide) (by decide) (by decide)

/-- The monday of the week of day `R`, as the week rules compute it. -/
theorem weekStart_facts (R : Int) :
    weekDay (R - (weekDay R + 6) % 7) = 1 ∧ weekDay (R - (weekDay R + 6) % 7 + 6) = 0 ∧
      R - (weekDay R + 6) % 7 ≤ R ∧ R ≤ R - (weekDay R + 6) % 7 + 6 := by
  unfold weekDay
  omega

/-- The rule "this week" on a text that has the phrase. -/
theorem ruleThisWeek_eq (R : Int) (hR : RefDate R) (m : List Char)
    (h : includes m "this week".toList = true) :
    ruleThisWeek (some (R * msPerDay)) m =
      some (.ok ⟨isoDate (R - (weekDay R + 6) % 7), isoDate (R - (weekDay R + 6) % 7 + 6)⟩) := by
  have hw := weekStart_facts R
  unfold RefDate at hR
  unfold ruleThisWeek
  simp only [h, if_true, getUTCDay_midnight, getUTCDate_midnight, Option.map, jsSub, jsAdd,
    Option.bind, setUTCDate_midnight]
  rw [show R + (dateFromDay R - (weekDay R + 6) % 7 - dateFromDay R) = R - (weekDay R + 6) % 7
    by omega]
  rw [timeClip_midnight (R - (weekDay R + 6) % 7) (by omega)]
  simp only [getUTCDate_midnight, Option.bind, setUTCDate_midnight]
  rw [show R - (weekDay R + 6) % 7 + (dateFromDay (R - (weekDay R + 6) % 7) + 6 -
    dateFromDay (R - (weekDay R + 6) % 7)) = R - (weekDay R + 6) % 7 + 6 by omega]
  rw [timeClip_midnight (R - (weekDay R + 6) % 7 + 6) (by omega), mkRange_midnight]

/-- The rule "last week" on a text that has the phrase. -/
theorem ruleLastWeek_eq (R : Int) (hR : RefDate R) (m : List Char)
    (h : includes m "last week".toList = true) :
    ruleLastWeek (some (R * msPerDay)) m =
      some (.ok ⟨isoDate (R - (weekDay R + 6) % 7 - 7), isoDate (R - (weekDay R + 6) % 7 - 1)⟩) := by
  have hw := weekStart_facts R
  unfold RefDate at hR
  unfold ruleLastWeek
  simp only [h, if_true, getUTCDay_midnight, getUTCDate_midnight, Option.map, jsSub,
    Option.bind, setUTCDate_midnight]
  rw [show R + (dateFromDay R - (weekDay R + 6) % 7 - dateFromDay R) = R - (weekDay R + 6) % 7
    by omega]
  rw [timeClip_midnight (R - (weekDay R + 6) % 7) (by omega)]
  simp only [getUTCDate_midnight, Option.bind, setUTCDate_midnight]
  rw [show R - (weekDay R + 6) % 7 + (dateFromDay (R - (weekDay R + 6) % 7) - 7 -
    dateFromDay (R - (weekDay R + 6) % 7)) = R - (weekDay R + 6) % 7 - 7 by omega]
  rw [show R - (weekDay R + 6) % 7 + (dateFromDay (R - (weekDay R + 6) % 7) - 1 -
    dateFromDay (R - (weekDay R + 6) % 7)) = R - (weekDay R + 6) % 7 - 1 by omega]
  rw [timeClip_midnight (R - (weekDay R + 6) % 7 - 7) (by omega),
    timeClip_midnight (R - (weekDay R + 6) % 7 - 1) (by omega), mkRange_midnight]

/-- The text "this week" reaches the rule "this week". -/
theorem thisWeek_text :
    jsMatch rangeRe (toLowerCase "this week".toList) = none ∧
      jsMatch lastNDaysRe (toLowerCase "this week".toList) = none ∧
      includes (toLowerCase "this week".toList) "this week".toList = true := by
  decide!

/-- The text "last week" reaches the rule "last week". -/
theorem lastWeek_text :
    jsMatch rangeRe (toLowerCase "last week".toList) = none ∧
      jsMatch lastNDaysRe (toLowerCase "last week".toList) = none ∧
      includes (toLowerCase "last week".toList) "this week".toList = false ∧
      includes (toLowerCase "last week".toList) "last week".toList = true := by
  decide!

theorem ruleExplicitRange_none (parse : String → JSDate) (tz : Int) (m : List Char)
    (h : jsMatch rangeRe m = none) : ruleExplicitRange parse tz m = none := by
  unfold ruleExplicitRange
  simp only [h]

theorem ruleLastNDays_none (today : JSDate) (m : List Char)
    (h : jsMatch lastNDaysRe m = none) : ruleLastNDays today m = none := by
  unfold ruleLastNDays
  simp only [h]

theorem ruleThisWeek_none (today : JSDate) (m : List Char)
    (h : includes m "this week".toList = false) : ruleThisWeek today m = none := by
  unfold ruleThisWeek
  simp only [h, Bool.false_eq_true, if_false]

theorem parseDateRange_thisWeek (parse : String → JSDate) (tz now : Int)
    (hR : RefDate (localDay tz now)) :
    parseDateRange parse tz now "this week" =
      .ok (some ⟨isoDate (localDay tz now - (weekDay (localDay tz now) + 6) % 7),
        isoDate (localDay tz now - (weekDay (localDay tz now) + 6) % 7 + 6)⟩) := by
  obtain ⟨h1, h2, h3⟩ := thisWeek_text
  unfold parseDateRange
  simp only [ruleExplicitRange_none _ _ _ h1, ruleLastNDays_none _ _ h2, firstOf_none,
    normalize_now tz now hR, ruleThisWeek_eq _ hR _ h3, firstOf_some]
  rfl

theorem parseDateRange_lastWeek (parse : String → JSDate) (tz now : Int)
    (hR : RefDate (localDay tz now)) :
    parseDateRange parse tz now "last week" =
      .ok (some ⟨isoDate (localDay tz now - (weekDay (localDay tz now) + 6) % 7 - 7),
        isoDate (localDay tz now - (weekDay (localDay tz now) + 6) % 7 - 1)⟩) := by
  obtain ⟨h1, h2, h3, h4⟩ := lastWeek_text
  unfold parseDateRange
  simp only [ruleExplicitRange_none _ _ _ h1, ruleLastNDays_none _ _ h2,
    ruleThisWeek_none _ _ h3, firstOf_none,
    normalize_now tz now hR, ruleLastWeek_eq _ hR _ h4, firstOf_some]
  rfl

/-- C2: for every reference date, "this week" resolves to seven calendar days, from a
Monday to the following Sunday, and the reference date lies within them. -/
theorem this_week_monday_to_sunday (parse : String → JSDate) (tz now now2 : Int)
    (hR : RefDate (localDay tz now)) :
    ∃ s : Int,
      parseDateRange parse tz now "this week" = .ok (some ⟨isoDate s, isoDate (s + 6)⟩) ∧
      parsed parse tz now now2 "this week" = .ok (some ⟨isoDate s, isoDate (s + 6)⟩) ∧
      weekDay s = 1 ∧ weekDay (s + 6) = 0 ∧ s ≤ localDay tz now ∧ localDay tz now ≤ s + 6 := by
  have hp := parseDateRange_thisWeek parse tz now hR
  obtain ⟨w1, w2, w3, w4⟩ := weekStart_facts (localDay tz now)
  exact ⟨_, hp, parsed_of_primary now2 hp, w1, w2, w3, w4⟩

theorem this_week_monday_to_sunday_witness :
    ∃ s : Int,
      parseDateRange (jsDateParse 28800000) 28800000 1762300800000 "this week" =
        .ok (some ⟨isoDate s, isoDate (s + 6)⟩) ∧
      parsed (jsDateParse 28800000) 28800000 1762300800000 1762300800000 "this week" =
        .ok (some ⟨isoDate s, isoDate (s + 6)⟩) ∧
      weekDay s = 1 ∧ weekDay (s + 6) = 0 ∧ s ≤ localDay 28800000 1762300800000 ∧
      localDay 28800000 1762300800000 ≤ s + 6 :=
  this_week_monday_to_sunday (jsDateParse 28800000) 28800000 1762300800000 1762300800000
    (by unfold RefDate localDay day msPerDay; decide)

/-- C10: for every reference date, "last week" resolves to the Monday-to-Sunday block
just before the block of "this week": it starts on the Monday seven days before this
week's start and ends on the Sunday one day before it. -/
theorem last_week_precedes_this_week (parse : String → JSDate) (tz now now2 : Int)
    (hR : RefDate (localDay tz now)) :
    ∃ s : Int,
      parseDateRange parse tz now "this week" = .ok (some ⟨isoDate s, isoDate (s + 6)⟩) ∧
      parseDateRange parse tz now "last week" = .ok (some ⟨isoDate (s - 7), isoDate (s - 1)⟩) ∧
      parsed parse tz now now2 "last week" = .ok (some ⟨isoDate (s - 7), isoDate (s - 1)⟩) ∧
      weekDay (s - 7) = 1 ∧ weekDay (s - 1) = 0 ∧ (s - 1) - (s - 7) = 6 := by
  have hp := parseDateRange_lastWeek parse tz now hR
  refine ⟨_, parseDateRange_thisWeek parse tz now hR, hp, parsed_of_primary now2 hp, ?_, ?_, ?_⟩
  · unfold weekDay; omega
  · unfold weekDay; omega
  · omega

theorem last_week_precedes_this_week_witness :
    ∃ s : Int,
      parseDateRange (jsDateParse 28800000) 28800000 1762300800000 "this week" =
        .ok (some ⟨isoDate s, isoDate (s + 6)⟩) ∧
      parseDateRange (jsDateParse 28800000) 28800000 1762300800000 "last week" =
        .ok (some ⟨isoDate (s - 7), isoDate (s - 1)⟩) ∧
      parsed (jsDateParse 28800000) 28800000 1762300800000 1762300800000 "last week" =
        .ok (some ⟨isoDate (s - 7), isoDate (s - 1)⟩) ∧
      weekDay (s - 7) = 1 ∧ weekDay (s - 1) = 0 ∧ (s - 1) - (s - 7) = 6 :=
  last_week_precedes_this_week (jsDateParse 28800000) 28800000 1762300800000 1762300800000
    (by unfold RefDate localDay day msPerDay; decide)

theorem daysInMonth_gregorian (y i : Int) : daysInMonth y i = lastDayGregorian y i := by
  unfold daysInMonth lastDayGregorian inLeapYear daysInYear
  omega

/-- The loop over the month names returns the month of the first name included. -/
theorem monthLoop_eq (today : JSDate) (m : List Char) (names : List String) (i : Int) :
    monthLoop today m names i = (firstIncluded m names i).map fun k =>
      mkRange (firstDayOfMonth (monthRuleYear today m) (some k))
        (lastDayOfMonth (monthRuleYear today m) (some k)) := by
  induction names generalizing i with
  | nil => rfl
  | cons name rest ih =>
    unfold monthLoop firstIncluded
    by_cases h : includes m name.toList = true
    · simp only [h, if_true, Option.map]
    · simp only [h, if_false]
      exact ih (i + 1)

/-- A range made of two dates that format. -/
theorem mkRange_ok {a b : JSDate} {s e : String} (ha : format a = .ok s) (hb : format b = .ok e) :
    mkRange a b = .ok ⟨s, e⟩ := by
  unfold mkRange
  rw [ha, hb]
  rfl

/-- The full month `k` of year `y`, as the month and quarter rules build it. -/
theorem mkRange_month (y k : Int) (hy0 : ¬(0 ≤ y ∧ y ≤ 99)) (hy : -270000 ≤ y ∧ y ≤ 270000)
    (hk : 0 ≤ k ∧ k ≤ 11) :
    mkRange (firstDayOfMonth (some y) (some k)) (lastDayOfMonth (some y) (some k)) =
      .ok ⟨isoString y (k + 1) 1, isoString y (k + 1) (lastDayGregorian y k)⟩ := by
  rw [← daysInMonth_gregorian]
  exact mkRange_ok (format_firstDayOfMonth y k hy0 hy hk) (format_lastDayOfMonth y k hy0 hy hk)

/-- The rule of the month names on a text without a `20xx` token. -/
theorem ruleMonthName_eq (R : Int) (hR : RefDate R) (m : List Char) (k : Int)
    (hk : 0 ≤ k ∧ k ≤ 11) (hy : jsMatch yearRe m = none)
    (h : firstIncluded m monthNames 0 = some k) :
    ruleMonthName (some (R * msPerDay)) m =
      some (.ok ⟨isoString (yearFromDay R) (k + 1) 1,
        isoString (yearFromDay R) (k + 1) (lastDayGregorian (yearFromDay R) k)⟩) := by
  have hyr := hR.year
  unfold ruleMonthName
  rw [monthLoop_eq, h]
  simp only [monthRuleYear, hy, Option.map, getUTCFullYear_midnight]
  rw [mkRange_month _ _ (by omega) (by omega) hk]

theorem ruleLastWeek_none (today : JSDate) (m : List Char)
    (h : includes m "last week".toList = false) : ruleLastWeek today m = none := by
  unfold ruleLastWeek
  simp only [h, Bool.false_eq_true, if_false]

theorem ruleThisMonth_none (today : JSDate) (m : List Char)
    (h : includes m "this month".toList = false) : ruleThisMonth today m = none := by
  unfold ruleThisMonth
  simp only [h, Bool.false_eq_true, if_false]

theorem ruleLastMonth_none (today : JSDate) (m : List Char)
    (h : includes m "last month".toList = false) : ruleLastMonth today m = none := by
  unfold ruleLastMonth
  simp only [h, Bool.false_eq_true, if_false]

theorem ruleThisQuarter_none (tz : Int) (today : JSDate) (m : List Char)
    (h : includes m "this quarter".toList = false) : ruleThisQuarter tz today m = none := by
  unfold ruleThisQuarter
  simp only [h, Bool.false_eq_true, if_false]

theorem ruleLastQuarter_none (tz : Int) (today : JSDate) (m : List Char)
    (h : includes m "last quarter".toList = false) : ruleLastQuarter tz today m = none := by
  unfold ruleLastQuarter
  simp only [h, Bool.false_eq_true, if_false]

theorem ruleQuarterYear_none (m : List Char) (h : jsMatch quarterRe m = none) :
    ruleQuarterYear m = none := by
  unfold ruleQuarterYear
  simp only [h]

/-- When the first eight rules are not taken the primary pass is decided by the rest. -/
theorem parseDateRange_late (parse : String → JSDate) (tz now : Int) (text : String)
    (h : noEarlyPhrase (toLowerCase text.toList) = true) :
    parseDateRange parse tz now text =
      firstOf [ruleQuarterYear (toLowerCase text.toList),
        ruleMonthName (normalize tz (some now)) (toLowerCase text.toList),
        ruleToday (normalize tz (some now)) (toLowerCase text.toList),
        ruleYesterday (normalize tz (some now)) (toLowerCase text.toList),
        ruleSingleDate parse tz text] := by
  unfold noEarlyPhrase at h
  simp only [Bool.and_eq_true, Option.isNone_iff_eq_none, Bool.not_eq_true',
    ] at h
  obtain ⟨⟨⟨⟨⟨⟨⟨h1, h2⟩, h3⟩, h4⟩, h5⟩, h6⟩, h7⟩, h8⟩ := h
  unfold parseDateRange
  simp only [ruleExplicitRange_none _ _ _ h1, ruleLastNDays_none _ _ h2,
    ruleThisWeek_none _ _ h3, ruleLastWeek_none _ _ h4, ruleThisMonth_none _ _ h5,
    ruleLastMonth_none _ _ h6, ruleThisQuarter_none _ _ _ h7, ruleLastQuarter_none _ _ _ h8,
    firstOf_none]

/-- The texts "report for M", with the month name in lower case or capitalised. -/
theorem monthName_texts (i : Fin 12) :
    (noEarlyPhrase (toLowerCase ("report for " ++ monthNames.get i).toList) = true ∧
      jsMatch quarterRe (toLowerCase ("report for " ++ monthNames.get i).toList) = none ∧
      jsMatch yearRe (toLowerCase ("report for " ++ monthNames.get i).toList) = none ∧
      firstIncluded (toLowerCase ("report for " ++ monthNames.get i).toList) monthNames 0 =
        some (i.val : Int)) ∧
    (noEarlyPhrase (toLowerCase ("report for " ++ englishMonths.get i).toList) = true ∧
      jsMatch quarterRe (toLowerCase ("report for " ++ englishMonths.get i).toList) = none ∧
      jsMatch yearRe (toLowerCase ("report for " ++ englishMonths.get i).toList) = none ∧
      firstIncluded (toLowerCase ("report for " ++ englishMonths.get i).toList) monthNames 0 =
        some (i.val : Int)) := by
  revert i
  decide!

/-- The primary pass on a text whose first phrase is a month name, without a year. -/
theorem parseDateRange_month (parse : String → JSDate) (tz now : Int) (text : String) (k : Int)
    (hR : RefDate (localDay tz now)) (hk : 0 ≤ k ∧ k ≤ 11)
    (h : noEarlyPhrase (toLowerCase text.toList) = true ∧
      jsMatch quarterRe (toLowerCase text.toList) = none ∧
      jsMatch yearRe (toLowerCase text.toList) = none ∧
      firstIncluded (toLowerCase text.toList) monthNames 0 = some k) :
    parseDateRange parse tz now text =
      .ok (some ⟨isoString (yearFromDay (localDay tz now)) (k + 1) 1,
        isoString (yearFromDay (localDay tz now)) (k + 1)
          (lastDayGregorian (yearFromDay (localDay tz now)) k)⟩) := by
  obtain ⟨h1, h2, h3, h4⟩ := h
  rw [parseDateRange_late parse tz now text h1, ruleQuarterYear_none _ h2, firstOf_none,
    normalize_now tz now hR, ruleMonthName_eq _ hR _ k hk h3 h4, firstOf_some]
  rfl

/-- C3: for every reference date and each of the twelve month names, "report for M"
resolves to the whole of month M in the year of the reference date: from day 1 to
the last day, which for February is 28 or 29 by the Gregorian leap-year rule and
otherwise 30 or 31. -/
theorem month_name_full_month (parse : String → JSDate) (tz now now2 : Int) (i : Fin 12)
    (hR : RefDate (localDay tz now)) :
    (parseDateRange parse tz now ("report for " ++ monthNames.get i) =
        .ok (some ⟨isoString (yearFromDay (localDay tz now)) (i.val + 1) 1,
          isoString (yearFromDay (localDay tz now)) (i.val + 1)
            (lastDayGregorian (yearFromDay (localDay tz now)) i.val)⟩) ∧
      parseDateRange parse tz now ("report for " ++ englishMonths.get i) =
        parseDateRange parse tz now ("report for " ++ monthNames.get i) ∧
      parsed parse tz now now2 ("report for " ++ englishMonths.get i) =
        parseDateRange parse tz now ("report for " ++ monthNames.get i)) ∧
    (28 ≤ lastDayGregorian (yearFromDay (localDay tz now)) i.val ∧
      lastDayGregorian (yearFromDay (localDay tz now)) i.val ≤ 31) := by
  obtain ⟨hl, hc⟩ := monthName_texts i
  have hk : (0 : Int) ≤ (i.val : Int) ∧ (i.val : Int) ≤ 11 := by omega
  have h1 := parseDateRange_month parse tz now _ _ hR hk hl
  have h2 := parseDateRange_month parse tz now _ _ hR hk hc
  refine ⟨⟨h1, h2.trans h1.symm, ?_⟩, ?_⟩
  · rw [parsed_of_primary now2 h2, h1]
  · unfold lastDayGregorian
    omega

theorem month_name_full_month_witness :
    (parseDateRange (jsDateParse 28800000) 28800000 1762300800000
        ("report for " ++ monthNames.get (1 : Fin 12)) =
        .ok (some ⟨isoString (yearFromDay (localDay 28800000 1762300800000))
            (((1 : Fin 12).val : Int) + 1) 1,
          isoString (yearFromDay (localDay 28800000 1762300800000)) (((1 : Fin 12).val : Int) + 1)
            (lastDayGregorian (yearFromDay (localDay 28800000 1762300800000))
              ((1 : Fin 12).val : Int))⟩) ∧
      parseDateRange (jsDateParse 28800000) 28800000 1762300800000
          ("report for " ++ englishMonths.get (1 : Fin 12)) =
        parseDateRange (jsDateParse 28800000) 28800000 1762300800000
          ("report for " ++ monthNames.get (1 : Fin 12)) ∧
      parsed (jsDateParse 28800000) 28800000 1762300800000 1762300800000
          ("report for " ++ englishMonths.get (1 : Fin 12)) =
        parseDateRange (jsDateParse 28800000) 28800000 1762300800000
          ("report for " ++ monthNames.get (1 : Fin 12))) ∧
    (28 ≤ lastDayGregorian (yearFromDay (localDay 28800000 1762300800000))
        ((1 : Fin 12).val : Int) ∧
      lastDayGregorian (yearFromDay (localDay 28800000 1762300800000))
        ((1 : Fin 12).val : Int) ≤ 31) :=
  month_name_full_month (jsDateParse 28800000) 28800000 1762300800000 1762300800000 1
    (by unfold RefDate localDay day msPerDay; decide)

/-! ## Texts with digits left open -/

theorem toDigitsCore_step (fuel n : Nat) (ds : List Char) :
    Nat.toDigitsCore 10 (fuel + 1) n ds =
      if n / 10 = 0 then Nat.digitChar (n % 10) :: ds
      else Nat.toDigitsCore 10 fuel (n / 10) (Nat.digitChar (n % 10) :: ds) := by
  rfl

/-- The decimal text of a number of four digits. -/
theorem toString_fourDigits (y : Nat) (h1 : 1000 ≤ y) (h2 : y ≤ 9999) :
    (toString y).toList =
      [Nat.digitChar (y / 1000), Nat.digitChar (y / 100 % 10), Nat.digitChar (y / 10 % 10),
        Nat.digitChar (y % 10)] := by
  have e1 : y / 10 ≠ 0 := by omega
  have e2 : y / 10 / 10 ≠ 0 := by omega
  have e3 : y / 10 / 10 / 10 ≠ 0 := by omega
  have e4 : y / 10 / 10 / 10 / 10 = 0 := by omega
  obtain ⟨f, hf⟩ : ∃ f, y + 1 = f + 1 + 1 + 1 + 1 := ⟨y - 3, by omega⟩
  show Nat.toDigitsCore 10 (y + 1) y [] = _
  rw [hf, toDigitsCore_step, if_neg e1, toDigitsCore_step, if_neg e2, toDigitsCore_step,
    if_neg e3, toDigitsCore_step, if_pos e4]
  rw [show y / 10 / 10 / 10 % 10 = y / 1000 by omega, show y / 10 / 10 % 10 = y / 100 % 10 by omega]

theorem toString_oneDigit (q : Nat) (h : q ≤ 9) : (toString q).toList = [Nat.digitChar q] := by
  interval_cases q <;> rfl

/-- What the patterns can see of a decimal digit. -/
theorem digitChar_facts (k : Nat) (hk : k ≤ 9) :
    isDigit (Nat.digitChar k) = true ∧ isWordChar (Nat.digitChar k) = true ∧
      isSpace (Nat.digitChar k) = false ∧ lowerChar (Nat.digitChar k) = [Nat.digitChar k] ∧
      (Nat.digitChar k).toNat - 48 = k ∧
      Nat.digitChar k ≠ 'f' ∧ Nat.digitChar k ≠ 'b' ∧ Nat.digitChar k ≠ 'l' ∧
      Nat.digitChar k ≠ 't' := by
  interval_cases k <;> decide

theorem includes_head_absent (m : List Char) (c : Char) (p : List Char)
    (h : ∀ x ∈ m, x ≠ c) : includes m (c :: p) = false := by
  induction m with
  | nil => rfl
  | cons x xs ih =>
    have hx : x ≠ c := h x (List.mem_cons_self _ _)
    have hxs : ∀ y ∈ xs, y ≠ c := fun y hy => h y (List.mem_cons_of_mem _ hy)
    unfold includes
    rw [ih hxs, Bool.or_false]
    simp [List.isPrefixOf, Ne.symm hx]

theorem rangeRe_run_none (prev : Option Char) (s : List Char) (caps : Caps)
    (k : Cursor → Caps → Option Caps)
    (h : ∀ x, s.head? = some x → x ≠ 'f' ∧ x ≠ 'b') :
    rangeRe.run ⟨prev, s⟩ caps k = none := by
  cases s with
  | nil => simp [rangeRe, Re.cat, Re.word, Re.run]
  | cons x xs =>
    obtain ⟨hf, hb⟩ := h x rfl
    simp [rangeRe, Re.cat, Re.word, Re.run, hf, hb]

/-- The explicit-range pattern needs an `f` or a `b`. -/
theorem rangeRe_search_none (m : List Char) (prev : Option Char)
    (h : ∀ x ∈ m, x ≠ 'f' ∧ x ≠ 'b') : rangeRe.search prev m = none := by
  induction m generalizing prev with
  | nil =>
    unfold Re.search
    exact rangeRe_run_none _ _ _ _ (by simp)
  | cons x xs ih =>
    unfold Re.search
    rw [rangeRe_run_none _ _ _ _
      (by intro y hy; simp at hy; subst hy; exact h _ (List.mem_cons_self _ _))]
    exact ih _ (fun y hy => h y (List.mem_cons_of_mem _ hy))

theorem lastNDaysRe_run_none (prev : Option Char) (s : List Char) (caps : Caps)
    (k : Cursor → Caps → Option Caps) (h : ∀ x, s.head? = some x → x ≠ 'l') :
    lastNDaysRe.run ⟨prev, s⟩ caps k = none := by
  cases s with
  | nil => simp [lastNDaysRe, Re.cat, Re.word, Re.run]
  | cons x xs =>
    have hl := h x rfl
    simp [lastNDaysRe, Re.cat, Re.word, Re.run, hl]

/-- The pattern of "last N days" needs an `l`. -/
theorem lastNDaysRe_search_none (m : List Char) (prev : Option Char)
    (h : ∀ x ∈ m, x ≠ 'l') : lastNDaysRe.search prev m = none := by
  induction m generalizing prev with
  | nil =>
    unfold Re.search
    exact lastNDaysRe_run_none _ _ _ _ (by simp)
  | cons x xs ih =>
    unfold Re.search
    rw [lastNDaysRe_run_none _ _ _ _
      (by intro y hy; simp at hy; subst hy; exact h _ (List.mem_cons_self _ _))]
    exact ih _ (fun y hy => h y (List.mem_cons_of_mem _ hy))

/-- A text without the letters `f`, `b`, `l` and `t` has none of the early phrases. -/
theorem noEarlyPhrase_of_letters (m : List Char)
    (h : ∀ x ∈ m, x ≠ 'f' ∧ x ≠ 'b' ∧ x ≠ 'l' ∧ x ≠ 't') : noEarlyPhrase m = true := by
  have hr := rangeRe_search_none m none (fun x hx => ⟨(h x hx).1, (h x hx).2.1⟩)
  have hl := lastNDaysRe_search_none m none (fun x hx => (h x hx).2.2.1)
  have ht : ∀ p, includes m ('t' :: p) = false :=
    fun p => includes_head_absent m 't' p (fun x hx => (h x hx).2.2.2)
  have hl2 : ∀ p, includes m ('l' :: p) = false :=
    fun p => includes_head_absent m 'l' p (fun x hx => (h x hx).2.2.1)
  unfold noEarlyPhrase jsMatch
  rw [hr, hl]
  have t1 : includes m "this week".toList = false := ht _
  have t2 : includes m "last week".toList = false := hl2 _
  have t3 : includes m "this month".toList = false := ht _
  have t4 : includes m "last month".toList = false := hl2 _
  have t5 : includes m "this quarter".toList = false := ht _
  have t6 : includes m "last quarter".toList = false := hl2 _
  rw [t1, t2, t3, t4, t5, t6]
  rfl

theorem quarterRe_match (qc d1 d2 d3 d4 : Char) (hq : ('1' ≤ qc && qc ≤ '4') = true)
    (h1 : isDigit d1 = true) (h2 : isDigit d2 = true) (h3 : isDigit d3 = true)
    (h4 : isDigit d4 = true) (hs : isSpace d1 = false) (hw : isWordChar d4 = true) :
    jsMatch quarterRe ['q', qc, ' ', d1, d2, d3, d4] =
      some [(2, [d1, d2, d3, d4]), (1, [qc])] := by
  have hwq : isWordChar 'q' = true := by decide
  have hsp : isSpace ' ' = true := by decide
  simp [jsMatch, Re.search, quarterRe, Re.cat, Re.run, repRun, atWordBoundary, hq, h1, h2, h3, h4,
    hs, hw, hwq, hsp]

/-- The lower-cased text "Qq y" and what the patterns find in it. -/
theorem quarterYear_text (q y : Nat) (hq : 1 ≤ q ∧ q ≤ 4) (hy : 1000 ≤ y ∧ y ≤ 9999) :
    noEarlyPhrase (toLowerCase ("Q" ++ toString q ++ " " ++ toString y).toList) = true ∧
      ∃ caps, jsMatch quarterRe (toLowerCase ("Q" ++ toString q ++ " " ++ toString y).toList) =
          some caps ∧
        parseInt (capture caps 1) = (q : Int) ∧ parseInt (capture caps 2) = (y : Int) := by
  have hq1 : ('1' ≤ Nat.digitChar q && Nat.digitChar q ≤ '4') = true := by
    obtain ⟨a, b⟩ := hq
    interval_cases q <;> decide
  obtain ⟨q1, q2, q3, q4, q5, q6, q7, q8, q9⟩ := digitChar_facts q (by omega)
  obtain ⟨a1, a2, a3, a4, a5, a6, a7, a8, a9⟩ := digitChar_facts (y / 1000) (by omega)
  obtain ⟨b1, b2, b3, b4, b5, b6, b7, b8, b9⟩ := digitChar_facts (y / 100 % 10) (by omega)
  obtain ⟨c1, c2, c3, c4, c5, c6, c7, c8, c9⟩ := digitChar_facts (y / 10 % 10) (by omega)
  obtain ⟨d1, d2, d3, d4, d5, d6, d7, d8, d9⟩ := digitChar_facts (y % 10) (by omega)
  have hm : toLowerCase ("Q" ++ toString q ++ " " ++ toString y).toList =
      ['q', Nat.digitChar q, ' ', Nat.digitChar (y / 1000), Nat.digitChar (y / 100 % 10),
        Nat.digitChar (y / 10 % 10), Nat.digitChar (y % 10)] := by
    have e : ("Q" ++ toString q ++ " " ++ toString y).toList =
        ['Q'] ++ (toString q).toList ++ [' '] ++ (toString y).toList := rfl
    rw [e, toString_oneDigit q (by omega), toString_fourDigits y hy.1 hy.2]
    have hQ : lowerChar 'Q' = ['q'] := by decide
    have hS : lowerChar ' ' = [' '] := by decide
    simp [toLowerCase, List.flatMap, hQ, hS, q4, a4, b4, c4, d4]
  rw [hm]
  refine ⟨?_, ?_⟩
  · apply noEarlyPhrase_of_letters
    intro x hx
    simp only [List.mem_cons, List.mem_singleton, List.not_mem_nil, or_false] at hx
    rcases hx with rfl | rfl | rfl | rfl | rfl | rfl | rfl
    · decide
    · exact ⟨q6, q7, q8, q9⟩
    · decide
    · exact ⟨a6, a7, a8, a9⟩
    · exact ⟨b6, b7, b8, b9⟩
    · exact ⟨c6, c7, c8, c9⟩
    · exact ⟨d6, d7, d8, d9⟩
  · refine ⟨_, quarterRe_match _ _ _ _ _ hq1 a1 b1 c1 d1 a3 d2, ?_, ?_⟩
    · simp only [capture, List.lookup, parseInt, List.foldl]
      simp [q5]
    · simp only [capture, List.lookup, parseInt, List.foldl]
      simp [a5, b5, c5, d5]
      omega

/-- The helper `quarterRange` for a quarter 1..4 of a year outside 0..99. -/
theorem quarterRange_eq (q y : Int) (hq : 1 ≤ q ∧ q ≤ 4) (hy0 : ¬(0 ≤ y ∧ y ≤ 99))
    (hy : -270000 ≤ y ∧ y ≤ 270000) :
    quarterRange (some q) (some y) =
      .ok ⟨isoString y (3 * q - 2) 1, isoString y (3 * q) (lastDayGregorian y (3 * q - 1))⟩ := by
  have h1 := format_firstDayOfMonth y ((q - 1) * 3) hy0 hy (by omega)
  have h2 := format_lastDayOfMonth y ((q - 1) * 3 + 2) hy0 hy (by omega)
  rw [daysInMonth_gregorian] at h2
  rw [show (q - 1) * 3 + 1 = 3 * q - 2 by omega] at h1
  rw [show (q - 1) * 3 + 2 + 1 = 3 * q by omega, show (q - 1) * 3 + 2 = 3 * q - 1 by omega] at h2
  unfold quarterRange
  simp only [Option.map, jsAdd, Option.bind]
  rw [show (q - 1) * 3 + 2 = 3 * q - 1 by omega]
  exact mkRange_ok h1 h2

/-- The primary pass on the text "Qq y". -/
theorem parseDateRange_quarterYear (parse : String → JSDate) (tz now : Int) (q y : Nat)
    (hq : 1 ≤ q ∧ q ≤ 4) (hy : 1000 ≤ y ∧ y ≤ 9999) :
    parseDateRange parse tz now ("Q" ++ toString q ++ " " ++ toString y) =
      .ok (some ⟨isoString y (3 * q - 2) 1,
        isoString y (3 * q) (lastDayGregorian y (3 * q - 1))⟩) := by
  obtain ⟨he, caps, hc, hcq, hcy⟩ := quarterYear_text q y hq hy
  rw [parseDateRange_late parse tz now _ he]
  unfold ruleQuarterYear
  simp only [hc, hcq, hcy]
  rw [quarterRange_eq _ _ (by omega) (by omega) (by omega), firstOf_some]
  rfl

/-- C4: for every quarter number q from 1 to 4 and every four-digit year y, "Qq y"
resolves to the first day of month 3q-2 up to the last day of month 3q of year y,
whatever the reference date; "Q2 2024" gives 2024-04-01 to 2024-06-30. -/
theorem quarter_year_token (parse : String → JSDate) (tz now now2 : Int) (q y : Nat)
    (hq : 1 ≤ q ∧ q ≤ 4) (hy : 1000 ≤ y ∧ y ≤ 9999) :
    parseDateRange parse tz now ("Q" ++ toString q ++ " " ++ toString y) =
        .ok (some ⟨isoString y (3 * q - 2) 1,
          isoString y (3 * q) (lastDayGregorian y (3 * q - 1))⟩) ∧
      parsed parse tz now now2 ("Q" ++ toString q ++ " " ++ toString y) =
        .ok (some ⟨isoString y (3 * q - 2) 1,
          isoString y (3 * q) (lastDayGregorian y (3 * q - 1))⟩) ∧
      parsed parse tz now now2 "Q2 2024" = .ok (some ⟨"2024-04-01", "2024-06-30"⟩) := by
  have hp := parseDateRange_quarterYear parse tz now q y hq hy
  exact ⟨hp, parsed_of_primary now2 hp,
    parsed_of_primary now2
      (parseDateRange_quarterYear parse tz now 2 2024 (by decide) (by decide))⟩

theorem quarter_year_token_witness :
    parseDateRange (jsDateParse 28800000) 28800000 1762300800000
        ("Q" ++ toString 3 ++ " " ++ toString 2025) =
        .ok (some ⟨isoString (2025 : Nat) (3 * (3 : Nat) - 2) 1,
          isoString (2025 : Nat) (3 * (3 : Nat))
            (lastDayGregorian (2025 : Nat) (3 * (3 : Nat) - 1))⟩) ∧
      parsed (jsDateParse 28800000) 28800000 1762300800000 1762300800000
          ("Q" ++ toString 3 ++ " " ++ toString 2025) =
        .ok (some ⟨isoString (2025 : Nat) (3 * (3 : Nat) - 2) 1,
          isoString (2025 : Nat) (3 * (3 : Nat))
            (lastDayGregorian (2025 : Nat) (3 * (3 : Nat) - 1))⟩) ∧
      parsed (jsDateParse 28800000) 28800000 1762300800000 1762300800000 "Q2 2024" =
        .ok (some ⟨"2024-04-01", "2024-06-30"⟩) :=
  quarter_year_token (jsDateParse 28800000) 28800000 1762300800000 1762300800000 3 2025
    (by decide) (by decide)

/-! ## Evaluations west of Greenwich -/

/-- C5: the code at the failing input. In a zone five hours behind UTC, at noon of
2024-01-01, "last quarter" resolves to July to September 2024 and not to the quarter
before the one of the reference date, October to December 2023; on 2024-01-15 the
result is the expected one. -/
theorem last_quarter_west_of_utc :
    isoDate (localDay (-18000000) 1704128400000) = "2024-01-01" ∧
      parsed (jsDateParse (-18000000)) (-18000000) 1704128400000 1704128400000 "last quarter" =
        .ok (some ⟨"2024-07-01", "2024-09-30"⟩) ∧
      isoDate (localDay (-18000000) 1705338000000) = "2024-01-15" ∧
      parsed (jsDateParse (-18000000)) (-18000000) 1705338000000 1705338000000 "last quarter" =
        .ok (some ⟨"2023-10-01", "2023-12-31"⟩) := by
  decide!

/-- C6: the code at the failing input. In a zone five hours behind UTC the text
"from 2024-03-01 to 2024-03-15" resolves to the days before the two dates, while
"from March 1, 2024 to March 15, 2024" resolves to the two dates. -/
theorem explicit_range_west_of_utc :
    parsed (jsDateParse (-18000000)) (-18000000) 1704128400000 1704128400000
        "from 2024-03-01 to 2024-03-15" = .ok (some ⟨"2024-02-29", "2024-03-14"⟩) ∧
      parsed (jsDateParse (-18000000)) (-18000000) 1704128400000 1704128400000
        "from March 1, 2024 to March 15, 2024" = .ok (some ⟨"2024-03-01", "2024-03-15"⟩) ∧
      parsed (jsDateParse 28800000) 28800000 1704128400000 1704128400000
        "from 2024-03-01 to 2024-03-15" = .ok (some ⟨"2024-03-01", "2024-03-15"⟩) := by
  decide!

/-! ## The quarter rules east of Greenwich -/

/-- East of Greenwich, less than a day ahead of UTC, the local month of a date at UTC
midnight is its UTC month. -/
theorem getQuarter_east (tz R : Int) (htz : 0 ≤ tz ∧ tz < msPerDay) :
    getQuarter tz (some (R * msPerDay)) = some (monthFromDay R / 3 + 1) := by
  have hd : day (R * msPerDay + tz) = R := by
    unfold day
    unfold msPerDay at *
    omega
  simp only [getQuarter, getMonth, Option.map, hd]

/-- The text "last quarter" reaches the rule "last quarter". -/
theorem lastQuarter_text :
    jsMatch rangeRe (toLowerCase "last quarter".toList) = none ∧
      jsMatch lastNDaysRe (toLowerCase "last quarter".toList) = none ∧
      includes (toLowerCase "last quarter".toList) "this week".toList = false ∧
      includes (toLowerCase "last quarter".toList) "last week".toList = false ∧
      includes (toLowerCase "last quarter".toList) "this month".toList = false ∧
      includes (toLowerCase "last quarter".toList) "last month".toList = false ∧
      includes (toLowerCase "last quarter".toList) "this quarter".toList = false ∧
      includes (toLowerCase "last quarter".toList) "last quarter".toList = true := by
  decide!

/-- East of Greenwich "last quarter" is the quarter before the one of the reference
date: October to December of the year before when the reference date is in January
to March, else the three months before the quarter of the reference date. -/
theorem lastQuarter_east_of_utc (parse : String → JSDate) (tz now : Int)
    (hR : RefDate (localDay tz now)) (htz : 0 ≤ tz ∧ tz < msPerDay) :
    parseDateRange parse tz now "last quarter" =
      .ok (some (if monthFromDay (localDay tz now) ≤ 2 then
        ⟨isoString (yearFromDay (localDay tz now) - 1) 10 1,
          isoString (yearFromDay (localDay tz now) - 1) 12 31⟩
      else
        ⟨isoString (yearFromDay (localDay tz now)) (3 * (monthFromDay (localDay tz now) / 3) - 2) 1,
          isoString (yearFromDay (localDay tz now)) (3 * (monthFromDay (localDay tz now) / 3))
            (lastDayGregorian (yearFromDay (localDay tz now))
              (3 * (monthFromDay (localDay tz now) / 3) - 1))⟩)) := by
  obtain ⟨h1, h2, h3, h4, h5, h6, h7, h8⟩ := lastQuarter_text
  have hy := hR.year
  have hm := monthFromDay_range (localDay tz now)
  unfold parseDateRange
  simp only [ruleExplicitRange_none _ _ _ h1, ruleLastNDays_none _ _ h2,
    ruleThisWeek_none _ _ h3, ruleLastWeek_none _ _ h4, ruleThisMonth_none _ _ h5,
    ruleLastMonth_none _ _ h6, ruleThisQuarter_none _ _ _ h7, firstOf_none,
    normalize_now tz now hR]
  unfold ruleLastQuarter
  simp only [h8, if_true, getQuarter_east tz _ htz, getUTCFullYear_midnight, jsSub, Option.bind,
    Option.some.injEq]
  by_cases hq : monthFromDay (localDay tz now) ≤ 2
  · have e : monthFromDay (localDay tz now) / 3 + 1 - 1 = 0 := by omega
    rw [if_pos e, if_pos hq, quarterRange_eq 4 _ (by omega) (by omega) (by omega), firstOf_some]
    rfl
  · have e : ¬(monthFromDay (localDay tz now) / 3 + 1 - 1 = 0) := by omega
    rw [if_neg e, if_neg hq, quarterRange_eq _ _ (by omega) (by omega) (by omega), firstOf_some,
      show monthFromDay (localDay tz now) / 3 + 1 - 1 = monthFromDay (localDay tz now) / 3
        by omega]
    rfl

/-! ## The explicit range of the specification in every zone -/

/-- The helper `normalize` on local midnight of day `X`, in a zone less than a day
from UTC, for a day of a four-digit year. -/
theorem normalize_localMidnight (tz X : Int) (hX : RefDate X)
    (htz : -msPerDay < tz ∧ tz < msPerDay) :
    normalize tz (timeClip (makeDate X 0 - tz)) = some (X * msPerDay) := by
  have hc : timeClip (makeDate X 0 - tz) = some (X * msPerDay - tz) := by
    unfold timeClip makeDate
    unfold RefDate at hX
    unfold msPerDay at *
    rw [if_pos (by omega)]
    simp
  have hl : localDay tz (X * msPerDay - tz) = X := by
    unfold localDay day
    unfold msPerDay
    omega
  rw [hc]
  have h := normalize_now tz (X * msPerDay - tz) (by rw [hl]; exact hX)
  rw [hl] at h
  exact h

/-- What the explicit-range pattern captures in the example of the specification. -/
theorem explicitRange_example_text :
    (jsMatch rangeRe (toLowerCase "from March 1, 2024 to March 15, 2024".toList)).map
        (fun c => (String.mk (trim (capture c 2)), String.mk (trim (capture c 4)))) =
      some ("march 1, 2024", "march 15, 2024") := by
  decide!

/-- In every zone less than a day from UTC, "from March 1, 2024 to March 15, 2024"
resolves to 2024-03-01 to 2024-03-15, the parser reading each side as local midnight. -/
theorem explicitRange_example (tz now : Int) (htz : -msPerDay < tz ∧ tz < msPerDay) :
    parseDateRange (jsDateParse tz) tz now "from March 1, 2024 to March 15, 2024" =
      .ok (some ⟨"2024-03-01", "2024-03-15"⟩) := by
  have ht := explicitRange_example_text
  have p1 : jsDateParse tz "march 1, 2024" = timeClip (makeDate 19783 0 - tz) := rfl
  have p2 : jsDateParse tz "march 15, 2024" = timeClip (makeDate 19797 0 - tz) := rfl
  have n1 := normalize_localMidnight tz 19783 (by unfold RefDate; decide) htz
  have n2 := normalize_localMidnight tz 19797 (by unfold RefDate; decide) htz
  have v1 : (timeClip (makeDate 19783 0 - tz)).isSome = true := by
    cases h : timeClip (makeDate 19783 0 - tz) with
    | none => rw [h] at n1; simp [normalize, getFullYear, dateUTC] at n1
    | some t => rfl
  have v2 : (timeClip (makeDate 19797 0 - tz)).isSome = true := by
    cases h : timeClip (makeDate 19797 0 - tz) with
    | none => rw [h] at n2; simp [normalize, getFullYear, dateUTC] at n2
    | some t => rfl
  unfold parseDateRange
  dsimp only
  unfold ruleExplicitRange
  cases hm : jsMatch rangeRe (toLowerCase "from March 1, 2024 to March 15, 2024".toList) with
  | none => rw [hm] at ht; simp at ht
  | some caps =>
    rw [hm] at ht
    simp only [Option.map, Option.some.injEq, Prod.mk.injEq] at ht
    simp only [ht.1, ht.2, p1, p2, v1, v2, Bool.and_self, if_true, n1, n2, mkRange_midnight,
      firstOf_some]
    decide

/-! ## No match, and the default window -/

theorem firstIncluded_none (m : List Char) (names : List String) (i : Int)
    (h : names.all (fun name => !includes m name.toList) = true) :
    firstIncluded m names i = none := by
  induction names generalizing i with
  | nil => rfl
  | cons name rest ih =>
    simp only [List.all_cons, Bool.and_eq_true, Bool.not_eq_true'] at h
    unfold firstIncluded
    simp only [h.1, Bool.false_eq_true, if_false]
    exact ih (i + 1) h.2

theorem ruleMonthName_none (today : JSDate) (m : List Char)
    (h : monthNames.all (fun name => !includes m name.toList) = true) :
    ruleMonthName today m = none := by
  unfold ruleMonthName
  rw [monthLoop_eq, firstIncluded_none m monthNames 0 h]
  rfl

theorem ruleToday_none (today : JSDate) (m : List Char)
    (h : includes m "today".toList = false) : ruleToday today m = none := by
  unfold ruleToday
  simp only [h, Bool.false_eq_true, if_false]

theorem ruleYesterday_none (today : JSDate) (m : List Char)
    (h : includes m "yesterday".toList = false) : ruleYesterday today m = none := by
  unfold ruleYesterday
  simp only [h, Bool.false_eq_true, if_false]

theorem ruleSingleDate_none (parse : String → JSDate) (tz : Int) (text : String)
    (h : parse text = none) : ruleSingleDate parse tz text = none := by
  unfold ruleSingleDate
  simp only [h, Option.isSome_none, Bool.false_eq_true, if_false]

theorem ruleNWeeks_none (today : JSDate) (m : List Char) (h : jsMatch nWeeksRe m = none) :
    ruleNWeeks today m = none := by
  unfold ruleNWeeks
  simp only [h]

theorem ruleNDays_none (today : JSDate) (m : List Char) (h : jsMatch nDaysRe m = none) :
    ruleNDays today m = none := by
  unfold ruleNDays
  simp only [h]

theorem ruleDaily_none (today : JSDate) (m : List Char)
    (h1 : includes m "a day".toList = false) (h2 : includes m "one day".toList = false)
    (h3 : includes m "day report".toList = false) (h4 : includes m "daily".toList = false) :
    ruleDaily today m = none := by
  unfold ruleDaily
  simp only [h1, h2, h3, h4, Bool.or_self, Bool.false_eq_true, if_false]

theorem ruleWeekly_none (today : JSDate) (m : List Char)
    (h1 : includes m "a week".toList = false) (h2 : includes m "one week".toList = false)
    (h3 : includes m "weekly".toList = false) : ruleWeekly today m = none := by
  unfold ruleWeekly
  simp only [h1, h2, h3, Bool.or_self, Bool.false_eq_true, if_false]

theorem ruleMonthly_none (today : JSDate) (m : List Char)
    (h : includes m "monthly".toList = false) : ruleMonthly today m = none := by
  unfold ruleMonthly
  simp only [h, Bool.false_eq_true, if_false]

theorem rulePastWeek_none (today : JSDate) (m : List Char)
    (h : includes m "past week".toList = false) : rulePastWeek today m = none := by
  unfold rulePastWeek
  simp only [h, Bool.false_eq_true, if_false]

theorem ruleLastYear_none (today : JSDate) (m : List Char)
    (h : includes m "last year".toList = false) : ruleLastYear today m = none := by
  unfold ruleLastYear
  simp only [h, Bool.false_eq_true, if_false]

theorem ruleThisYear_none (today : JSDate) (m : List Char)
    (h1 : includes m "this year".toList = false) (h2 : includes m "year to date".toList = false)
    (h3 : includes m "ytd".toList = false) : ruleThisYear today m = none := by
  unfold ruleThisYear
  simp only [h1, h2, h3, Bool.or_self, Bool.false_eq_true, if_false]

/-- Both passes return `null` on a text without any pattern that does not parse as a
date. -/
theorem parsed_noPattern (parse : String → JSDate) (tz now1 now2 : Int) (text : String)
    (hp : noPattern (toLowerCase text.toList) = true) (hd : parse text = none) :
    parseDateRange parse tz now1 text = .ok none ∧ parsed parse tz now1 now2 text = .ok none := by
  unfold noPattern at hp
  simp only [Bool.and_eq_true, Option.isNone_iff_eq_none, Bool.not_eq_true'] at hp
  obtain ⟨⟨⟨⟨⟨⟨⟨⟨⟨⟨⟨⟨⟨⟨⟨⟨⟨⟨⟨he, hq⟩, hm⟩, ht⟩, hy⟩, hw⟩, hn⟩, a1⟩, a2⟩, a3⟩, a4⟩, b1⟩, b2⟩, b3⟩,
    c1⟩, c2⟩, c3⟩, e1⟩, e2⟩, e3⟩ := hp
  have hprim : parseDateRange parse tz now1 text = .ok none := by
    rw [parseDateRange_late parse tz now1 text he, ruleQuarterYear_none _ hq,
      ruleMonthName_none _ _ hm, ruleToday_none _ _ ht, ruleYesterday_none _ _ hy,
      ruleSingleDate_none parse tz text hd]
    rfl
  refine ⟨hprim, ?_⟩
  unfold parsed
  simp only [hprim]
  rw [ruleNWeeks_none _ _ hw, ruleNDays_none _ _ hn, ruleDaily_none _ _ a1 a2 a3 a4,
    ruleWeekly_none _ _ b1 b2 b3, ruleMonthly_none _ _ c1, rulePastWeek_none _ _ c2,
    ruleLastYear_none _ _ c3, ruleThisYear_none _ _ e1 e2 e3]
  rfl

/-- C8: a text in which none of the patterns of the two passes is found and which the
date parser does not parse as a whole resolves to NoMatch, for every clock reading
and zone; "xyz please" is such a text. -/
theorem no_pattern_no_match (parse : String → JSDate) (tz now1 now2 : Int) (text : String)
    (hp : noPattern (toLowerCase text.toList) = true) (hd : parse text = none) :
    parsed parse tz now1 now2 text = .ok none ∧
      parsed (jsDateParse tz) tz now1 now2 "xyz please" = .ok none := by
  exact ⟨(parsed_noPattern parse tz now1 now2 text hp hd).2,
    (parsed_noPattern (jsDateParse tz) tz now1 now2 "xyz please" (by decide!) (by rfl)).2⟩

theorem no_pattern_no_match_witness :
    parsed (jsDateParse 28800000) 28800000 1762300800000 1762300800000 "hello museum" =
        .ok none ∧
      parsed (jsDateParse 28800000) 28800000 1762300800000 1762300800000 "xyz please" =
        .ok none :=
  no_pattern_no_match (jsDateParse 28800000) 28800000 1762300800000 1762300800000
    "hello museum" (by decide!) (by decide!)

theorem orDefault_none (fallback : Except JSError String) :
    orDefault none fallback = fallback := rfl

/-- C9: when the resolver returns NoMatch and the request is not an all-data request,
the report parameters carry as startDate the date 90 days before the clock reading and
as endDate the date 30 days after it, which are 120 days apart. -/
theorem default_window (parse : String → JSDate) (tz now1 now2 now3 : Int)
    (userRequest : String)
    (hnow : -8000000000000000 ≤ now3 ∧ now3 ≤ 8000000000000000)
    (hnone : parsed parse tz now1 now2 userRequest = .ok none)
    (hall : isAllDataRequest userRequest = false) :
    ∃ rp : ReportParams,
      reportParams parse tz now1 now2 now3 userRequest = .ok rp ∧
      rp.startDate = isoDate (day now3 - 90) ∧ rp.endDate = isoDate (day now3 + 30) ∧
      (day now3 + 30) - (day now3 - 90) = 120 := by
  have h1 : timeClip (now3 - 90 * 24 * 60 * 60 * 1000) = some (now3 - 90 * 24 * 60 * 60 * 1000) := by
    unfold timeClip
    rw [if_pos]
    omega
  have h2 : timeClip (now3 + 30 * 24 * 60 * 60 * 1000) = some (now3 + 30 * 24 * 60 * 60 * 1000) := by
    unfold timeClip
    rw [if_pos]
    omega
  have d1 : day (now3 - 90 * 24 * 60 * 60 * 1000) = day now3 - 90 := by
    unfold day msPerDay
    omega
  have d2 : day (now3 + 30 * 24 * 60 * 60 * 1000) = day now3 + 30 := by
    unfold day msPerDay
    omega
  refine ⟨⟨classifyReportType (toLowerCase userRequest.toList), isoDate (day now3 - 90),
    isoDate (day now3 + 30), true, true, true, true, true, userRequest,
    donationTypeOf (classifyReportType (toLowerCase userRequest.toList))
      (toLowerCase userRequest.toList)⟩, ?_, rfl, rfl, by omega⟩
  unfold reportParams
  simp only [hnone, hall, Except.bind, Option.map, orDefault_none, h1, h2, format, d1, d2,
    Bool.false_eq_true, if_false]

theorem default_window_witness :
    ∃ rp : ReportParams,
      reportParams (jsDateParse 28800000) 28800000 1762300800000 1762300800000 1762300800000
        "xyz please" = .ok rp ∧
      rp.startDate = isoDate (day 1762300800000 - 90) ∧
      rp.endDate = isoDate (day 1762300800000 + 30) ∧
      (day 1762300800000 + 30) - (day 1762300800000 - 90) = 120 :=
  default_window (jsDateParse 28800000) 28800000 1762300800000 1762300800000 1762300800000
    "xyz please" (by decide) (by decide!) (by decide!)

/-! ## Order of the two dates of a range -/

theorem timeClip_some {t u : Int} (h : timeClip t = some u) : u = t := by
  unfold timeClip at h
  split_ifs at h
  exact (Option.some.inj h).symm

theorem mkRange_inv {a b : JSDate} {r : DateRange} (h : mkRange a b = .ok r) :
    ∃ ta tb, a = some ta ∧ b = some tb ∧ r = ⟨isoDate (day ta), isoDate (day tb)⟩ := by
  cases a with
  | none => simp [mkRange, format, Except.bind] at h
  | some ta =>
    cases b with
    | none => simp [mkRange, format, Except.bind] at h
    | some tb =>
      simp only [mkRange, format, Except.bind, Except.ok.injEq] at h
      exact ⟨ta, tb, rfl, rfl, h.symm⟩

theorem ordered_of_days {r : DateRange} {ta tb : Int}
    (hr : r = ⟨isoDate (day ta), isoDate (day tb)⟩) (h : day ta ≤ day tb) : Ordered r :=
  ⟨day ta, day tb, h, by rw [hr], by rw [hr]⟩

/-- What `normalize` returns is invalid or UTC midnight of a day whose year is not
one of 0..99. -/
theorem normalize_shape (tz : Int) (d : JSDate) :
    normalize tz d = none ∨
      ∃ D, normalize tz d = some (D * msPerDay) ∧ ¬(0 ≤ yearFromDay D ∧ yearFromDay D ≤ 99) := by
  cases d with
  | none => left; rfl
  | some t =>
    simp only [normalize, getFullYear, getMonth, getDate, Option.map, dateUTC, Option.bind,
      makeDate, add_zero]
    cases hc : timeClip (makeDay (if 0 ≤ yearFromDay (day (t + tz)) ∧
        yearFromDay (day (t + tz)) ≤ 99 then 1900 + yearFromDay (day (t + tz))
        else yearFromDay (day (t + tz))) (monthFromDay (day (t + tz)))
        (dateFromDay (day (t + tz))) * msPerDay) with
    | none => left; rfl
    | some u =>
      right
      refine ⟨_, by rw [timeClip_some hc], ?_⟩
      rw [yearFromDay_makeDay _ _ _ (monthFromDay_range _) (dateFromDay_bounds _)]
      split_ifs <;> omega

theorem firstOf_ordered (rules : List Rule) (h : ∀ rule ∈ rules, RuleOrdered rule)
    (r : DateRange) (hr : firstOf rules = .ok (some r)) : Ordered r := by
  induction rules with
  | nil => simp [firstOf] at hr
  | cons rule rest ih =>
    cases rule with
    | none => exact ih (fun x hx => h x (List.mem_cons_of_mem _ hx)) hr
    | some res =>
      cases res with
      | error e => simp [firstOf, Except.map] at hr
      | ok v =>
        simp only [firstOf, Except.map, Except.ok.injEq, Option.some.injEq] at hr
        subst hr
        exact h _ (List.mem_cons_self _ _) v rfl

/-- A window of days ending today. -/
theorem window_ordered (D k : Int) (hk : 0 ≤ k) (r : DateRange)
    (h : mkRange (setUTCDate (some (D * msPerDay)) (jsSub (getUTCDate (some (D * msPerDay)))
      (some k))) (some (D * msPerDay)) = .ok r) : Ordered r := by
  obtain ⟨ta, tb, ha, hb, hr⟩ := mkRange_inv h
  simp only [getUTCDate_midnight, jsSub, Option.bind, setUTCDate_midnight] at ha
  have e1 := timeClip_some ha
  have e2 := (Option.some.inj hb).symm
  apply ordered_of_days hr
  rw [e1, e2, day_midnight, day_midnight]
  omega

theorem ruleLastNDays_ordered (today : JSDate) (m : List Char)
    (hT : today = none ∨ ∃ D, today = some (D * msPerDay))
    (hN : ∀ caps, jsMatch lastNDaysRe m = some caps → 1 ≤ parseInt (capture caps 1)) :
    RuleOrdered (ruleLastNDays today m) := by
  intro r h
  unfold ruleLastNDays at h
  cases hm : jsMatch lastNDaysRe m with
  | none => rw [hm] at h; simp at h
  | some caps =>
    rw [hm] at h
    have hn := hN caps hm
    simp only [Option.some.injEq] at h
    rcases hT with rfl | ⟨D, rfl⟩
    · obtain ⟨ta, tb, ha, hb, hr⟩ := mkRange_inv h
      simp at hb
    · exact window_ordered D _ (by omega) r h

theorem ruleNDays_ordered (today : JSDate) (m : List Char)
    (hT : today = none ∨ ∃ D, today = some (D * msPerDay))
    (hN : ∀ caps, jsMatch nDaysRe m = some caps → 1 ≤ parseInt (capture caps 1)) :
    RuleOrdered (ruleNDays today m) := by
  intro r h
  unfold ruleNDays at h
  cases hm : jsMatch nDaysRe m with
  | none => rw [hm] at h; simp at h
  | some caps =>
    rw [hm] at h
    have hn := hN caps hm
    simp only [Option.some.injEq] at h
    rcases hT with rfl | ⟨D, rfl⟩
    · obtain ⟨ta, tb, ha, hb, hr⟩ := mkRange_inv h
      simp at hb
    · exact window_ordered D _ (by omega) r h

theorem ruleNWeeks_ordered (today : JSDate) (m : List Char)
    (hT : today = none ∨ ∃ D, today = some (D * msPerDay))
    (hN : ∀ caps, jsMatch nWeeksRe m = some caps → 1 ≤ parseInt (capture caps 1)) :
    RuleOrdered (ruleNWeeks today m) := by
  intro r h
  unfold ruleNWeeks at h
  cases hm : jsMatch nWeeksRe m with
  | none => rw [hm] at h; simp at h
  | some caps =>
    rw [hm] at h
    have hn := hN caps hm
    simp only [Option.some.injEq] at h
    rcases hT with rfl | ⟨D, rfl⟩
    · obtain ⟨ta, tb, ha, hb, hr⟩ := mkRange_inv h
      simp at hb
    · exact window_ordered D _ (by omega) r h

theorem ruleWeekly_ordered (today : JSDate) (m : List Char)
    (hT : today = none ∨ ∃ D, today = some (D * msPerDay)) :
    RuleOrdered (ruleWeekly today m) := by
  intro r h
  unfold ruleWeekly at h
  split_ifs at h
  simp only [Option.some.injEq] at h
  rcases hT with rfl | ⟨D, rfl⟩
  · obtain ⟨ta, tb, ha, hb, hr⟩ := mkRange_inv h
    simp at hb
  · exact window_ordered D _ (by omega) r h

theorem rulePastWeek_ordered (today : JSDate) (m : List Char)
    (hT : today = none ∨ ∃ D, today = some (D * msPerDay)) :
    RuleOrdered (rulePastWeek today m) := by
  intro r h
  unfold rulePastWeek at h
  split_ifs at h
  simp only [Option.some.injEq] at h
  rcases hT with rfl | ⟨D, rfl⟩
  · obtain ⟨ta, tb, ha, hb, hr⟩ := mkRange_inv h
    simp at hb
  · exact window_ordered D _ (by omega) r h

/-- A range of one date. -/
theorem single_ordered (d : JSDate) (r : DateRange) (h : mkRange d d = .ok r) : Ordered r := by
  obtain ⟨ta, tb, ha, hb, hr⟩ := mkRange_inv h
  apply ordered_of_days hr
  rw [ha] at hb
  rw [Option.some.inj hb]

theorem ruleToday_ordered (today : JSDate) (m : List Char) : RuleOrdered (ruleToday today m) := by
  intro r h
  unfold ruleToday at h
  split_ifs at h
  exact single_ordered _ r (Option.some.inj h)

theorem ruleDaily_ordered (today : JSDate) (m : List Char) : RuleOrdered (ruleDaily today m) := by
  intro r h
  unfold ruleDaily at h
  split_ifs at h
  exact single_ordered _ r (Option.some.inj h)

theorem ruleYesterday_ordered (today : JSDate) (m : List Char) :
    RuleOrdered (ruleYesterday today m) := by
  intro r h
  unfold ruleYesterday at h
  split_ifs at h
  exact single_ordered _ r (Option.some.inj h)

theorem ruleSingleDate_ordered (parse : String → JSDate) (tz : Int) (text : String) :
    RuleOrdered (ruleSingleDate parse tz text) := by
  intro r h
  unfold ruleSingleDate at h
  dsimp only at h
  split_ifs at h
  exact single_ordered _ r (Option.some.inj h)

theorem dateUTC_some {y m d : JSNum} {t : Int} (h : dateUTC y m d = some t) :
    ∃ yv mv dv, y = some yv ∧ m = some mv ∧ d = some dv ∧
      day t = makeDay (if 0 ≤ yv ∧ yv ≤ 99 then 1900 + yv else yv) mv dv := by
  cases y with
  | none => simp [dateUTC] at h
  | some yv =>
    cases m with
    | none => simp [dateUTC] at h
    | some mv =>
      cases d with
      | none => simp [dateUTC] at h
      | some dv =>
        simp only [dateUTC, Option.bind, makeDate, add_zero] at h
        refine ⟨yv, mv, dv, rfl, rfl, rfl, ?_⟩
        rw [timeClip_some h, day_midnight]

/-- A calendar month built with `firstDayOfMonth` and `lastDayOfMonth`. -/
theorem month_ordered (year mo : JSNum) (r : DateRange)
    (h : mkRange (firstDayOfMonth year mo) (lastDayOfMonth year mo) = .ok r) : Ordered r := by
  obtain ⟨ta, tb, ha, hb, hr⟩ := mkRange_inv h
  obtain ⟨yv, mv, dv, e1, e2, e3, e4⟩ := dateUTC_some ha
  obtain ⟨yw, mw, dw, f1, f2, f3, f4⟩ := dateUTC_some hb
  subst e1 e2
  simp only [jsAdd, Option.bind, Option.some.injEq] at f1 f2 f3 e3
  subst f1 f2 f3 e3
  apply ordered_of_days hr
  rw [e4, f4]
  exact makeDay_month_le _ _

/-- A quarter built with `quarterRange`. -/
theorem quarter_ordered (q year : JSNum) (r : DateRange) (h : quarterRange q year = .ok r) :
    Ordered r := by
  unfold quarterRange at h
  obtain ⟨ta, tb, ha, hb, hr⟩ := mkRange_inv h
  obtain ⟨yv, mv, dv, e1, e2, e3, e4⟩ := dateUTC_some ha
  obtain ⟨yw, mw, dw, f1, f2, f3, f4⟩ := dateUTC_some hb
  subst e1
  rw [e2] at f2
  simp only [jsAdd, Option.bind, Option.some.injEq] at f1 f2 f3 e3
  subst f1 f2 f3 e3
  apply ordered_of_days hr
  rw [e4, f4, show mv + 2 + 1 = mv + 3 by omega]
  exact makeDay_quarter_le _ _

theorem ruleThisMonth_ordered (today : JSDate) (m : List Char) :
    RuleOrdered (ruleThisMonth today m) := by
  intro r h
  unfold ruleThisMonth at h
  split_ifs at h
  exact month_ordered _ _ r (Option.some.inj h)

theorem ruleLastMonth_ordered (today : JSDate) (m : List Char) :
    RuleOrdered (ruleLastMonth today m) := by
  intro r h
  unfold ruleLastMonth at h
  split_ifs at h
  · exact month_ordered _ _ r (Option.some.inj h)
  · exact month_ordered _ _ r (Option.some.inj h)

theorem ruleMonthly_ordered (today : JSDate) (m : List Char) :
    RuleOrdered (ruleMonthly today m) := by
  intro r h
  unfold ruleMonthly at h
  split_ifs at h
  exact month_ordered _ _ r (Option.some.inj h)

theorem ruleMonthName_ordered (today : JSDate) (m : List Char) :
    RuleOrdered (ruleMonthName today m) := by
  intro r h
  unfold ruleMonthName at h
  rw [monthLoop_eq] at h
  cases hf : firstIncluded m monthNames 0 with
  | none => rw [hf] at h; simp at h
  | some k =>
    rw [hf] at h
    exact month_ordered _ _ r (Option.some.inj h)

theorem ruleThisQuarter_ordered (tz : Int) (today : JSDate) (m : List Char) :
    RuleOrdered (ruleThisQuarter tz today m) := by
  intro r h
  unfold ruleThisQuarter at h
  split_ifs at h
  exact quarter_ordered _ _ r (Option.some.inj h)

theorem ruleLastQuarter_ordered (tz : Int) (today : JSDate) (m : List Char) :
    RuleOrdered (ruleLastQuarter tz today m) := by
  intro r h
  unfold ruleLastQuarter at h
  dsimp only at h
  split_ifs at h
  · exact quarter_ordered _ _ r (Option.some.inj h)
  · exact quarter_ordered _ _ r (Option.some.inj h)

theorem ruleQuarterYear_ordered (m : List Char) : RuleOrdered (ruleQuarterYear m) := by
  intro r h
  unfold ruleQuarterYear at h
  cases hm : jsMatch quarterRe m with
  | none => rw [hm] at h; simp at h
  | some caps =>
    rw [hm] at h
    exact quarter_ordered _ _ r (Option.some.inj h)

theorem ruleLastYear_ordered (today : JSDate) (m : List Char) :
    RuleOrdered (ruleLastYear today m) := by
  intro r h
  unfold ruleLastYear at h
  split_ifs at h
  obtain ⟨ta, tb, ha, hb, hr⟩ := mkRange_inv (Option.some.inj h)
  obtain ⟨yv, mv, dv, e1, e2, e3, e4⟩ := dateUTC_some ha
  obtain ⟨yw, mw, dw, f1, f2, f3, f4⟩ := dateUTC_some hb
  rw [e1] at f1
  simp only [Option.some.injEq] at f1 f2 f3 e2 e3
  subst f1 f2 f3 e2 e3
  apply ordered_of_days hr
  rw [e4, f4]
  exact makeDay_year_le _

theorem ruleThisYear_ordered (today : JSDate) (m : List Char)
    (hT : today = none ∨
      ∃ D, today = some (D * msPerDay) ∧ ¬(0 ≤ yearFromDay D ∧ yearFromDay D ≤ 99)) :
    RuleOrdered (ruleThisYear today m) := by
  intro r h
  unfold ruleThisYear at h
  split_ifs at h
  obtain ⟨ta, tb, ha, hb, hr⟩ := mkRange_inv (Option.some.inj h)
  rcases hT with rfl | ⟨D, rfl, hy⟩
  · simp at hb
  · obtain ⟨yv, mv, dv, e1, e2, e3, e4⟩ := dateUTC_some ha
    simp only [getUTCFullYear_midnight, Option.some.injEq] at e1 e2 e3
    subst e1 e2 e3
    rw [if_neg hy, makeDay_jan1] at e4
    apply ordered_of_days hr
    rw [e4, ← Option.some.inj hb, day_midnight]
    exact (yearFromDay_spec D).1

theorem ruleThisWeek_ordered (today : JSDate) (m : List Char)
    (hT : today = none ∨ ∃ D, today = some (D * msPerDay)) :
    RuleOrdered (ruleThisWeek today m) := by
  intro r h
  unfold ruleThisWeek at h
  split_ifs at h
  obtain ⟨ta, tb, ha, hb, hr⟩ := mkRange_inv (Option.some.inj h)
  rcases hT with rfl | ⟨D, rfl⟩
  · simp [setUTCDate] at ha
  · rw [ha] at hb
    simp only [getUTCDay_midnight, getUTCDate_midnight, Option.map, jsSub, Option.bind,
      setUTCDate_midnight] at ha
    have e1 := timeClip_some ha
    rw [e1] at hb
    simp only [getUTCDate_midnight, jsAdd, Option.bind, setUTCDate_midnight] at hb
    have e2 := timeClip_some hb
    apply ordered_of_days hr
    rw [e1, e2, day_midnight, day_midnight]
    omega

theorem ruleLastWeek_ordered (today : JSDate) (m : List Char)
    (hT : today = none ∨ ∃ D, today = some (D * msPerDay)) :
    RuleOrdered (ruleLastWeek today m) := by
  intro r h
  unfold ruleLastWeek at h
  split_ifs at h
  obtain ⟨ta, tb, ha, hb, hr⟩ := mkRange_inv (Option.some.inj h)
  rcases hT with rfl | ⟨D, rfl⟩
  · simp [setUTCDate] at ha
  · simp only [getUTCDay_midnight, getUTCDate_midnight, Option.map, jsSub, Option.bind,
      setUTCDate_midnight] at ha hb
    cases hc : timeClip ((D + (dateFromDay D - (weekDay D + 6) % 7 - dateFromDay D)) * msPerDay) with
    | none => rw [hc] at ha; simp [setUTCDate] at ha
    | some tw =>
      have ew := timeClip_some hc
      rw [hc, ew] at ha hb
      simp only [getUTCDate_midnight, Option.bind, setUTCDate_midnight] at ha hb
      have e1 := timeClip_some ha
      have e2 := timeClip_some hb
      apply ordered_of_days hr
      rw [e1, e2, day_midnight, day_midnight]
      omega

theorem ruleOrdered_none : RuleOrdered none := by
  intro r h
  simp at h

/-- C7 as amended: every range that the primary or the secondary pass returns from a
rule other than the explicit range has its startDate not after its endDate, provided
the number of a "last N days", "N weeks" or "N days" phrase is at least 1. -/
theorem ranges_ordered_but_explicit (parse : String → JSDate) (tz now1 now2 : Int)
    (text : String) (r : DateRange)
    (hexp : ruleExplicitRange parse tz (toLowerCase text.toList) = none)
    (hN1 : ∀ caps, jsMatch lastNDaysRe (toLowerCase text.toList) = some caps →
      1 ≤ parseInt (capture caps 1))
    (hN2 : ∀ caps, jsMatch nWeeksRe (toLowerCase text.toList) = some caps →
      1 ≤ parseInt (capture caps 1))
    (hN3 : ∀ caps, jsMatch nDaysRe (toLowerCase text.toList) = some caps →
      1 ≤ parseInt (capture caps 1))
    (hres : parsed parse tz now1 now2 text = .ok (some r)) : Ordered r := by
  have hT1 := normalize_shape tz (some now1)
  have hT2 := normalize_shape tz (some now2)
  have hS1 : normalize tz (some now1) = none ∨ ∃ D, normalize tz (some now1) = some (D * msPerDay) := by
    rcases hT1 with h | ⟨D, h, _⟩
    · exact Or.inl h
    · exact Or.inr ⟨D, h⟩
  have hS2 : normalize tz (some now2) = none ∨ ∃ D, normalize tz (some now2) = some (D * msPerDay) := by
    rcases hT2 with h | ⟨D, h, _⟩
    · exact Or.inl h
    · exact Or.inr ⟨D, h⟩
  unfold parsed at hres
  cases hp : parseDateRange parse tz now1 text with
  | error e => rw [hp] at hres; simp at hres
  | ok v =>
    cases v with
    | some base =>
      rw [hp] at hres
      simp only [Except.ok.injEq, Option.some.injEq] at hres
      subst hres
      unfold parseDateRange at hp
      dsimp only at hp
      rw [hexp] at hp
      refine firstOf_ordered _ ?_ base hp
      intro rule hmem
      simp only [List.mem_cons, List.mem_singleton, List.not_mem_nil, or_false] at hmem
      rcases hmem with rfl | rfl | rfl | rfl | rfl | rfl | rfl | rfl | rfl | rfl | rfl | rfl | rfl
      · exact ruleOrdered_none
      · exact ruleLastNDays_ordered _ _ hS1 hN1
      · exact ruleThisWeek_ordered _ _ hS1
      · exact ruleLastWeek_ordered _ _ hS1
      · exact ruleThisMonth_ordered _ _
      · exact ruleLastMonth_ordered _ _
      · exact ruleThisQuarter_ordered _ _ _
      · exact ruleLastQuarter_ordered _ _ _
      · exact ruleQuarterYear_ordered _
      · exact ruleMonthName_ordered _ _
      · exact ruleToday_ordered _ _
      · exact ruleYesterday_ordered _ _
      · exact ruleSingleDate_ordered _ _ _
    | none =>
      rw [hp] at hres
      dsimp only at hres
      refine firstOf_ordered _ ?_ r hres
      intro rule hmem
      simp only [List.mem_cons, List.mem_singleton, List.not_mem_nil, or_false] at hmem
      rcases hmem with rfl | rfl | rfl | rfl | rfl | rfl | rfl | rfl
      · exact ruleNWeeks_ordered _ _ hS2 hN2
      · exact ruleNDays_ordered _ _ hS2 hN3
      · exact ruleDaily_ordered _ _
      · exact ruleWeekly_ordered _ _ hS2
      · exact ruleMonthly_ordered _ _
      · exact rulePastWeek_ordered _ _ hS2
      · exact ruleLastYear_ordered _ _
      · exact ruleThisYear_ordered _ _ hT2

theorem ranges_ordered_but_explicit_witness :
    Ordered ⟨"2025-11-03", "2025-11-09"⟩ :=
  ranges_ordered_but_explicit (jsDateParse 28800000) 28800000 1762300800000 1762300800000
    "visitors this week" ⟨"2025-11-03", "2025-11-09"⟩ (by decide!)
    (by
      intro caps h
      rw [show jsMatch lastNDaysRe (toLowerCase "visitors this week".toList) = none by decide!] at h
      simp at h)
    (by
      intro caps h
      rw [show jsMatch nWeeksRe (toLowerCase "visitors this week".toList) = none by decide!] at h
      simp at h)
    (by
      intro caps h
      rw [show jsMatch nDaysRe (toLowerCase "visitors this week".toList) = none by decide!] at h
      simp at h)
    (by decide!)

/-- C7 as stated fails: an explicit range written backwards is returned as it is, with
its startDate fifteen days after its endDate, and "last 0 days" ends the day before
it starts. -/
theorem inverted_ranges :
    parsed (jsDateParse 28800000) 28800000 1762300800000 1762300800000
        "from March 15, 2024 to March 1, 2024" = .ok (some ⟨isoDate 19797, isoDate 19783⟩) ∧
      isoDate 19797 = "2024-03-15" ∧ isoDate 19783 = "2024-03-01" ∧
      "2024-03-01" < "2024-03-15" ∧
      parsed (jsDateParse 28800000) 28800000 1762300800000 1762300800000 "last 0 days" =
        .ok (some ⟨isoDate (localDay 28800000 1762300800000 + 1),
          isoDate (localDay 28800000 1762300800000)⟩) := by
  decide!

/-! ## This month and last month -/

theorem monthOfYearDay_next (leap d : Int) (h1 : d < 365 + leap) : d < monthStart leap (monthOfYearDay leap d + 1) := by
  generalize hM : monthOfYearDay leap d = M
  unfold monthOfYearDay at hM
  unfold monthStart
  omega

/-- The date of a day number exists in its month. -/
theorem dateFromDay_range (z : Int) :
    1 ≤ dateFromDay z ∧ dateFromDay z ≤ daysInMonth (yearFromDay z) (monthFromDay z) := by
  have hr := dayWithinYear_range z
  have hn := monthOfYearDay_next _ _ hr.2
  have hs := monthStart_succ (yearFromDay z) (monthFromDay z) (monthFromDay_range z)
  have hb := dateFromDay_bounds z
  unfold monthFromDay at hs
  unfold dateFromDay monthFromDay at *
  omega

/-- The date text of an existing day of a month of a year outside 0..99. -/
theorem isoDate_makeDay (y i d : Int) (hi : 0 ≤ i ∧ i ≤ 11) (hd : 1 ≤ d ∧ d ≤ daysInMonth y i) :
    isoDate (makeDay y i d) = isoString y (i + 1) d := by
  obtain ⟨h1, h2, h3⟩ := civil_makeDay y i d hi hd
  unfold isoDate
  rw [h1, h2, h3]

theorem makeDay_date (y m d k : Int) : makeDay y m (d + k) = makeDay y m d + k := by
  unfold makeDay
  omega

/-- The first day of the month of a day number. -/
theorem makeDay_first (z : Int) :
    makeDay (yearFromDay z) (monthFromDay z) 1 = z - dateFromDay z + 1 := by
  have h := makeDay_civil z (1 - dateFromDay z)
  rw [show dateFromDay z + (1 - dateFromDay z) = 1 by omega] at h
  omega

/-- The month before month `M` of year `Y` ends the day before that month starts. -/
theorem prevMonth_end (Y M : Int) (hM : 0 ≤ M ∧ M ≤ 11) :
    makeDay (if M = 0 then Y - 1 else Y) ((M + 11) % 12)
        (daysInMonth (if M = 0 then Y - 1 else Y) ((M + 11) % 12)) + 1 = makeDay Y M 1 := by
  by_cases h0 : M = 0
  · subst h0
    simp only [if_true]
    rw [show ((0 : Int) + 11) % 12 = 11 by decide, ← makeDay_zero_next _ 11 (by omega)]
    unfold makeDay
    norm_num
  · simp only [if_neg h0]
    rw [show (M + 11) % 12 = M - 1 by omega, ← makeDay_zero_next _ (M - 1) (by omega),
      show M - 1 + 1 = M by omega]
    unfold makeDay
    omega

/-- The rule "this month" on a text that has the phrase. -/
theorem ruleThisMonth_eq (R : Int) (hR : RefDate R) (m : List Char)
    (h : includes m "this month".toList = true) :
    ruleThisMonth (some (R * msPerDay)) m =
      some (.ok ⟨isoString (yearFromDay R) (monthFromDay R + 1) 1,
        isoString (yearFromDay R) (monthFromDay R + 1)
          (lastDayGregorian (yearFromDay R) (monthFromDay R))⟩) := by
  have hy := hR.year
  unfold ruleThisMonth
  simp only [h, if_true, getUTCFullYear_midnight, getUTCMonth_midnight]
  rw [mkRange_month _ _ (by omega) (by omega) (monthFromDay_range R)]

/-- The rule "last month" on a text that has the phrase. -/
theorem ruleLastMonth_eq (R : Int) (hR : RefDate R) (m : List Char)
    (h : includes m "last month".toList = true) :
    ruleLastMonth (some (R * msPerDay)) m =
      some (.ok ⟨isoString (if monthFromDay R = 0 then yearFromDay R - 1 else yearFromDay R)
          ((monthFromDay R + 11) % 12 + 1) 1,
        isoString (if monthFromDay R = 0 then yearFromDay R - 1 else yearFromDay R)
          ((monthFromDay R + 11) % 12 + 1)
          (lastDayGregorian (if monthFromDay R = 0 then yearFromDay R - 1 else yearFromDay R)
            ((monthFromDay R + 11) % 12))⟩) := by
  have hy := hR.year
  have hm := monthFromDay_range R
  unfold ruleLastMonth
  simp only [h, if_true, getUTCFullYear_midnight, getUTCMonth_midnight, Option.some.injEq, jsSub,
    Option.bind, Option.map]
  by_cases h0 : monthFromDay R = 0
  · simp only [h0, if_true]
    rw [mkRange_month _ _ (by omega) (by omega) (by omega)]
  · simp only [h0, if_false]
    rw [mkRange_month _ _ (by omega) (by omega) (by omega)]

/-- The texts "this month" and "last month" reach their rules. -/
theorem month_texts :
    (jsMatch rangeRe (toLowerCase "this month".toList) = none ∧
      jsMatch lastNDaysRe (toLowerCase "this month".toList) = none ∧
      includes (toLowerCase "this month".toList) "this week".toList = false ∧
      includes (toLowerCase "this month".toList) "last week".toList = false ∧
      includes (toLowerCase "this month".toList) "this month".toList = true) ∧
    (jsMatch rangeRe (toLowerCase "last month".toList) = none ∧
      jsMatch lastNDaysRe (toLowerCase "last month".toList) = none ∧
      includes (toLowerCase "last month".toList) "this week".toList = false ∧
      includes (toLowerCase "last month".toList) "last week".toList = false ∧
      includes (toLowerCase "last month".toList) "this month".toList = false ∧
      includes (toLowerCase "last month".toList) "last month".toList = true) := by
  decide!

theorem parseDateRange_thisMonth (parse : String → JSDate) (tz now : Int)
    (hR : RefDate (localDay tz now)) :
    parseDateRange parse tz now "this month" =
      .ok (some ⟨isoString (yearFromDay (localDay tz now)) (monthFromDay (localDay tz now) + 1) 1,
        isoString (yearFromDay (localDay tz now)) (monthFromDay (localDay tz now) + 1)
          (lastDayGregorian (yearFromDay (localDay tz now)) (monthFromDay (localDay tz now)))⟩) := by
  obtain ⟨⟨h1, h2, h3, h4, h5⟩, _⟩ := month_texts
  unfold parseDateRange
  simp only [ruleExplicitRange_none _ _ _ h1, ruleLastNDays_none _ _ h2,
    ruleThisWeek_none _ _ h3, ruleLastWeek_none _ _ h4, firstOf_none,
    normalize_now tz now hR, ruleThisMonth_eq _ hR _ h5, firstOf_some]
  rfl

theorem parseDateRange_lastMonth (parse : String → JSDate) (tz now : Int)
    (hR : RefDate (localDay tz now)) :
    parseDateRange parse tz now "last month" =
      .ok (some ⟨isoString (if monthFromDay (localDay tz now) = 0
            then yearFromDay (localDay tz now) - 1 else yearFromDay (localDay tz now))
          ((monthFromDay (localDay tz now) + 11) % 12 + 1) 1,
        isoString (if monthFromDay (localDay tz now) = 0
            then yearFromDay (localDay tz now) - 1 else yearFromDay (localDay tz now))
          ((monthFromDay (localDay tz now) + 11) % 12 + 1)
          (lastDayGregorian (if monthFromDay (localDay tz now) = 0
            then yearFromDay (localDay tz now) - 1 else yearFromDay (localDay tz now))
            ((monthFromDay (localDay tz now) + 11) % 12))⟩) := by
  obtain ⟨_, h1, h2, h3, h4, h5, h6⟩ := month_texts
  unfold parseDateRange
  simp only [ruleExplicitRange_none _ _ _ h1, ruleLastNDays_none _ _ h2,
    ruleThisWeek_none _ _ h3, ruleLastWeek_none _ _ h4, ruleThisMonth_none _ _ h5, firstOf_none,
    normalize_now tz now hR, ruleLastMonth_eq _ hR _ h6, firstOf_some]
  rfl

/-- C11: for every reference date R in month M (0 = January) of year Y, "this month" is
day 1 to the last day of month M of Y, and "last month" is day 1 to the last day of
the month before, which is December of Y - 1 when M is January; the two ranges are
also the dates of day numbers c..d and a..b with c <= R <= d and b + 1 = c. -/
theorem this_month_last_month (parse : String → JSDate) (tz now now2 : Int)
    (hR : RefDate (localDay tz now)) :
    parsed parse tz now now2 "this month" =
        .ok (some ⟨isoString (yearFromDay (localDay tz now)) (monthFromDay (localDay tz now) + 1) 1,
          isoString (yearFromDay (localDay tz now)) (monthFromDay (localDay tz now) + 1)
            (lastDayGregorian (yearFromDay (localDay tz now)) (monthFromDay (localDay tz now)))⟩) ∧
      parsed parse tz now now2 "last month" =
        .ok (some (if monthFromDay (localDay tz now) = 0 then
          ⟨isoString (yearFromDay (localDay tz now) - 1) 12 1,
            isoString (yearFromDay (localDay tz now) - 1) 12 31⟩
        else
          ⟨isoString (yearFromDay (localDay tz now)) (monthFromDay (localDay tz now)) 1,
            isoString (yearFromDay (localDay tz now)) (monthFromDay (localDay tz now))
              (lastDayGregorian (yearFromDay (localDay tz now))
                (monthFromDay (localDay tz now) - 1))⟩)) ∧
      ∃ a b c d : Int,
        parsed parse tz now now2 "this month" = .ok (some ⟨isoDate c, isoDate d⟩) ∧
        parsed parse tz now now2 "last month" = .ok (some ⟨isoDate a, isoDate b⟩) ∧
        c ≤ localDay tz now ∧ localDay tz now ≤ d ∧ a ≤ b ∧ b + 1 = c := by
  have hy := hR.year
  have hm := monthFromDay_range (localDay tz now)
  have hd := dateFromDay_range (localDay tz now)
  have hT := parsed_of_primary now2 (parseDateRange_thisMonth parse tz now hR)
  have hL := parsed_of_primary now2 (parseDateRange_lastMonth parse tz now hR)
  refine ⟨hT, ?_, ?_⟩
  · rw [hL]
    by_cases h0 : monthFromDay (localDay tz now) = 0
    · simp only [h0, if_true]
      rfl
    · simp only [h0, if_false]
      rw [show (monthFromDay (localDay tz now) + 11) % 12 = monthFromDay (localDay tz now) - 1
        by omega]
      rw [show monthFromDay (localDay tz now) - 1 + 1 = monthFromDay (localDay tz now) by omega]
  · set R := localDay tz now with hRdef
    set Y := yearFromDay R with hYdef
    set M := monthFromDay R with hMdef
    set Yp := (if M = 0 then Y - 1 else Y) with hYpdef
    set Mp := (M + 11) % 12 with hMpdef
    have hdm := daysInMonth_pos Y M
    have hdp := daysInMonth_pos Yp Mp
    have hpm : 0 ≤ Mp ∧ Mp ≤ 11 := by omega
    have hpe : makeDay Yp Mp (daysInMonth Yp Mp) + 1 = makeDay Y M 1 := prevMonth_end Y M hm
    have hf : makeDay Y M 1 = R - dateFromDay R + 1 := makeDay_first R
    have hl1 : makeDay Y M (daysInMonth Y M) = makeDay Y M 1 + (daysInMonth Y M - 1) := by
      rw [← makeDay_date, show (1 : Int) + (daysInMonth Y M - 1) = daysInMonth Y M by omega]
    have hl2 : makeDay Yp Mp (daysInMonth Yp Mp) = makeDay Yp Mp 1 + (daysInMonth Yp Mp - 1) := by
      rw [← makeDay_date, show (1 : Int) + (daysInMonth Yp Mp - 1) = daysInMonth Yp Mp by omega]
    refine ⟨makeDay Yp Mp 1, makeDay Yp Mp (daysInMonth Yp Mp), makeDay Y M 1,
      makeDay Y M (daysInMonth Y M), ?_, ?_, ?_, ?_, ?_, hpe⟩
    · rw [hT, isoDate_makeDay _ _ _ hm (by omega), isoDate_makeDay _ _ _ hm (by omega),
        daysInMonth_gregorian]
    · rw [hL, isoDate_makeDay _ _ _ hpm (by omega), isoDate_makeDay _ _ _ hpm (by omega),
        daysInMonth_gregorian]
    · omega
    · omega
    · omega

theorem this_month_last_month_witness :
    parsed (jsDateParse 28800000) 28800000 1704128400000 1704128400000 "this month" =
        .ok (some ⟨isoString (yearFromDay (localDay 28800000 1704128400000))
            (monthFromDay (localDay 28800000 1704128400000) + 1) 1,
          isoString (yearFromDay (localDay 28800000 1704128400000))
            (monthFromDay (localDay 28800000 1704128400000) + 1)
            (lastDayGregorian (yearFromDay (localDay 28800000 1704128400000))
              (monthFromDay (localDay 28800000 1704128400000)))⟩) ∧
      parsed (jsDateParse 28800000) 28800000 1704128400000 1704128400000 "last month" =
        .ok (some (if monthFromDay (localDay 28800000 1704128400000) = 0 then
          ⟨isoString (yearFromDay (localDay 28800000 1704128400000) - 1) 12 1,
            isoString (yearFromDay (localDay 28800000 1704128400000) - 1) 12 31⟩
        else
          ⟨isoString (yearFromDay (localDay 28800000 1704128400000))
              (monthFromDay (localDay 28800000 1704128400000)) 1,
            isoString (yearFromDay (localDay 28800000 1704128400000))
              (monthFromDay (localDay 28800000 1704128400000))
              (lastDayGregorian (yearFromDay (localDay 28800000 1704128400000))
                (monthFromDay (localDay 28800000 1704128400000) - 1))⟩)) ∧
      ∃ a b c d : Int,
        parsed (jsDateParse 28800000) 28800000 1704128400000 1704128400000 "this month" =
          .ok (some ⟨isoDate c, isoDate d⟩) ∧
        parsed (jsDateParse 28800000) 28800000 1704128400000 1704128400000 "last month" =
          .ok (some ⟨isoDate a, isoDate b⟩) ∧
        c ≤ localDay 28800000 1704128400000 ∧ localDay 28800000 1704128400000 ≤ d ∧ a ≤ b ∧
        b + 1 = c :=
  this_month_last_month (jsDateParse 28800000) 28800000 1704128400000 1704128400000
    (by unfold RefDate localDay day msPerDay; decide)

/-! ## This quarter -/

/-- C12: the code at the failing input. In a zone five hours behind UTC, at noon of
2024-04-01, "this quarter" resolves to January to March 2024, a block that does not
contain the reference date; on 2024-04-15 it resolves to April to June. -/
theorem this_quarter_west_of_utc :
    isoDate (localDay (-18000000) 1711990800000) = "2024-04-01" ∧
      parsed (jsDateParse (-18000000)) (-18000000) 1711990800000 1711990800000 "this quarter" =
        .ok (some ⟨"2024-01-01", "2024-03-31"⟩) ∧
      isoDate (localDay (-18000000) 1713200400000) = "2024-04-15" ∧
      parsed (jsDateParse (-18000000)) (-18000000) 1713200400000 1713200400000 "this quarter" =
        .ok (some ⟨"2024-04-01", "2024-06-30"⟩) := by
  decide!

/-- The text "this quarter" reaches the rule "this quarter". -/
theorem thisQuarter_text :
    jsMatch rangeRe (toLowerCase "this quarter".toList) = none ∧
      jsMatch lastNDaysRe (toLowerCase "this quarter".toList) = none ∧
      includes (toLowerCase "this quarter".toList) "this week".toList = false ∧
      includes (toLowerCase "this quarter".toList) "last week".toList = false ∧
      includes (toLowerCase "this quarter".toList) "this month".toList = false ∧
      includes (toLowerCase "this quarter".toList) "last month".toList = false ∧
      includes (toLowerCase "this quarter".toList) "this quarter".toList = true := by
  decide!

/-- The months of a quarter, from the first day of its first month to the last day of
its third, hold the days of its months. -/
theorem quarter_contains (Y M d : Int) (hM : 0 ≤ M ∧ M ≤ 11) (hd : 1 ≤ d ∧ d ≤ daysInMonth Y M) :
    makeDay Y (3 * (M / 3)) 1 ≤ makeDay Y M d ∧
      makeDay Y M d ≤ makeDay Y (3 * (M / 3) + 2) (daysInMonth Y (3 * (M / 3) + 2)) := by
  have hl := inLeapYear_cases Y
  have e1 : 3 * (M / 3) / 12 = 0 := by omega
  have e2 : 3 * (M / 3) % 12 = 3 * (M / 3) := by omega
  have e3 : (3 * (M / 3) + 2) / 12 = 0 := by omega
  have e4 : (3 * (M / 3) + 2) % 12 = 3 * (M / 3) + 2 := by omega
  have e5 : M / 12 = 0 := by omega
  have e6 : M % 12 = M := by omega
  unfold makeDay
  rw [e1, e2, e3, e4, e5, e6, add_zero]
  generalize hq : M / 3 = q at *
  have hq4 : 0 ≤ q ∧ q ≤ 3 := by omega
  have hMq : 3 * q ≤ M ∧ M ≤ 3 * q + 2 := by omega
  obtain ⟨hq0, hq3⟩ := hq4
  unfold daysInMonth at hd ⊢
  interval_cases q <;> (unfold monthStart; omega)

/-- East of Greenwich "this quarter" is the block of three months, starting in January,
April, July or October, that holds the reference date. -/
theorem thisQuarter_east_of_utc (parse : String → JSDate) (tz now : Int)
    (hR : RefDate (localDay tz now)) (htz : 0 ≤ tz ∧ tz < msPerDay) :
    parseDateRange parse tz now "this quarter" =
        .ok (some ⟨isoString (yearFromDay (localDay tz now))
            (3 * (monthFromDay (localDay tz now) / 3) + 1) 1,
          isoString (yearFromDay (localDay tz now)) (3 * (monthFromDay (localDay tz now) / 3) + 3)
            (lastDayGregorian (yearFromDay (localDay tz now))
              (3 * (monthFromDay (localDay tz now) / 3) + 2))⟩) ∧
      ∃ c d : Int, parseDateRange parse tz now "this quarter" = .ok (some ⟨isoDate c, isoDate d⟩) ∧
        c ≤ localDay tz now ∧ localDay tz now ≤ d := by
  obtain ⟨h1, h2, h3, h4, h5, h6, h7⟩ := thisQuarter_text
  have hy := hR.year
  have hm := monthFromDay_range (localDay tz now)
  have hp : parseDateRange parse tz now "this quarter" =
      .ok (some ⟨isoString (yearFromDay (localDay tz now))
          (3 * (monthFromDay (localDay tz now) / 3) + 1) 1,
        isoString (yearFromDay (localDay tz now)) (3 * (monthFromDay (localDay tz now) / 3) + 3)
          (lastDayGregorian (yearFromDay (localDay tz now))
            (3 * (monthFromDay (localDay tz now) / 3) + 2))⟩) := by
    unfold parseDateRange
    simp only [ruleExplicitRange_none _ _ _ h1, ruleLastNDays_none _ _ h2,
      ruleThisWeek_none _ _ h3, ruleLastWeek_none _ _ h4, ruleThisMonth_none _ _ h5,
      ruleLastMonth_none _ _ h6, firstOf_none, normalize_now tz now hR]
    unfold ruleThisQuarter
    simp only [h7, if_true, getQuarter_east tz _ htz, getUTCFullYear_midnight]
    rw [quarterRange_eq _ _ (by omega) (by omega) (by omega), firstOf_some]
    rw [show 3 * (monthFromDay (localDay tz now) / 3 + 1) - 2 =
        3 * (monthFromDay (localDay tz now) / 3) + 1 by omega,
      show 3 * (monthFromDay (localDay tz now) / 3 + 1) =
        3 * (monthFromDay (localDay tz now) / 3) + 3 by omega,
      show 3 * (monthFromDay (localDay tz now) / 3) + 3 - 1 =
        3 * (monthFromDay (localDay tz now) / 3) + 2 by omega]
    rfl
  refine ⟨hp, ?_⟩
  set R := localDay tz now with hRdef
  set Y := yearFromDay R with hYdef
  set M := monthFromDay R with hMdef
  have hd := dateFromDay_range R
  have hc := quarter_contains Y M (dateFromDay R) hm hd
  have hk := makeDay_civil R 0
  rw [add_zero, add_zero] at hk
  rw [hk] at hc
  have hdm := daysInMonth_pos Y (3 * (M / 3))
  have hdm2 := daysInMonth_pos Y (3 * (M / 3) + 2)
  refine ⟨makeDay Y (3 * (M / 3)) 1, makeDay Y (3 * (M / 3) + 2) (daysInMonth Y (3 * (M / 3) + 2)),
    ?_, hc.1, hc.2⟩
  rw [hp, isoDate_makeDay _ _ _ (by omega) (by omega), isoDate_makeDay _ _ _ (by omega) (by omega),
    daysInMonth_gregorian, show 3 * (M / 3) + 2 + 1 = 3 * (M / 3) + 3 by omega]

/-! ## Evaluations of the code at failing inputs -/

/-- C13: the code at the failing input. The parser reads "July 15, 2024" as a whole as
2024-07-15 and the fallback rule alone would return that single day, but the text
includes "july", so the rule of the month names, which comes first, returns the whole
of July 2024; the ISO text "2024-07-15" reaches the fallback and gives the single
day (at UTC+8). -/
theorem single_date_shadowed_by_month :
    ruleSingleDate (jsDateParse 28800000) 28800000 "July 15, 2024" =
        some (.ok ⟨"2024-07-15", "2024-07-15"⟩) ∧
      parsed (jsDateParse 28800000) 28800000 1704128400000 1704128400000 "July 15, 2024" =
        .ok (some ⟨"2024-07-01", "2024-07-31"⟩) ∧
      parsed (jsDateParse 28800000) 28800000 1704128400000 1704128400000 "2024-07-15" =
        .ok (some ⟨"2024-07-15", "2024-07-15"⟩) := by
  decide!

/-- C16: the code at the failing input. In a zone five hours behind UTC the text
"-271821-04-20", the first day a `Date` can hold, parses to a valid date; its local
calendar date is the day before, which `normalize` cannot represent, and `format` is
applied to that Invalid Date: the resolver throws a RangeError. -/
theorem resolver_throws_at_first_day :
    jsDateParse (-18000000) "-271821-04-20" = some (-8640000000000000) ∧
      normalize (-18000000) (jsDateParse (-18000000) "-271821-04-20") = none ∧
      parseDateRange (jsDateParse (-18000000)) (-18000000) 1704128400000 "-271821-04-20" =
        .error .rangeError ∧
      parsed (jsDateParse (-18000000)) (-18000000) 1704128400000 1704128400000 "-271821-04-20" =
        .error .rangeError ∧
      parsed (jsDateParse (-18000000)) (-18000000) 1704128400000 1704128400000
        "from -271821-04-20 to 2024-01-01" = .error .rangeError := by
  decide!

/-- C18: the code at the failing input. A financial report requested for all data is
detected as an all-data request, yet `generateFinancialReport` is handed the raw
`all`, `all` and not the sentinel range; of the twenty report types of the switch
only eight hand on the sentinel range. -/
theorem all_data_sentinel_not_handed_on :
    endpointAllData ⟨some "financial_report", some "all", some "all",
        some "financial report for all available data"⟩ = true ∧
      generateEndpoint ⟨some "financial_report", some "all", some "all",
        some "financial report for all available data"⟩ =
        .ok ⟨"generateFinancialReport", some "all", some "all"⟩ ∧
      generateEndpoint ⟨some "visitor_analytics", some "all", some "all",
        some "visitor report for all available data"⟩ =
        .ok ⟨"generateVisitorAnalytics", some "1900-01-01", some "2100-12-31"⟩ ∧
      endpointReportTypes.filter (fun t =>
        match generateEndpoint ⟨some t, some "all", some "all", none⟩ with
        | .ok c => c.startDate = some "1900-01-01" && c.endDate = some "2100-12-31"
        | .error _ => false) =
        ["visitor_analytics", "archive_analytics", "event_analytics", "event_performance",
          "event_attendance", "events_report", "cultural_objects_report", "archive_report"] ∧
      endpointReportTypes.filter (fun t =>
        match generateEndpoint ⟨some t, some "all", some "all", none⟩ with
        | .ok c => c.startDate = some "all" && c.endDate = some "all"
        | .error _ => false) =
        ["monthly_summary", "financial_report", "exhibit_analytics", "cultural_objects",
          "staff_performance", "visitor_list", "event_list", "donation_list", "donation_report",
          "donation_type_report", "booking_list", "exhibits_report"] := by
  decide!

/-- C20: the code at the failing input. At the instant 2024-01-01T12:00:00Z the
reference date is 2024-01-01 both at UTC and five hours behind it, yet "this quarter"
resolves to January to March at UTC and to October to December five hours behind;
and "from 2024-03-01 to 2024-03-15" resolves to other dates in the two zones. -/
theorem result_depends_on_zone :
    localDay 0 1704110400000 = localDay (-18000000) 1704110400000 ∧
      parsed (jsDateParse 0) 0 1704110400000 1704110400000 "this quarter" =
        .ok (some ⟨"2024-01-01", "2024-03-31"⟩) ∧
      parsed (jsDateParse (-18000000)) (-18000000) 1704110400000 1704110400000 "this quarter" =
        .ok (some ⟨"2024-10-01", "2024-12-31"⟩) ∧
      parsed (jsDateParse 0) 0 1704110400000 1704110400000 "from 2024-03-01 to 2024-03-15" =
        .ok (some ⟨"2024-03-01", "2024-03-15"⟩) ∧
      parsed (jsDateParse (-18000000)) (-18000000) 1704110400000 1704110400000
        "from 2024-03-01 to 2024-03-15" = .ok (some ⟨"2024-02-29", "2024-03-14"⟩) := by
  decide!

/-! ## The order of the rules -/

theorem firstOf_append (a b : List Rule) :
    firstOf (a ++ b) = match firstOf a with
      | .ok none => firstOf b
      | res => res := by
  induction a with
  | nil => rfl
  | cons x xs ih =>
    cases x with
    | none => simpa [firstOf] using ih
    | some r =>
      cases r with
      | error e => rfl
      | ok v => rfl

theorem parseDateRange_eq_firstOf (parse : String → JSDate) (tz now : Int) (text : String) :
    parseDateRange parse tz now text = firstOf (primaryRules parse tz now text) := rfl

/-- The two passes together are one list of rules, of which the first one taken
decides. -/
theorem parsed_eq_firstOf (parse : String → JSDate) (tz now1 now2 : Int) (text : String) :
    parsed parse tz now1 now2 text =
      firstOf (primaryRules parse tz now1 text ++ secondaryRules tz now2 text) := by
  rw [firstOf_append, ← parseDateRange_eq_firstOf]
  unfold parsed
  cases h : parseDateRange parse tz now1 text with
  | error e => rfl
  | ok v =>
    cases v with
    | none => rfl
    | some r => rfl

theorem firstOf_first (pre post : List Rule) (r : Except JSError DateRange)
    (h : ∀ x ∈ pre, x = none) : firstOf (pre ++ some r :: post) = r.map some := by
  induction pre with
  | nil => rfl
  | cons x xs ih =>
    have hx : x = none := h x (List.mem_cons_self _ _)
    subst hx
    exact ih (fun y hy => h y (List.mem_cons_of_mem _ hy))

theorem firstOf_all_none (rules : List Rule) (h : ∀ x ∈ rules, x = none) :
    firstOf rules = .ok none := by
  induction rules with
  | nil => rfl
  | cons x xs ih =>
    have hx : x = none := h x (List.mem_cons_self _ _)
    subst hx
    exact ih (fun y hy => h y (List.mem_cons_of_mem _ hy))

/-- C14 as amended: the result of the resolver is that of the first rule, in the order
of the primary pass followed by the secondary pass, that is taken; hence a text
to which neither the explicit-range rule nor the rule "last N days" applies resolves
to this week when it contains "this week", whatever else it contains, and to last
week when it contains "last week" and not "this week", whatever "N days" phrase it
contains. -/
theorem first_rule_decides (parse : String → JSDate) (tz now now2 : Int) (text : String)
    (hR : RefDate (localDay tz now))
    (h1 : ruleExplicitRange parse tz (toLowerCase text.toList) = none)
    (h2 : jsMatch lastNDaysRe (toLowerCase text.toList) = none) :
    parsed parse tz now now2 text =
        firstOf (primaryRules parse tz now text ++ secondaryRules tz now2 text) ∧
      (∀ pre r post, primaryRules parse tz now text ++ secondaryRules tz now2 text =
          pre ++ some r :: post → (∀ x ∈ pre, x = none) →
        parsed parse tz now now2 text = r.map some) ∧
      ((∀ x ∈ primaryRules parse tz now text ++ secondaryRules tz now2 text, x = none) →
        parsed parse tz now now2 text = .ok none) ∧
      (includes (toLowerCase text.toList) "this week".toList = true →
        parsed parse tz now now2 text =
          .ok (some ⟨isoDate (localDay tz now - (weekDay (localDay tz now) + 6) % 7),
            isoDate (localDay tz now - (weekDay (localDay tz now) + 6) % 7 + 6)⟩)) ∧
      (includes (toLowerCase text.toList) "this week".toList = false →
        includes (toLowerCase text.toList) "last week".toList = true →
        parsed parse tz now now2 text =
          .ok (some ⟨isoDate (localDay tz now - (weekDay (localDay tz now) + 6) % 7 - 7),
            isoDate (localDay tz now - (weekDay (localDay tz now) + 6) % 7 - 1)⟩)) := by
  have hE := parsed_eq_firstOf parse tz now now2 text
  refine ⟨hE, ?_, ?_, ?_, ?_⟩
  · intro pre r post hl hn
    rw [hE, hl, firstOf_first pre post r hn]
  · intro hn
    rw [hE, firstOf_all_none _ hn]
  · intro h3
    apply parsed_of_primary
    unfold parseDateRange
    simp only [h1, ruleLastNDays_none _ _ h2, firstOf_none, normalize_now tz now hR,
      ruleThisWeek_eq _ hR _ h3, firstOf_some]
    rfl
  · intro h3 h4
    apply parsed_of_primary
    unfold parseDateRange
    simp only [h1, ruleLastNDays_none _ _ h2, ruleThisWeek_none _ _ h3, firstOf_none,
      normalize_now tz now hR, ruleLastWeek_eq _ hR _ h4, firstOf_some]
    rfl

theorem first_rule_decides_witness :
    parsed (jsDateParse 28800000) 28800000 1704128400000 1704128400000
        "this week and this month" =
        .ok (some ⟨isoDate (localDay 28800000 1704128400000 -
            (weekDay (localDay 28800000 1704128400000) + 6) % 7),
          isoDate (localDay 28800000 1704128400000 -
            (weekDay (localDay 28800000 1704128400000) + 6) % 7 + 6)⟩) ∧
      parsed (jsDateParse 28800000) 28800000 1704128400000 1704128400000
        "last week, 3 days" =
        .ok (some ⟨isoDate (localDay 28800000 1704128400000 -
            (weekDay (localDay 28800000 1704128400000) + 6) % 7 - 7),
          isoDate (localDay 28800000 1704128400000 -
            (weekDay (localDay 28800000 1704128400000) + 6) % 7 - 1)⟩) :=
  ⟨(first_rule_decides (jsDateParse 28800000) 28800000 1704128400000 1704128400000
      "this week and this month" (by unfold RefDate localDay day msPerDay; decide)
      (by decide!) (by decide!)).2.2.2.1 (by decide!),
    (first_rule_decides (jsDateParse 28800000) 28800000 1704128400000 1704128400000
      "last week, 3 days" (by unfold RefDate localDay day msPerDay; decide)
      (by decide!) (by decide!)).2.2.2.2 (by decide!) (by decide!)⟩

/-- C14 as stated fails: "last 3 days of last week" contains "last week" together with
"3 days", and resolves to the three days ending on the reference date, by the rule
"last N days" that comes before the rule "last week", not to last week. -/
theorem last_n_days_precedes_last_week :
    includes (toLowerCase "last 3 days of last week".toList) "last week".toList = true ∧
      includes (toLowerCase "last 3 days of last week".toList) "3 days".toList = true ∧
      isoDate (localDay 28800000 1704128400000) = "2024-01-02" ∧
      parsed (jsDateParse 28800000) 28800000 1704128400000 1704128400000
        "last 3 days of last week" = .ok (some ⟨"2023-12-31", "2024-01-02"⟩) ∧
      parsed (jsDateParse 28800000) 28800000 1704128400000 1704128400000 "last week" =
        .ok (some ⟨"2023-12-25", "2023-12-31"⟩) := by
  decide!

/-! ## An explicit range that does not parse -/

/-- What the patterns find in "from foo to bar". -/
theorem fooBar_text :
    (jsMatch rangeRe (toLowerCase "from foo to bar".toList)).map
        (fun c => (String.mk (trim (capture c 2)), String.mk (trim (capture c 4)))) =
        some ("foo", "bar") ∧
      jsMatch lastNDaysRe (toLowerCase "from foo to bar".toList) = none ∧
      includes (toLowerCase "from foo to bar".toList) "this week".toList = false ∧
      includes (toLowerCase "from foo to bar".toList) "last week".toList = false ∧
      includes (toLowerCase "from foo to bar".toList) "this month".toList = false ∧
      includes (toLowerCase "from foo to bar".toList) "last month".toList = false ∧
      includes (toLowerCase "from foo to bar".toList) "this quarter".toList = false ∧
      includes (toLowerCase "from foo to bar".toList) "last quarter".toList = false ∧
      jsMatch quarterRe (toLowerCase "from foo to bar".toList) = none ∧
      monthNames.all (fun name => !includes (toLowerCase "from foo to bar".toList) name.toList) =
        true ∧
      includes (toLowerCase "from foo to bar".toList) "today".toList = false ∧
      includes (toLowerCase "from foo to bar".toList) "yesterday".toList = false ∧
      jsMatch nWeeksRe (toLowerCase "from foo to bar".toList) = none ∧
      jsMatch nDaysRe (toLowerCase "from foo to bar".toList) = none ∧
      includes (toLowerCase "from foo to bar".toList) "a day".toList = false ∧
      includes (toLowerCase "from foo to bar".toList) "one day".toList = false ∧
      includes (toLowerCase "from foo to bar".toList) "day report".toList = false ∧
      includes (toLowerCase "from foo to bar".toList) "daily".toList = false ∧
      includes (toLowerCase "from foo to bar".toList) "a week".toList = false ∧
      includes (toLowerCase "from foo to bar".toList) "one week".toList = false ∧
      includes (toLowerCase "from foo to bar".toList) "weekly".toList = false ∧
      includes (toLowerCase "from foo to bar".toList) "monthly".toList = false ∧
      includes (toLowerCase "from foo to bar".toList) "past week".toList = false ∧
      includes (toLowerCase "from foo to bar".toList) "last year".toList = false ∧
      includes (toLowerCase "from foo to bar".toList) "this year".toList = false ∧
      includes (toLowerCase "from foo to bar".toList) "year to date".toList = false ∧
      includes (toLowerCase "from foo to bar".toList) "ytd".toList = false := by
  repeat' apply And.intro
  all_goals decide!

/-- The explicit-range rule when a captured side is not a date. -/
theorem ruleExplicitRange_unparsed (parse : String → JSDate) (tz : Int) (m : List Char)
    (caps : Caps) (hm : jsMatch rangeRe m = some caps)
    (hbad : parse (String.mk (trim (capture caps 2))) = none ∨
      parse (String.mk (trim (capture caps 4))) = none) :
    ruleExplicitRange parse tz m = none := by
  unfold ruleExplicitRange
  simp only [hm]
  rcases hbad with h | h
  · simp [h]
  · simp [h]

/-- The resolver on "from foo to bar", for a parser that rejects "foo". -/
theorem parsed_fooBar (parse : String → JSDate) (tz now1 now2 : Int)
    (hfoo : parse "foo" = none) (hwhole : parse "from foo to bar" = none) :
    parsed parse tz now1 now2 "from foo to bar" = .ok none := by
  obtain ⟨t0, t1, t2, t3, t4, t5, t6, t7, t8, t9, t10, t11, t12, t13, t14, t15, t16, t17, t18,
    t19, t20, t21, t22, t23, t24, t25, t26⟩ := fooBar_text
  have hx : ruleExplicitRange parse tz (toLowerCase "from foo to bar".toList) = none := by
    cases hm : jsMatch rangeRe (toLowerCase "from foo to bar".toList) with
    | none => exact ruleExplicitRange_none _ _ _ hm
    | some caps =>
      rw [hm] at t0
      simp only [Option.map, Option.some.injEq, Prod.mk.injEq] at t0
      exact ruleExplicitRange_unparsed parse tz _ caps hm (Or.inl (by rw [t0.1]; exact hfoo))
  have hprim : parseDateRange parse tz now1 "from foo to bar" = .ok none := by
    unfold parseDateRange
    simp only [hx, ruleLastNDays_none _ _ t1, ruleThisWeek_none _ _ t2, ruleLastWeek_none _ _ t3,
      ruleThisMonth_none _ _ t4, ruleLastMonth_none _ _ t5, ruleThisQuarter_none _ _ _ t6,
      ruleLastQuarter_none _ _ _ t7, ruleQuarterYear_none _ t8, ruleMonthName_none _ _ t9,
      ruleToday_none _ _ t10, ruleYesterday_none _ _ t11, ruleSingleDate_none parse tz _ hwhole,
      firstOf_none]
    rfl
  unfold parsed
  simp only [hprim]
  rw [ruleNWeeks_none _ _ t12, ruleNDays_none _ _ t13, ruleDaily_none _ _ t14 t15 t16 t17,
    ruleWeekly_none _ _ t18 t19 t20, ruleMonthly_none _ _ t21, rulePastWeek_none _ _ t22,
    ruleLastYear_none _ _ t23, ruleThisYear_none _ _ t24 t25 t26]
  rfl

/-- C15: when the explicit-range pattern matches but a captured side does not parse
as a date, the explicit-range rule returns nothing and the result of the resolver is
that of the remaining rules, from "last N days" on and then the secondary pass, on
the same text, NoMatch when none of them is taken; "from foo to bar" ends in
NoMatch. -/
theorem unparsed_range_falls_through (parse : String → JSDate) (tz now1 now2 : Int)
    (text : String) (caps : Caps)
    (hm : jsMatch rangeRe (toLowerCase text.toList) = some caps)
    (hbad : parse (String.mk (trim (capture caps 2))) = none ∨
      parse (String.mk (trim (capture caps 4))) = none) :
    ruleExplicitRange parse tz (toLowerCase text.toList) = none ∧
      parseDateRange parse tz now1 text = firstOf (primaryRules parse tz now1 text).tail ∧
      parsed parse tz now1 now2 text =
        firstOf ((primaryRules parse tz now1 text).tail ++ secondaryRules tz now2 text) ∧
      ((∀ x ∈ (primaryRules parse tz now1 text).tail ++ secondaryRules tz now2 text, x = none) →
        parsed parse tz now1 now2 text = .ok none) ∧
      parsed (jsDateParse tz) tz now1 now2 "from foo to bar" = .ok none := by
  have hx := ruleExplicitRange_unparsed parse tz _ caps hm hbad
  have hE : parsed parse tz now1 now2 text =
      firstOf ((primaryRules parse tz now1 text).tail ++ secondaryRules tz now2 text) := by
    rw [parsed_eq_firstOf]
    unfold primaryRules
    rw [hx]
    rfl
  refine ⟨hx, ?_, hE, ?_, parsed_fooBar (jsDateParse tz) tz now1 now2 rfl rfl⟩
  · rw [parseDateRange_eq_firstOf]
    unfold primaryRules
    rw [hx]
    rfl
  · intro hn
    rw [hE, firstOf_all_none _ hn]

theorem unparsed_range_falls_through_witness :
    ruleExplicitRange (jsDateParse 28800000) 28800000
        (toLowerCase "from foo to bar this week".toList) = none ∧
      parseDateRange (jsDateParse 28800000) 28800000 1704128400000 "from foo to bar this week" =
        firstOf (primaryRules (jsDateParse 28800000) 28800000 1704128400000
          "from foo to bar this week").tail ∧
      parsed (jsDateParse 28800000) 28800000 1704128400000 1704128400000
          "from foo to bar this week" =
        firstOf ((primaryRules (jsDateParse 28800000) 28800000 1704128400000
          "from foo to bar this week").tail ++
          secondaryRules 28800000 1704128400000 "from foo to bar this week") ∧
      ((∀ x ∈ (primaryRules (jsDateParse 28800000) 28800000 1704128400000
          "from foo to bar this week").tail ++
          secondaryRules 28800000 1704128400000 "from foo to bar this week", x = none) →
        parsed (jsDateParse 28800000) 28800000 1704128400000 1704128400000
          "from foo to bar this week" = .ok none) ∧
      parsed (jsDateParse 28800000) 28800000 1704128400000 1704128400000 "from foo to bar" =
        .ok none :=
  unparsed_range_falls_through (jsDateParse 28800000) 28800000 1704128400000 1704128400000
    "from foo to bar this week" [(4, "bar this week".toList), (3, "to".toList),
      (2, "foo".toList), (1, "from".toList)] (by decide!) (Or.inl (by decide!))

/-! ## All-data requests and the range picked in the chat -/

theorem toLowerCase_append (a b : List Char) :
    toLowerCase (a ++ b) = toLowerCase a ++ toLowerCase b := by
  unfold toLowerCase
  exact List.flatMap_append a b lowerChar

theorem includes_append_left (a b p : List Char) (h : includes b p = true) :
    includes (a ++ b) p = true := by
  induction a with
  | nil => exact h
  | cons x xs ih =>
    show includes (x :: (xs ++ b)) p = true
    unfold includes
    rw [ih, Bool.or_true]

/-- The request built for the option "all" of the chat is an all-data request. -/
theorem isAllDataRequest_option_all (pending : String) :
    isAllDataRequest (pending ++ " " ++ "for all available data") = true := by
  have h : includes (toLowerCase (pending ++ " " ++ "for all available data").toList)
      "all available data".toList = true := by
    have e : (pending ++ " " ++ "for all available data").toList =
        (pending ++ " ").toList ++ "for all available data".toList := rfl
    rw [e, toLowerCase_append]
    exact includes_append_left _ _ _ (by decide!)
  unfold isAllDataRequest
  rw [h]
  rfl

/-- C17: when the user request contains "all available data" or "for all", the report
parameters carry startDate = 'all' and endDate = 'all' whatever the resolver returned
for the date phrases of the request, a range or NoMatch; the request that the option
"all" of the chat builds from any pending request is of this kind. -/
theorem all_data_bypass (parse : String → JSDate) (tz now1 now2 now3 : Int)
    (userRequest : String) (p : Option DateRange)
    (hall : isAllDataRequest userRequest = true)
    (hp : parsed parse tz now1 now2 userRequest = .ok p) :
    (∃ rp : ReportParams, reportParams parse tz now1 now2 now3 userRequest = .ok rp ∧
        rp.startDate = "all" ∧ rp.endDate = "all" ∧ rp.userRequest = userRequest) ∧
      (∀ (now0 : Int) (startDate endDate : String),
        dateRangeText tz now0 "all" startDate endDate = .ok "for all available data") ∧
      (∀ pending : String,
        isAllDataRequest (pending ++ " " ++ "for all available data") = true) := by
  refine ⟨⟨⟨classifyReportType (toLowerCase userRequest.toList), "all", "all", true, true, true,
    true, true, userRequest, donationTypeOf (classifyReportType (toLowerCase userRequest.toList))
      (toLowerCase userRequest.toList)⟩, ?_, rfl, rfl, rfl⟩, ?_, isAllDataRequest_option_all⟩
  · unfold reportParams
    simp only [hp, hall, Except.bind, if_true]
  · intro now0 startDate endDate
    rfl

theorem all_data_bypass_witness :
    (∃ rp : ReportParams,
        reportParams (jsDateParse 28800000) 28800000 1704128400000 1704128400000 1704128400000
          "visitors for all of last week" = .ok rp ∧
        rp.startDate = "all" ∧ rp.endDate = "all" ∧
        rp.userRequest = "visitors for all of last week") ∧
      (∀ (now0 : Int) (startDate endDate : String),
        dateRangeText 28800000 now0 "all" startDate endDate = .ok "for all available data") ∧
      (∀ pending : String,
        isAllDataRequest (pending ++ " " ++ "for all available data") = true) :=
  all_data_bypass (jsDateParse 28800000) 28800000 1704128400000 1704128400000 1704128400000
    "visitors for all of last week" (some ⟨"2023-12-25", "2023-12-31"⟩) (by decide!) (by decide!)

theorem isoDate_ne_empty (z : Int) : isoDate z ≠ "" := by
  intro h
  have h2 := congrArg String.data h
  unfold isoDate isoString at h2
  simp at h2

/-- The helper `normalize` on UTC midnight of a day of a four-digit year, east of
Greenwich and less than a day ahead of UTC. -/
theorem normalize_utcMidnight_east (tz X : Int) (hX : RefDate X)
    (htz : 0 ≤ tz ∧ tz < msPerDay) :
    normalize tz (some (X * msPerDay)) = some (X * msPerDay) := by
  have hl : localDay tz (X * msPerDay) = X := by
    unfold localDay day
    unfold msPerDay at *
    omega
  have h := normalize_now tz (X * msPerDay) (by rw [hl]; exact hX)
  rw [hl] at h
  exact h

/-- C19 as amended: at or east of Greenwich, for ISO dates A and B of four-digit years
picked in the chat and a pending request such that the combined text is not an
all-data request nor a bare list request and the explicit-range pattern captures A
and B in it, the report parameters have startDate = A and endDate = B. -/
theorem custom_range_used (parse : String → JSDate) (tz now0 now1 now2 now3 : Int)
    (pending : String) (A B : Int)
    (htz : 0 ≤ tz ∧ tz < msPerDay) (hA : RefDate A) (hB : RefDate B)
    (hpA : parse (isoDate A) = some (A * msPerDay))
    (hpB : parse (isoDate B) = some (B * msPerDay))
    (hall : isAllDataRequest
      (pending ++ " " ++ ("from " ++ isoDate A ++ " to " ++ isoDate B)) = false)
    (hlist : isJustListRequest (toLowerCase
      (pending ++ " " ++ ("from " ++ isoDate A ++ " to " ++ isoDate B)).toList) = false)
    (hcap : (jsMatch rangeRe (toLowerCase
        (pending ++ " " ++ ("from " ++ isoDate A ++ " to " ++ isoDate B)).toList)).map
      (fun c => (String.mk (trim (capture c 2)), String.mk (trim (capture c 4)))) =
      some (isoDate A, isoDate B)) :
    ∃ rp : ReportParams,
      generateReportWithDateRange parse tz now0 now1 now2 now3 "custom" (isoDate A) (isoDate B)
        pending = .ok (some rp) ∧
      rp.startDate = isoDate A ∧ rp.endDate = isoDate B := by
  have hnA := isoDate_ne_empty A
  have hnB := isoDate_ne_empty B
  have hrule : ruleExplicitRange parse tz (toLowerCase
      (pending ++ " " ++ ("from " ++ isoDate A ++ " to " ++ isoDate B)).toList) =
      some (.ok ⟨isoDate A, isoDate B⟩) := by
    unfold ruleExplicitRange
    cases hm : jsMatch rangeRe (toLowerCase
        (pending ++ " " ++ ("from " ++ isoDate A ++ " to " ++ isoDate B)).toList) with
    | none => rw [hm] at hcap; simp at hcap
    | some caps =>
      rw [hm] at hcap
      simp only [Option.map, Option.some.injEq, Prod.mk.injEq] at hcap
      simp only [hcap.1, hcap.2, hpA, hpB, Option.isSome_some, Bool.and_self, if_true,
        normalize_utcMidnight_east tz A hA htz, normalize_utcMidnight_east tz B hB htz,
        mkRange_midnight]
  have hparsed : parsed parse tz now1 now2
      (pending ++ " " ++ ("from " ++ isoDate A ++ " to " ++ isoDate B)) =
      .ok (some ⟨isoDate A, isoDate B⟩) := by
    apply parsed_of_primary
    unfold parseDateRange
    simp only [hrule, firstOf_some]
    rfl
  refine ⟨⟨classifyReportType (toLowerCase
      (pending ++ " " ++ ("from " ++ isoDate A ++ " to " ++ isoDate B)).toList), isoDate A,
    isoDate B, true, true, true, true, true,
    pending ++ " " ++ ("from " ++ isoDate A ++ " to " ++ isoDate B),
    donationTypeOf (classifyReportType (toLowerCase
      (pending ++ " " ++ ("from " ++ isoDate A ++ " to " ++ isoDate B)).toList))
      (toLowerCase (pending ++ " " ++ ("from " ++ isoDate A ++ " to " ++ isoDate B)).toList)⟩,
    ?_, rfl, rfl⟩
  have hd : dateRangeText tz now0 "custom" (isoDate A) (isoDate B) =
      .ok ("from " ++ isoDate A ++ " to " ++ isoDate B) := by
    unfold dateRangeText
    rw [if_neg (by decide), if_neg (by decide), if_pos ⟨rfl, hnA, hnB⟩]
  unfold generateReportWithDateRange
  rw [hd]
  simp only [Except.bind]
  unfold generateReport
  rw [hlist]
  simp only [Bool.false_eq_true, if_false]
  unfold reportParams
  simp only [hparsed, hall, Except.bind, Option.map, orDefault, hnA, hnB, if_false,
    Bool.false_eq_true, Except.map]

theorem custom_range_used_witness :
    ∃ rp : ReportParams,
      generateReportWithDateRange (jsDateParse 28800000) 28800000 1704128400000 1704128400000
        1704128400000 1704128400000 "custom" (isoDate 19783) (isoDate 19797)
        "visitor report for last week" = .ok (some rp) ∧
      rp.startDate = isoDate 19783 ∧ rp.endDate = isoDate 19797 :=
  custom_range_used (jsDateParse 28800000) 28800000 1704128400000 1704128400000
    1704128400000 1704128400000 "visitor report for last week" 19783 19797
    (by decide) (by unfold RefDate; decide) (by unfold RefDate; decide) (by decide!) (by decide!)
    (by decide!) (by decide!) (by decide!)

/-- C19 as stated fails: with the dates 2024-03-01 and 2024-03-15 picked in the chat
and the pending request "visitor report for all", the report parameters carry 'all'
and 'all', the all-data phrase of the request text deciding; and a pending request
that is a bare list request gets no parameters at all. -/
theorem custom_range_overridden :
    generateReportWithDateRange (jsDateParse 28800000) 28800000 1704128400000 1704128400000
        1704128400000 1704128400000 "custom" "2024-03-01" "2024-03-15"
        "visitor report for all" =
        .ok (some ⟨"visitor_analytics", "all", "all", true, true, true, true, true,
          "visitor report for all from 2024-03-01 to 2024-03-15", none⟩) ∧
      generateReportWithDateRange (jsDateParse 28800000) 28800000 1704128400000 1704128400000
        1704128400000 1704128400000 "custom" "2024-03-01" "2024-03-15" "list report" =
        .ok none := by
  decide!

/-! ## Where the zone does not matter -/

/-- Outside the explicit-range rule, the two quarter rules and the single-date
fallback, the result of the resolver for two zones with the same reference date is
the same. -/
theorem resolver_zone_independent (parse : String → JSDate) (tz1 tz2 now now2 : Int)
    (text : String) (hR : RefDate (localDay tz1 now))
    (hsame : localDay tz1 now = localDay tz2 now)
    (hsame2 : normalize tz1 (some now2) = normalize tz2 (some now2))
    (hx1 : ruleExplicitRange parse tz1 (toLowerCase text.toList) = none)
    (hx2 : ruleExplicitRange parse tz2 (toLowerCase text.toList) = none)
    (hq1 : includes (toLowerCase text.toList) "this quarter".toList = false)
    (hq2 : includes (toLowerCase text.toList) "last quarter".toList = false)
    (hs1 : ruleSingleDate parse tz1 text = none) (hs2 : ruleSingleDate parse tz2 text = none) :
    parsed parse tz1 now now2 text = parsed parse tz2 now now2 text := by
  have n1 := normalize_now tz1 now hR
  have n2 := normalize_now tz2 now (by rw [← hsame]; exact hR)
  rw [← hsame] at n2
  unfold parsed parseDateRange
  simp only [n1, n2, hx1, hx2, ruleThisQuarter_none _ _ _ hq1, ruleLastQuarter_none _ _ _ hq2,
    hs1, hs2, hsame2]

/-! ## Dates of the years 0 to 9999 -/

/-- The day number of a date that exists lies in its year. -/
theorem makeDay_in_year (y i d : Int) (hi : 0 ≤ i ∧ i ≤ 11) (hd : 1 ≤ d ∧ d ≤ daysInMonth y i) :
    dayFromYear y ≤ makeDay y i d ∧ makeDay y i d < dayFromYear (y + 1) := by
  have hb := monthStart_bounds y i d hi hd
  have h12 : i / 12 = 0 := by omega
  have hmod : i % 12 = i := by omega
  rw [dayFromYear_succ, daysInYear_eq]
  unfold makeDay
  rw [h12, hmod, add_zero]
  omega

/-- The day numbers of the years 0 to 9999. -/
theorem dayFromYear_range (y : Int) (h : 0 ≤ y ∧ y ≤ 9999) :
    -719528 ≤ dayFromYear y ∧ dayFromYear (y + 1) ≤ 2932897 := by
  unfold dayFromYear
  omega

/-- The year of a day number between 0000-01-01 and 9999-12-31. -/
theorem yearFromDay_range (z : Int) (h : -719528 ≤ z ∧ z < 2932897) :
    0 ≤ yearFromDay z ∧ yearFromDay z ≤ 9999 := by
  have h0 : yearFromDay (-719528) = 0 := by decide
  have h1 : yearFromDay 2932896 = 9999 := by decide
  have a := yearFromDay_mono (show (-719528 : Int) ≤ z by omega)
  have b := yearFromDay_mono (show z ≤ 2932896 by omega)
  omega

/-! ## Rules that are not taken -/

/-- Rules that are not taken can be dropped from the front of the list. -/
theorem firstOf_drop (rules : List Rule) (n : Nat) (h : noneTaken rules n) :
    firstOf rules = firstOf (rules.drop n) := by
  have hs : firstOf (rules.take n ++ rules.drop n) = firstOf (rules.drop n) := by
    rw [firstOf_append, firstOf_all_none _ h]
  rw [List.take_append_drop] at hs
  exact hs

/-- When the primary pass finds nothing the result is that of the secondary rules. -/
theorem parsed_of_secondary (parse : String → JSDate) (tz now1 now2 : Int) (text : String)
    (h : parseDateRange parse tz now1 text = .ok none) :
    parsed parse tz now1 now2 text = firstOf (secondaryRules tz now2 text) := by
  unfold parsed
  simp only [h]
  rfl


/-! ## The year of the month rule -/

theorem isDigit_value (c : Char) (h : isDigit c = true) : 48 ≤ c.toNat ∧ c.toNat ≤ 57 := by
  unfold isDigit at h
  simp only [Bool.and_eq_true, decide_eq_true_eq] at h
  have h1 : '0'.toNat ≤ c.toNat := h.1
  have h2 : c.toNat ≤ '9'.toNat := h.2
  exact ⟨h1, h2⟩

theorem isDigit_wordChar (c : Char) (h : isDigit c = true) : isWordChar c = true := by
  unfold isWordChar
  simp [h]

/-- The pattern of the year at one position finds the token `20xx` standing there. -/
theorem yearRe_run (prev : Option Char) (rest : List Char) :
    (yearRe.run ⟨prev, rest⟩ [] fun _ caps => some caps).map (fun c => parseInt (capture c 1)) =
      yearTokenAt prev rest := by
  have hw2 : isWordChar '2' = true := by decide
  match rest with
  | [] => simp [yearRe, Re.cat, Re.word, Re.run, yearTokenAt]
  | [c1] => simp [yearRe, Re.cat, Re.word, Re.run, yearTokenAt, repRun]
  | [c1, c2] => simp [yearRe, Re.cat, Re.word, Re.run, yearTokenAt, repRun]
  | [c1, c2, d1] =>
    by_cases h1 : c1 = '2' <;> by_cases h2 : c2 = '0' <;>
      simp [yearRe, Re.cat, Re.word, Re.run, yearTokenAt, repRun, h1, h2]
  | c1 :: c2 :: d1 :: d2 :: tail =>
    by_cases h1 : c1 = '2'
    · by_cases h2 : c2 = '0'
      · subst h1 h2
        cases h3 : isDigit d1
        · simp [yearRe, Re.cat, Re.word, Re.run, yearTokenAt, repRun, h3]
        · cases h4 : isDigit d2
          · simp [yearRe, Re.cat, Re.word, Re.run, yearTokenAt, repRun, h3, h4]
          · have hw4 := isDigit_wordChar d2 h4
            have hb1 : atWordBoundary ⟨prev, '2' :: '0' :: d1 :: d2 :: tail⟩ =
                prev.all fun c => !isWordChar c := by
              cases prev with
              | none => simp [atWordBoundary, hw2]
              | some p => cases hp : isWordChar p <;> simp [atWordBoundary, hw2, hp]
            have hb2 : atWordBoundary ⟨some d2, tail⟩ =
                tail.head?.all fun c => !isWordChar c := by
              cases tail with
              | nil => simp [atWordBoundary, hw4]
              | cons t ts => cases ht : isWordChar t <;> simp [atWordBoundary, hw4, ht]
            cases tail with
            | nil =>
              simp [yearRe, Re.cat, Re.word, Re.run, yearTokenAt, repRun, h3, h4, hb1, hb2,
                parseInt, capture]
              split
              · congr 1
                omega
              · rfl
            | cons t ts =>
              cases hp : (prev.all fun c => !isWordChar c) <;> cases ht : isWordChar t <;>
                simp [yearRe, Re.cat, Re.word, Re.run, yearTokenAt, repRun, h3, h4, hb1, hb2,
                  parseInt, capture, hp, ht]
              omega
      · simp [yearRe, Re.cat, Re.word, Re.run, yearTokenAt, repRun, h1, h2]
    · simp [yearRe, Re.cat, Re.word, Re.run, yearTokenAt, repRun, h1]

/-- The pattern of the year finds the first token `20xx` of the text. -/
theorem yearRe_search (prev : Option Char) (s : List Char) :
    (yearRe.search prev s).map (fun c => parseInt (capture c 1)) = firstYearToken prev s := by
  induction s generalizing prev with
  | nil =>
    unfold Re.search
    rw [yearRe_run]
    rfl
  | cons x xs ih =>
    unfold Re.search firstYearToken
    rw [← yearRe_run, ← ih]
    cases yearRe.run ⟨prev, x :: xs⟩ [] fun _ caps => some caps with
    | none => rfl
    | some c => rfl

theorem yearTokenAt_range (prev : Option Char) (s : List Char) (y : Int)
    (h : yearTokenAt prev s = some y) : 2000 ≤ y ∧ y ≤ 2099 := by
  unfold yearTokenAt at h
  split at h
  · split_ifs at h with hc
    have h1 := isDigit_value _ hc.2.2.2.1
    have h2 := isDigit_value _ hc.2.2.2.2.1
    simp only [Option.some.injEq] at h
    omega
  · simp at h

/-- A token `20xx` is a year from 2000 to 2099. -/
theorem firstYearToken_range (prev : Option Char) (s : List Char) (y : Int)
    (h : firstYearToken prev s = some y) : 2000 ≤ y ∧ y ≤ 2099 := by
  induction s generalizing prev with
  | nil => simp [firstYearToken] at h
  | cons x xs ih =>
    unfold firstYearToken at h
    cases ht : yearTokenAt prev (x :: xs) with
    | none =>
      rw [ht] at h
      exact ih _ h
    | some v =>
      rw [ht] at h
      simp only [Option.orElse, Option.some.injEq] at h
      subst h
      exact yearTokenAt_range _ _ _ ht

/-- The year of the month rule: the first token `20xx`, else the year of today. -/
theorem monthRuleYear_eq (R : Int) (m : List Char) :
    monthRuleYear (some (R * msPerDay)) m =
      some ((firstYearToken none m).getD (yearFromDay R)) := by
  unfold monthRuleYear
  rw [← yearRe_search, getUTCFullYear_midnight]
  unfold jsMatch
  cases yearRe.search none m with
  | none => rfl
  | some c => rfl

/-- The first of the names included is the one before which none is included. -/
theorem firstIncluded_least (m : List Char) (names : List String) (i0 : Int) (j : Nat)
    (hj : j < names.length) (hi : includes m (names.get ⟨j, hj⟩).toList = true)
    (hfirst : ∀ l : Fin names.length, l.val < j → includes m (names.get l).toList = false) :
    firstIncluded m names i0 = some (i0 + j) := by
  induction names generalizing i0 j with
  | nil => simp at hj
  | cons name rest ih =>
    unfold firstIncluded
    cases j with
    | zero =>
      simp only [List.get_eq_getElem, List.getElem_cons_zero] at hi
      rw [if_pos hi]
      simp
    | succ j' =>
      have h0 := hfirst ⟨0, by simp⟩ (by simp)
      simp only [List.get_eq_getElem, List.getElem_cons_zero] at h0
      simp only [h0, Bool.false_eq_true, if_false]
      have hj2 : j' < rest.length := by simpa using hj
      rw [ih (i0 + 1) j' hj2 (by simpa using hi)
        (fun l hl => by
          have := hfirst ⟨l.val + 1, by simp⟩ (by simp; omega)
          simpa using this)]
      congr 1
      push_cast
      omega

/-- The rule of the month names, for any text that has one. -/
theorem ruleMonthName_year (R : Int) (hR : RefDate R) (m : List Char) (i : Fin 12)
    (hi : includes m (monthNames.get i).toList = true)
    (hfirst : ∀ l : Fin 12, l < i → includes m (monthNames.get l).toList = false) :
    ruleMonthName (some (R * msPerDay)) m =
      some (.ok ⟨isoString ((firstYearToken none m).getD (yearFromDay R)) (i.val + 1) 1,
        isoString ((firstYearToken none m).getD (yearFromDay R)) (i.val + 1)
          (lastDayGregorian ((firstYearToken none m).getD (yearFromDay R)) i.val)⟩) := by
  have hyr := hR.year
  have hY : 1000 ≤ (firstYearToken none m).getD (yearFromDay R) ∧
      (firstYearToken none m).getD (yearFromDay R) ≤ 9999 := by
    cases ht : firstYearToken none m with
    | none => exact hyr
    | some y =>
      have := firstYearToken_range _ _ _ ht
      simp only [Option.getD]
      omega
  have hk := firstIncluded_least m monthNames 0 i.val i.isLt hi
    (fun l hl => hfirst l (by exact hl))
  rw [zero_add] at hk
  unfold ruleMonthName
  rw [monthLoop_eq, hk]
  simp only [Option.map, monthRuleYear_eq]
  rw [mkRange_month _ _ (by omega) (by omega) (by omega)]

/-- C21: for every reference date R and every text that contains the month name M
(and no month name that comes before M in the calendar) and to which none of the
nine rules before the month rule applies, the resolver returns the first to the last
day of month M of the year of the first token `20xx` of the text (a year from 2000
to 2099), and of the year of R when the text has no such token, as "March 1999" has
none. -/
theorem month_name_year_token (parse : String → JSDate) (tz now now2 : Int) (text : String)
    (i : Fin 12) (hR : RefDate (localDay tz now))
    (hearly : noneTaken (primaryRules parse tz now text) 9)
    (hi : includes (toLowerCase text.toList) (monthNames.get i).toList = true)
    (hfirst : ∀ l : Fin 12, l < i →
      includes (toLowerCase text.toList) (monthNames.get l).toList = false) :
    parsed parse tz now now2 text =
        .ok (some ⟨isoString ((firstYearToken none (toLowerCase text.toList)).getD
            (yearFromDay (localDay tz now))) (i.val + 1) 1,
          isoString ((firstYearToken none (toLowerCase text.toList)).getD
            (yearFromDay (localDay tz now))) (i.val + 1)
            (lastDayGregorian ((firstYearToken none (toLowerCase text.toList)).getD
              (yearFromDay (localDay tz now))) i.val)⟩) ∧
      (∀ y, firstYearToken none (toLowerCase text.toList) = some y → 2000 ≤ y ∧ y ≤ 2099) ∧
      firstYearToken none (toLowerCase "March 1999".toList) = none ∧
      firstYearToken none (toLowerCase "March 2024 or 2025".toList) = some 2024 := by
  refine ⟨?_, fun y hy => firstYearToken_range _ _ _ hy, by decide!, by decide!⟩
  apply parsed_of_primary
  rw [parseDateRange_eq_firstOf, firstOf_drop _ 9 hearly]
  simp only [primaryRules, List.drop]
  rw [normalize_now tz now hR, ruleMonthName_year _ hR _ i hi hfirst, firstOf_some]
  rfl

theorem month_name_year_token_witness :
    parsed (jsDateParse 28800000) 28800000 1762300800000 1762300800000
        "visitors in February 2024" = .ok (some ⟨"2024-02-01", "2024-02-29"⟩) ∧
      parsed (jsDateParse 28800000) 28800000 1762300800000 1762300800000
        "visitors in March 1999" = .ok (some ⟨"2025-03-01", "2025-03-31"⟩) :=
  ⟨((month_name_year_token (jsDateParse 28800000) 28800000 1762300800000 1762300800000
      "visitors in February 2024" 1 (by unfold RefDate localDay day msPerDay; decide)
      (by unfold noneTaken; decide!) (by decide!) (by decide!)).1).trans (by decide!),
    ((month_name_year_token (jsDateParse 28800000) 28800000 1762300800000 1762300800000
      "visitors in March 1999" 2 (by unfold RefDate localDay day msPerDay; decide)
      (by unfold noneTaken; decide!) (by decide!) (by decide!)).1).trans (by decide!)⟩

/-! ## What a match of a pattern tells -/

/-- A quantified class that matches has consumed a run of characters of the class, of
a length the quantifier allows, before its continuation matched. -/
theorem repRun_sound (p : Char → Bool) (g : Bool) (k : Cursor → Option Caps) (s : List Char) :
    ∀ (lo : Nat) (hi : Option Nat) (prev : Option Char) (c : Caps),
      repRun p g k lo hi prev s = some c →
      ∃ ds rest prev1, s = ds ++ rest ∧ (∀ x ∈ ds, p x = true) ∧ lo ≤ ds.length ∧
        (∀ n, hi = some n → ds.length ≤ n) ∧ k ⟨prev1, rest⟩ = some c := by
  induction s with
  | nil =>
    intro lo hi prev c hrun
    unfold repRun at hrun
    split_ifs at hrun with h0
    exact ⟨[], [], prev, rfl, by simp, by simp [h0], by simp, hrun⟩
  | cons x xs ih =>
    intro lo hi prev c hrun
    unfold repRun at hrun
    have hstop : (if lo = 0 then k ⟨prev, x :: xs⟩ else none) = some c →
        ∃ ds rest prev1, x :: xs = ds ++ rest ∧ (∀ y ∈ ds, p y = true) ∧ lo ≤ ds.length ∧
          (∀ n, hi = some n → ds.length ≤ n) ∧ k ⟨prev1, rest⟩ = some c := by
      intro hs
      split_ifs at hs with h0
      exact ⟨[], x :: xs, prev, rfl, by simp, by simp [h0], by simp, hs⟩
    have hmore : (if (p x && hi != some 0) = true then
          repRun p g k (lo - 1) (hi.map fun n => n - 1) (some x) xs else none) = some c →
        ∃ ds rest prev1, x :: xs = ds ++ rest ∧ (∀ y ∈ ds, p y = true) ∧ lo ≤ ds.length ∧
          (∀ n, hi = some n → ds.length ≤ n) ∧ k ⟨prev1, rest⟩ = some c := by
      intro hm
      split_ifs at hm with hc
      simp only [Bool.and_eq_true, bne_iff_ne, ne_eq] at hc
      obtain ⟨ds, rest, prev1, e, hall, hlo, hhi, hk⟩ := ih _ _ _ _ hm
      refine ⟨x :: ds, rest, prev1, by rw [e]; rfl, ?_, ?_, ?_, hk⟩
      · intro y hy
        rcases List.mem_cons.mp hy with rfl | hy
        · exact hc.1
        · exact hall y hy
      · simp only [List.length_cons]
        omega
      · intro n hn
        subst hn
        have h0 : n ≠ 0 := fun e0 => hc.2 (by rw [e0])
        have := hhi (n - 1) rfl
        simp only [List.length_cons]
        omega
    dsimp only at hrun
    cases g with
    | true =>
      simp only [if_true] at hrun
      cases hm : (if (p x && hi != some 0) = true then
          repRun p true k (lo - 1) (hi.map fun n => n - 1) (some x) xs else none) with
      | some v =>
        rw [hm] at hrun
        simp only [Option.orElse, Option.some.injEq] at hrun
        subst hrun
        exact hmore hm
      | none =>
        rw [hm] at hrun
        exact hstop hrun
    | false =>
      simp only [Bool.false_eq_true, if_false] at hrun
      cases hs : (if lo = 0 then k ⟨prev, x :: xs⟩ else none) with
      | some v =>
        rw [hs] at hrun
        simp only [Option.orElse, Option.some.injEq] at hrun
        subst hrun
        exact hstop hs
      | none =>
        rw [hs] at hrun
        exact hmore hrun

/-- A pattern without a group that matches leaves the captures as they were. -/
theorem run_noGrp (r : Re) (hr : r.noGrp = true) :
    ∀ (cur : Cursor) (caps : Caps) (k : Cursor → Caps → Option Caps) (c : Caps),
      r.run cur caps k = some c → ∃ cur1, k cur1 caps = some c := by
  induction r with
  | eps =>
    intro cur caps k c h
    exact ⟨cur, h⟩
  | chr ch =>
    intro cur caps k c h
    unfold Re.run at h
    split at h
    · split_ifs at h
      exact ⟨_, h⟩
    · simp at h
  | wordB =>
    intro cur caps k c h
    unfold Re.run at h
    split_ifs at h
    exact ⟨_, h⟩
  | seq a b iha ihb =>
    intro cur caps k c h
    simp only [Re.noGrp, Bool.and_eq_true] at hr
    unfold Re.run at h
    obtain ⟨cur1, h1⟩ := iha hr.1 _ _ _ _ h
    exact ihb hr.2 _ _ _ _ h1
  | alt a b iha ihb =>
    intro cur caps k c h
    simp only [Re.noGrp, Bool.and_eq_true] at hr
    unfold Re.run at h
    cases ha : a.run cur caps k with
    | some v =>
      rw [ha] at h
      simp only [Option.orElse, Option.some.injEq] at h
      subst h
      exact iha hr.1 _ _ _ _ ha
    | none =>
      rw [ha] at h
      exact ihb hr.2 _ _ _ _ h
  | grp i r _ => simp [Re.noGrp] at hr
  | rep p lo hi g =>
    intro cur caps k c h
    unfold Re.run at h
    obtain ⟨ds, rest, prev1, _, _, _, _, hk⟩ := repRun_sound _ _ _ _ _ _ _ _ h
    exact ⟨_, hk⟩
  | maybe r ih =>
    intro cur caps k c h
    simp only [Re.noGrp] at hr
    unfold Re.run at h
    cases ha : r.run cur caps k with
    | some v =>
      rw [ha] at h
      simp only [Option.orElse, Option.some.injEq] at h
      subst h
      exact ih hr _ _ _ _ ha
    | none =>
      rw [ha] at h
      exact ⟨_, h⟩

/-- A group around a quantified class that matches has captured a run of characters
of the class, of a length the quantifier allows. -/
theorem run_grp_rep (i : Nat) (p : Char → Bool) (lo : Nat) (hi : Option Nat) (g : Bool)
    (cur : Cursor) (caps : Caps) (k : Cursor → Caps → Option Caps) (c : Caps)
    (h : (Re.grp i (Re.rep p lo hi g)).run cur caps k = some c) :
    ∃ ds cur1, (∀ x ∈ ds, p x = true) ∧ lo ≤ ds.length ∧ (∀ n, hi = some n → ds.length ≤ n) ∧
      k cur1 ((i, ds) :: caps) = some c := by
  simp only [Re.run] at h
  obtain ⟨ds, rest, prev1, e, hall, hlo, hhi, hk⟩ := repRun_sound _ _ _ _ _ _ _ _ h
  refine ⟨ds, ⟨prev1, rest⟩, hall, hlo, hhi, ?_⟩
  rw [e] at hk
  simpa using hk

/-- A match found by the search is a match at some position. -/
theorem search_sound (r : Re) (s : List Char) :
    ∀ (prev : Option Char) (c : Caps), r.search prev s = some c →
      ∃ cur, r.run cur [] (fun _ caps => some caps) = some c := by
  induction s with
  | nil =>
    intro prev c h
    unfold Re.search at h
    exact ⟨_, h⟩
  | cons x xs ih =>
    intro prev c h
    unfold Re.search at h
    cases ha : r.run ⟨prev, x :: xs⟩ [] (fun _ caps => some caps) with
    | some v =>
      rw [ha] at h
      simp only [Option.orElse, Option.some.injEq] at h
      subst h
      exact ⟨_, ha⟩
    | none =>
      rw [ha] at h
      exact ih _ _ h

/-- The number written by at most `n` digits is below `10 ^ n`. -/
theorem parseInt_bound (ds : List Char) (hd : ∀ x ∈ ds, isDigit x = true) :
    0 ≤ parseInt ds ∧ parseInt ds < (10 : Int) ^ ds.length := by
  have key : ∀ (l : List Char) (acc : Nat), (∀ x ∈ l, isDigit x = true) →
      l.foldl (fun acc c => 10 * acc + (c.toNat - 48)) acc < (acc + 1) * 10 ^ l.length := by
    intro l
    induction l with
    | nil => intro acc _; simp
    | cons x xs ih =>
      intro acc hx
      have hv := isDigit_value x (hx x (List.mem_cons_self _ _))
      have := ih (10 * acc + (x.toNat - 48)) (fun y hy => hx y (List.mem_cons_of_mem _ hy))
      simp only [List.foldl_cons, List.length_cons]
      calc _ < (10 * acc + (x.toNat - 48) + 1) * 10 ^ xs.length := this
        _ ≤ ((acc + 1) * 10) * 10 ^ xs.length := Nat.mul_le_mul_right _ (by omega)
        _ = (acc + 1) * 10 ^ (xs.length + 1) := by rw [pow_succ]; ring
  have := key ds 0 hd
  unfold parseInt
  constructor
  · exact Int.ofNat_nonneg _
  · rw [zero_add, one_mul] at this
    have h2 : ((ds.foldl (fun acc c => 10 * acc + (c.toNat - 48)) 0 : Nat) : Int) <
        ((10 ^ ds.length : Nat) : Int) := Int.ofNat_lt.mpr this
    rw [Nat.cast_pow] at h2
    exact h2

theorem run_seq (a b : Re) (cur : Cursor) (caps : Caps) (k : Cursor → Caps → Option Caps) :
    (Re.seq a b).run cur caps k = a.run cur caps fun cur1 caps1 => b.run cur1 caps1 k := rfl

/-- What the pattern "N weeks" captures: one or two digits. -/
theorem nWeeksRe_capture (m : List Char) (caps : Caps) (h : jsMatch nWeeksRe m = some caps) :
    ∃ ds, caps = [(1, ds)] ∧ (∀ x ∈ ds, isDigit x = true) ∧ 1 ≤ ds.length ∧ ds.length ≤ 2 := by
  obtain ⟨cur, hrun⟩ := search_sound _ _ _ _ h
  have e : nWeeksRe = Re.seq (Re.maybe (Re.seq (Re.word "for") Re.spaces))
      (Re.seq (Re.grp 1 (Re.rep isDigit 1 (some 2) true))
        (Re.cat [Re.spaces, Re.word "week", Re.maybe (Re.chr 's')])) := rfl
  rw [e, run_seq] at hrun
  obtain ⟨cur1, h1⟩ := run_noGrp _ (by rfl) _ _ _ _ hrun
  rw [run_seq] at h1
  obtain ⟨ds, cur2, hall, hlo, hhi, h2⟩ := run_grp_rep _ _ _ _ _ _ _ _ _ h1
  obtain ⟨cur3, h3⟩ := run_noGrp _ (by rfl) _ _ _ _ h2
  simp only [Option.some.injEq] at h3
  exact ⟨ds, h3.symm, hall, hlo, hhi 2 rfl⟩

/-- What the pattern "N days" captures: one to three digits. -/
theorem nDaysRe_capture (m : List Char) (caps : Caps) (h : jsMatch nDaysRe m = some caps) :
    ∃ ds, caps = [(1, ds)] ∧ (∀ x ∈ ds, isDigit x = true) ∧ 1 ≤ ds.length ∧ ds.length ≤ 3 := by
  obtain ⟨cur, hrun⟩ := search_sound _ _ _ _ h
  have e : nDaysRe = Re.seq (Re.maybe (Re.seq (Re.word "for") Re.spaces))
      (Re.seq (Re.grp 1 (Re.rep isDigit 1 (some 3) true))
        (Re.cat [Re.spaces, Re.word "day", Re.maybe (Re.chr 's')])) := rfl
  rw [e, run_seq] at hrun
  obtain ⟨cur1, h1⟩ := run_noGrp _ (by rfl) _ _ _ _ hrun
  rw [run_seq] at h1
  obtain ⟨ds, cur2, hall, hlo, hhi, h2⟩ := run_grp_rep _ _ _ _ _ _ _ _ _ h1
  obtain ⟨cur3, h3⟩ := run_noGrp _ (by rfl) _ _ _ _ h2
  simp only [Option.some.injEq] at h3
  exact ⟨ds, h3.symm, hall, hlo, hhi 3 rfl⟩

/-- What the pattern "last N days" captures: one to three digits. -/
theorem lastNDaysRe_capture (m : List Char) (caps : Caps)
    (h : jsMatch lastNDaysRe m = some caps) :
    ∃ ds, caps = [(1, ds)] ∧ (∀ x ∈ ds, isDigit x = true) ∧ 1 ≤ ds.length ∧ ds.length ≤ 3 := by
  obtain ⟨cur, hrun⟩ := search_sound _ _ _ _ h
  have e : lastNDaysRe = Re.seq (Re.word "last") (Re.seq Re.spaces
      (Re.seq (Re.grp 1 (Re.rep isDigit 1 (some 3) true))
        (Re.cat [Re.spaces, Re.word "day", Re.maybe (Re.chr 's')]))) := rfl
  rw [e, run_seq] at hrun
  obtain ⟨cur0, h0⟩ := run_noGrp _ (by rfl) _ _ _ _ hrun
  rw [run_seq] at h0
  obtain ⟨cur1, h1⟩ := run_noGrp _ (by rfl) _ _ _ _ h0
  rw [run_seq] at h1
  obtain ⟨ds, cur2, hall, hlo, hhi, h2⟩ := run_grp_rep _ _ _ _ _ _ _ _ _ h1
  obtain ⟨cur3, h3⟩ := run_noGrp _ (by rfl) _ _ _ _ h2
  simp only [Option.some.injEq] at h3
  exact ⟨ds, h3.symm, hall, hlo, hhi 3 rfl⟩

/-- The number read from a capture of at most three digits. -/
theorem parseInt_capture (caps : Caps) (ds : List Char) (n : Nat) (hc : caps = [(1, ds)])
    (hd : ∀ x ∈ ds, isDigit x = true) (hl : ds.length ≤ n) :
    0 ≤ parseInt (capture caps 1) ∧ parseInt (capture caps 1) < (10 : Int) ^ n := by
  have hcap : capture caps 1 = ds := by
    rw [hc]
    rfl
  rw [hcap]
  have hb := parseInt_bound ds hd
  refine ⟨hb.1, lt_of_lt_of_le hb.2 ?_⟩
  exact pow_le_pow_right₀ (by norm_num) hl

/-! ## Today and yesterday -/

/-- The day before a day number, as a date: the last day of the month before when the
day is the first of its month. -/
theorem isoDate_pred (R : Int) :
    isoDate (R - 1) =
      if dateFromDay R = 1 then
        (if monthFromDay R = 0 then isoString (yearFromDay R - 1) 12 31
          else isoString (yearFromDay R) (monthFromDay R)
            (lastDayGregorian (yearFromDay R) (monthFromDay R - 1)))
      else isoString (yearFromDay R) (monthFromDay R + 1) (dateFromDay R - 1) := by
  have hm := monthFromDay_range R
  have hd := dateFromDay_range R
  have hc := makeDay_civil R (-1)
  by_cases h1 : dateFromDay R = 1
  · rw [if_pos h1]
    have hf := makeDay_first R
    have hp := prevMonth_end (yearFromDay R) (monthFromDay R) hm
    have hR1 : R - 1 = makeDay (if monthFromDay R = 0 then yearFromDay R - 1 else yearFromDay R)
        ((monthFromDay R + 11) % 12)
        (daysInMonth (if monthFromDay R = 0 then yearFromDay R - 1 else yearFromDay R)
          ((monthFromDay R + 11) % 12)) := by omega
    have hdp := daysInMonth_pos (if monthFromDay R = 0 then yearFromDay R - 1 else yearFromDay R)
      ((monthFromDay R + 11) % 12)
    rw [hR1, isoDate_makeDay _ _ _ (by omega) (by omega), daysInMonth_gregorian]
    by_cases h0 : monthFromDay R = 0
    · simp only [h0, if_true]
      rfl
    · simp only [h0, if_false]
      rw [show (monthFromDay R + 11) % 12 = monthFromDay R - 1 by omega,
        show monthFromDay R - 1 + 1 = monthFromDay R by omega]
  · rw [if_neg h1]
    rw [show R - 1 = R + -1 by omega, ← hc,
      isoDate_makeDay _ _ _ hm (by omega)]
    rfl

/-- C22: for every reference date R, a text to which none of the ten rules before the
rule "today" applies resolves to R..R when it contains "today", and to the day
before R, twice, when it contains "yesterday" and not "today"; the day before R is
the last day of the month before (31 December of the year before in January) when R
is the first of a month. -/
theorem today_and_yesterday (parse : String → JSDate) (tz now now2 : Int) (text : String)
    (hR : RefDate (localDay tz now))
    (hearly : noneTaken (primaryRules parse tz now text) 10) :
    (includes (toLowerCase text.toList) "today".toList = true →
        parsed parse tz now now2 text =
          .ok (some ⟨isoDate (localDay tz now), isoDate (localDay tz now)⟩)) ∧
      (includes (toLowerCase text.toList) "today".toList = false →
        includes (toLowerCase text.toList) "yesterday".toList = true →
        parsed parse tz now now2 text =
          .ok (some ⟨isoDate (localDay tz now - 1), isoDate (localDay tz now - 1)⟩)) ∧
      isoDate (localDay tz now) = isoString (yearFromDay (localDay tz now))
        (monthFromDay (localDay tz now) + 1) (dateFromDay (localDay tz now)) ∧
      isoDate (localDay tz now - 1) =
        (if dateFromDay (localDay tz now) = 1 then
          (if monthFromDay (localDay tz now) = 0 then
            isoString (yearFromDay (localDay tz now) - 1) 12 31
          else isoString (yearFromDay (localDay tz now)) (monthFromDay (localDay tz now))
            (lastDayGregorian (yearFromDay (localDay tz now))
              (monthFromDay (localDay tz now) - 1)))
        else isoString (yearFromDay (localDay tz now)) (monthFromDay (localDay tz now) + 1)
          (dateFromDay (localDay tz now) - 1)) := by
  have hp : parseDateRange parse tz now text =
      firstOf [ruleToday (normalize tz (some now)) (toLowerCase text.toList),
        ruleYesterday (normalize tz (some now)) (toLowerCase text.toList),
        ruleSingleDate parse tz text] := by
    rw [parseDateRange_eq_firstOf, firstOf_drop _ 10 hearly]
    rfl
  rw [normalize_now tz now hR] at hp
  refine ⟨?_, ?_, rfl, isoDate_pred _⟩
  · intro h
    apply parsed_of_primary
    rw [hp]
    simp only [ruleToday, h, if_true, firstOf_some, mkRange_midnight]
    rfl
  · intro h1 h2
    apply parsed_of_primary
    rw [hp, ruleToday_none _ _ h1, firstOf_none]
    simp only [ruleYesterday, h2, if_true, firstOf_some, getUTCDate_midnight, jsSub, Option.bind,
      setUTCDate_midnight]
    rw [timeClip_midnight _ (by unfold RefDate at hR; omega), mkRange_midnight,
      show localDay tz now + (dateFromDay (localDay tz now) - 1 - dateFromDay (localDay tz now)) =
        localDay tz now - 1 by omega]
    rfl

theorem today_and_yesterday_witness :
    parsed (jsDateParse 28800000) 28800000 1704042000000 1704042000000 "visitors yesterday" =
      .ok (some ⟨"2023-12-31", "2023-12-31"⟩) :=
  ((today_and_yesterday (jsDateParse 28800000) 28800000 1704042000000 1704042000000
    "visitors yesterday" (by unfold RefDate localDay day msPerDay; decide)
    (by unfold noneTaken; decide!)).2.1 (by decide!) (by decide!)).trans (by decide!)

/-! ## The trailing windows of the secondary pass -/

/-- The primary pass returns nothing on a text without its phrases that is not a
date. -/
theorem parseDateRange_noPhrase (parse : String → JSDate) (tz now : Int) (text : String)
    (hp : noPrimaryPhrase (toLowerCase text.toList) = true) (hd : parse text = none) :
    parseDateRange parse tz now text = .ok none := by
  unfold noPrimaryPhrase at hp
  simp only [Bool.and_eq_true, Option.isNone_iff_eq_none, Bool.not_eq_true'] at hp
  obtain ⟨⟨⟨⟨he, hq⟩, hm⟩, ht⟩, hy⟩ := hp
  rw [parseDateRange_late parse tz now text he, ruleQuarterYear_none _ hq,
    ruleMonthName_none _ _ hm, ruleToday_none _ _ ht, ruleYesterday_none _ _ hy,
    ruleSingleDate_none parse tz text hd]
  rfl

/-- A window that ends today and starts `k` days before. -/
theorem window_eq (R k : Int) (hR : RefDate R) (hk : -1000 ≤ k ∧ k ≤ 1000) :
    mkRange (setUTCDate (some (R * msPerDay)) (jsSub (getUTCDate (some (R * msPerDay))) (some k)))
      (some (R * msPerDay)) = .ok ⟨isoDate (R - k), isoDate R⟩ := by
  simp only [getUTCDate_midnight, jsSub, Option.bind, setUTCDate_midnight]
  have hc := timeClip_midnight (R + (dateFromDay R - k - dateFromDay R))
    (by unfold RefDate at hR; omega)
  rw [hc, mkRange_midnight, show R + (dateFromDay R - k - dateFromDay R) = R - k by omega]

/-- The rule "N weeks" once its pattern has matched. -/
theorem ruleNWeeks_read (R : Int) (hR : RefDate R) (m : List Char) (caps : Caps)
    (h : jsMatch nWeeksRe m = some caps) :
    (0 ≤ parseInt (capture caps 1) ∧ parseInt (capture caps 1) ≤ 99) ∧
      ruleNWeeks (some (R * msPerDay)) m =
        some (.ok ⟨isoDate (R - (7 * parseInt (capture caps 1) - 1)), isoDate R⟩) := by
  obtain ⟨ds, hc, hd, _, hl⟩ := nWeeksRe_capture m caps h
  have hb := parseInt_capture caps ds 2 hc hd hl
  have hb2 : 0 ≤ parseInt (capture caps 1) ∧ parseInt (capture caps 1) ≤ 99 := by
    norm_num at hb
    omega
  refine ⟨hb2, ?_⟩
  unfold ruleNWeeks
  simp only [h]
  rw [window_eq R _ hR (by omega),
    show parseInt (capture caps 1) * 7 - 1 = 7 * parseInt (capture caps 1) - 1 by omega]

/-- The rule "N days" once its pattern has matched. -/
theorem ruleNDays_read (R : Int) (hR : RefDate R) (m : List Char) (caps : Caps)
    (h : jsMatch nDaysRe m = some caps) :
    (0 ≤ parseInt (capture caps 1) ∧ parseInt (capture caps 1) ≤ 999) ∧
      ruleNDays (some (R * msPerDay)) m =
        some (.ok ⟨isoDate (R - (parseInt (capture caps 1) - 1)), isoDate R⟩) := by
  obtain ⟨ds, hc, hd, _, hl⟩ := nDaysRe_capture m caps h
  have hb := parseInt_capture caps ds 3 hc hd hl
  have hb2 : 0 ≤ parseInt (capture caps 1) ∧ parseInt (capture caps 1) ≤ 999 := by
    norm_num at hb
    omega
  refine ⟨hb2, ?_⟩
  unfold ruleNDays
  simp only [h]
  rw [window_eq R _ hR (by omega)]

/-- The texts "N weeks" for N from 1 to 99: no phrase of the primary pass, and the
number is read. -/
theorem nWeeks_text (N : Nat) (h1 : 1 ≤ N) (h2 : N ≤ 99) :
    noPrimaryPhrase (toLowerCase (toString N ++ " weeks").toList) = true ∧
      (jsMatch nWeeksRe (toLowerCase (toString N ++ " weeks").toList)).map
        (fun c => parseInt (capture c 1)) = some (N : Int) := by
  have hall : ∀ k : Fin 99,
      noPrimaryPhrase (toLowerCase (toString (k.val + 1) ++ " weeks").toList) = true ∧
        (jsMatch nWeeksRe (toLowerCase (toString (k.val + 1) ++ " weeks").toList)).map
          (fun c => parseInt (capture c 1)) = some ((k.val + 1 : Nat) : Int) := by
    decide!
  have h := hall ⟨N - 1, by omega⟩
  simp only [Nat.sub_add_cancel h1] at h
  exact h

theorem nDays_text_all : ∀ k : Fin 99,
    noPrimaryPhrase (toLowerCase (toString (k.val + 1) ++ " days").toList) = true ∧
      jsMatch nWeeksRe (toLowerCase (toString (k.val + 1) ++ " days").toList) = none ∧
      (jsMatch nDaysRe (toLowerCase (toString (k.val + 1) ++ " days").toList)).map
        (fun c => parseInt (capture c 1)) = some ((k.val + 1 : Nat) : Int) := by
  decide!

/-- The texts "N days" for N from 1 to 99: no phrase of the primary pass, no weeks,
and the number is read. -/
theorem nDays_text (N : Nat) (h1 : 1 ≤ N) (h2 : N ≤ 99) :
    noPrimaryPhrase (toLowerCase (toString N ++ " days").toList) = true ∧
      jsMatch nWeeksRe (toLowerCase (toString N ++ " days").toList) = none ∧
      (jsMatch nDaysRe (toLowerCase (toString N ++ " days").toList)).map
        (fun c => parseInt (capture c 1)) = some (N : Int) := by
  have h := nDays_text_all ⟨N - 1, by omega⟩
  simp only [Nat.sub_add_cancel h1] at h
  exact h

/-- The texts of the week synonyms. -/
theorem weekSynonym_texts :
    (noPrimaryPhrase (toLowerCase "weekly".toList) = true ∧
      jsMatch nWeeksRe (toLowerCase "weekly".toList) = none ∧
      jsMatch nDaysRe (toLowerCase "weekly".toList) = none ∧
      (includes (toLowerCase "weekly".toList) "a day".toList ||
        includes (toLowerCase "weekly".toList) "one day".toList ||
        includes (toLowerCase "weekly".toList) "day report".toList ||
        includes (toLowerCase "weekly".toList) "daily".toList) = false ∧
      (includes (toLowerCase "weekly".toList) "a week".toList ||
        includes (toLowerCase "weekly".toList) "one week".toList ||
        includes (toLowerCase "weekly".toList) "weekly".toList) = true) ∧
    (noPrimaryPhrase (toLowerCase "past week".toList) = true ∧
      jsMatch nWeeksRe (toLowerCase "past week".toList) = none ∧
      jsMatch nDaysRe (toLowerCase "past week".toList) = none ∧
      (includes (toLowerCase "past week".toList) "a day".toList ||
        includes (toLowerCase "past week".toList) "one day".toList ||
        includes (toLowerCase "past week".toList) "day report".toList ||
        includes (toLowerCase "past week".toList) "daily".toList) = false ∧
      (includes (toLowerCase "past week".toList) "a week".toList ||
        includes (toLowerCase "past week".toList) "one week".toList ||
        includes (toLowerCase "past week".toList) "weekly".toList) = false ∧
      includes (toLowerCase "past week".toList) "monthly".toList = false ∧
      includes (toLowerCase "past week".toList) "past week".toList = true) ∧
    ("1 week" = toString 1 ++ " week" ∧
      noPrimaryPhrase (toLowerCase "1 week".toList) = true ∧
      (jsMatch nWeeksRe (toLowerCase "1 week".toList)).map
        (fun c => parseInt (capture c 1)) = some 1) ∧
    "last 7 days" = "last " ++ toString 7 ++ " days" := by
  decide!

/-- The trailing windows of the secondary pass, for every reference date R: once its
pattern has matched, the rule "N weeks" returns R - (7n - 1) to R and the rule
"N days" returns R - (n - 1) to R for the number n that the pattern has captured,
which for the texts "N weeks" and "N days" with N from 1 to 99 is N itself; the
rules "a week", "one week", "weekly" and "past week" return R - 6 to R; and
"weekly", "past week" and "1 week" resolve to the range of "last 7 days". -/
theorem trailing_windows (parse : String → JSDate) (tz now1 now2 : Int) (text : String)
    (hR : RefDate (localDay tz now2))
    (hprim : parseDateRange parse tz now1 text = .ok none) :
    (∀ caps, jsMatch nWeeksRe (toLowerCase text.toList) = some caps →
        (0 ≤ parseInt (capture caps 1) ∧ parseInt (capture caps 1) ≤ 99) ∧
        parsed parse tz now1 now2 text =
          .ok (some ⟨isoDate (localDay tz now2 - (7 * parseInt (capture caps 1) - 1)),
            isoDate (localDay tz now2)⟩)) ∧
      (jsMatch nWeeksRe (toLowerCase text.toList) = none →
        ∀ caps, jsMatch nDaysRe (toLowerCase text.toList) = some caps →
        (0 ≤ parseInt (capture caps 1) ∧ parseInt (capture caps 1) ≤ 999) ∧
        parsed parse tz now1 now2 text =
          .ok (some ⟨isoDate (localDay tz now2 - (parseInt (capture caps 1) - 1)),
            isoDate (localDay tz now2)⟩)) ∧
      (noneTaken (secondaryRules tz now2 text) 3 →
        (includes (toLowerCase text.toList) "a week".toList ||
          includes (toLowerCase text.toList) "one week".toList ||
          includes (toLowerCase text.toList) "weekly".toList) = true →
        parsed parse tz now1 now2 text =
          .ok (some ⟨isoDate (localDay tz now2 - 6), isoDate (localDay tz now2)⟩)) ∧
      (noneTaken (secondaryRules tz now2 text) 5 →
        includes (toLowerCase text.toList) "past week".toList = true →
        parsed parse tz now1 now2 text =
          .ok (some ⟨isoDate (localDay tz now2 - 6), isoDate (localDay tz now2)⟩)) ∧
      (∀ N : Nat, 1 ≤ N →
        (N ≤ 99 → parse (toString N ++ " weeks") = none →
          parsed parse tz now1 now2 (toString N ++ " weeks") =
            .ok (some ⟨isoDate (localDay tz now2 - (7 * (N : Int) - 1)),
              isoDate (localDay tz now2)⟩)) ∧
        (N ≤ 99 → parse (toString N ++ " days") = none →
          parsed parse tz now1 now2 (toString N ++ " days") =
            .ok (some ⟨isoDate (localDay tz now2 - ((N : Int) - 1)),
              isoDate (localDay tz now2)⟩))) ∧
      (∀ nowA nowB : Int, localDay tz nowA = localDay tz now2 →
        ∀ t ∈ ["weekly", "past week", "1 week"], parse t = none →
          parsed parse tz now1 now2 t = parsed parse tz nowA nowB "last 7 days" ∧
          parsed parse tz now1 now2 t =
            .ok (some ⟨isoDate (localDay tz now2 - 6), isoDate (localDay tz now2)⟩)) := by
  have hsec := parsed_of_secondary parse tz now1 now2 text hprim
  have hn := normalize_now tz now2 hR
  have hweek : ∀ (t : String) (caps : Caps), parse t = none →
      noPrimaryPhrase (toLowerCase t.toList) = true →
      jsMatch nWeeksRe (toLowerCase t.toList) = some caps →
      parsed parse tz now1 now2 t =
        .ok (some ⟨isoDate (localDay tz now2 - (7 * parseInt (capture caps 1) - 1)),
          isoDate (localDay tz now2)⟩) := by
    intro t caps hp hph hm
    rw [parsed_of_secondary parse tz now1 now2 t (parseDateRange_noPhrase parse tz now1 t hph hp)]
    simp only [secondaryRules, hn, (ruleNWeeks_read _ hR _ caps hm).2, firstOf_some]
    rfl
  refine ⟨?_, ?_, ?_, ?_, ?_, ?_⟩
  · intro caps hm
    refine ⟨(ruleNWeeks_read _ hR _ caps hm).1, ?_⟩
    rw [hsec]
    simp only [secondaryRules, hn, (ruleNWeeks_read _ hR _ caps hm).2, firstOf_some]
    rfl
  · intro hw caps hm
    refine ⟨(ruleNDays_read _ hR _ caps hm).1, ?_⟩
    rw [hsec]
    simp only [secondaryRules, hn, ruleNWeeks_none _ _ hw, firstOf_none,
      (ruleNDays_read _ hR _ caps hm).2, firstOf_some]
    rfl
  · intro hnone h
    rw [hsec, firstOf_drop _ 3 hnone]
    simp only [secondaryRules, List.drop, hn, ruleWeekly, h, if_true, firstOf_some]
    rw [window_eq _ 6 hR (by omega)]
    rfl
  · intro hnone h
    rw [hsec, firstOf_drop _ 5 hnone]
    simp only [secondaryRules, List.drop, hn, rulePastWeek, h, if_true, firstOf_some]
    rw [window_eq _ 6 hR (by omega)]
    rfl
  · intro N h1
    refine ⟨?_, ?_⟩
    · intro h2 hp
      obtain ⟨w1, w2⟩ := nWeeks_text N h1 h2
      cases hm : jsMatch nWeeksRe (toLowerCase (toString N ++ " weeks").toList) with
      | none => rw [hm] at w2; simp at w2
      | some caps =>
        rw [hm] at w2
        simp only [Option.map, Option.some.injEq] at w2
        rw [hweek _ caps hp w1 hm, w2]
    · intro h2 hp
      obtain ⟨d1, d2, d3⟩ := nDays_text N h1 h2
      cases hm : jsMatch nDaysRe (toLowerCase (toString N ++ " days").toList) with
      | none => rw [hm] at d3; simp at d3
      | some caps =>
        rw [hm] at d3
        simp only [Option.map, Option.some.injEq] at d3
        rw [parsed_of_secondary parse tz now1 now2 _
          (parseDateRange_noPhrase parse tz now1 _ d1 hp)]
        simp only [secondaryRules, hn, ruleNWeeks_none _ _ d2, firstOf_none,
          (ruleNDays_read _ hR _ caps hm).2, firstOf_some, d3]
        rfl
  · intro nowA nowB hsame t ht hp
    obtain ⟨⟨a1, a2, a3, a4, a5⟩, ⟨b1, b2, b3, b4, b5, b6, b7⟩, ⟨c0, c1, c2⟩, e7⟩ :=
      weekSynonym_texts
    have hRA : RefDate (localDay tz nowA) := by rw [hsame]; exact hR
    have h7 : parsed parse tz nowA nowB "last 7 days" =
        .ok (some ⟨isoDate (localDay tz now2 - 6), isoDate (localDay tz now2)⟩) := by
      obtain ⟨hr, hl⟩ := lastNDays_text 7 (by omega) (by omega)
      apply parsed_of_primary
      rw [e7]
      unfold parseDateRange
      simp only [ruleExplicitRange, hr, firstOf_none, normalize_now tz nowA hRA]
      rw [ruleLastNDays_eq _ hRA _ ((7 : Nat) : Int) (by omega) hl, firstOf_some, hsame]
      rfl
    have hres : parsed parse tz now1 now2 t =
        .ok (some ⟨isoDate (localDay tz now2 - 6), isoDate (localDay tz now2)⟩) := by
      simp only [List.mem_cons, List.mem_singleton, List.not_mem_nil, or_false] at ht
      rcases ht with rfl | rfl | rfl
      · rw [parsed_of_secondary parse tz now1 now2 _
          (parseDateRange_noPhrase parse tz now1 _ a1 hp)]
        simp only [secondaryRules, hn, ruleNWeeks_none _ _ a2, ruleNDays_none _ _ a3,
          firstOf_none, ruleDaily, a4, Bool.false_eq_true, if_false, ruleWeekly, a5, if_true,
          firstOf_some]
        rw [window_eq _ 6 hR (by omega)]
        rfl
      · rw [parsed_of_secondary parse tz now1 now2 _
          (parseDateRange_noPhrase parse tz now1 _ b1 hp)]
        simp only [secondaryRules, hn, ruleNWeeks_none _ _ b2, ruleNDays_none _ _ b3,
          firstOf_none, ruleDaily, b4, Bool.false_eq_true, if_false, ruleWeekly, b5,
          ruleMonthly, b6, rulePastWeek, b7, if_true, firstOf_some]
        rw [window_eq _ 6 hR (by omega)]
        rfl
      · cases hm : jsMatch nWeeksRe (toLowerCase "1 week".toList) with
        | none => rw [hm] at c2; simp at c2
        | some caps =>
          rw [hm] at c2
          simp only [Option.map, Option.some.injEq] at c2
          rw [hweek _ caps hp c1 hm, c2]
          rfl
    exact ⟨hres.trans h7.symm, hres⟩

theorem trailing_windows_witness :
    parsed (jsDateParse 28800000) 28800000 1762300800000 1762300800000 "report for 2 weeks" =
        .ok (some ⟨"2025-10-23", "2025-11-05"⟩) ∧
      parsed (jsDateParse 28800000) 28800000 1762300800000 1762300800000 "weekly" =
        parsed (jsDateParse 28800000) 28800000 1762300800000 1762300800000 "last 7 days" :=
  ⟨(((trailing_windows (jsDateParse 28800000) 28800000 1762300800000 1762300800000
      "report for 2 weeks" (by unfold RefDate localDay day msPerDay; decide) (by decide!)).1
      [(1, ['2'])] (by decide!)).2).trans (by decide!),
    ((trailing_windows (jsDateParse 28800000) 28800000 1762300800000 1762300800000
      "weekly" (by unfold RefDate localDay day msPerDay; decide) (by decide!)).2.2.2.2.2
      1762300800000 1762300800000 rfl "weekly" (by decide) (by decide!)).1⟩

/-- C23 fails in the code: the patterns of "N weeks" and "N days" are not anchored on
the left and read at most two and three digits, so of "100 weeks" the code reads
"00" and of "1000 days" it reads "000". On the reference date 2025-11-05 the texts
"report for 100 weeks", "100 weeks" and "1000 days" resolve to 2025-11-06 through
2025-11-05, the day after the reference date through the reference date, while the
window of 100 weeks that ends on the reference date starts on R - 699 days,
2023-12-07, and the window of 1000 days on R - 999 days, 2023-02-10. -/
theorem long_numbers_misread :
    isoDate (localDay 28800000 1762300800000) = "2025-11-05" ∧
      (jsMatch nWeeksRe (toLowerCase "report for 100 weeks".toList)).map
        (fun c => capture c 1) = some ['0', '0'] ∧
      parsed (jsDateParse 28800000) 28800000 1762300800000 1762300800000
        "report for 100 weeks" = .ok (some ⟨"2025-11-06", "2025-11-05"⟩) ∧
      parsed (jsDateParse 28800000) 28800000 1762300800000 1762300800000 "100 weeks" =
        .ok (some ⟨"2025-11-06", "2025-11-05"⟩) ∧
      (jsMatch nDaysRe (toLowerCase "1000 days".toList)).map (fun c => capture c 1) =
        some ['0', '0', '0'] ∧
      parsed (jsDateParse 28800000) 28800000 1762300800000 1762300800000 "1000 days" =
        .ok (some ⟨"2025-11-06", "2025-11-05"⟩) ∧
      isoDate (localDay 28800000 1762300800000 - (7 * 100 - 1)) = "2023-12-07" ∧
      isoDate (localDay 28800000 1762300800000 - (1000 - 1)) = "2023-02-10" := by
  decide!

/-! ## Last year and this year -/

/-- C24 as amended: in the secondary pass, for every reference date R of year Y, a
text on which none of the six secondary rules before is taken ("N weeks", "N days",
the day phrases, the week phrases, "monthly", "past week") resolves to 1 January to
31 December of Y - 1 when it contains "last year", and to 1 January of Y to R when
it contains "this year", "year to date" or "ytd" and not "last year". -/
theorem last_year_this_year (parse : String → JSDate) (tz now1 now2 : Int) (text : String)
    (hR : RefDate (localDay tz now2))
    (hprim : parseDateRange parse tz now1 text = .ok none)
    (hsec : noneTaken (secondaryRules tz now2 text) 6) :
    (includes (toLowerCase text.toList) "last year".toList = true →
        parsed parse tz now1 now2 text =
          .ok (some ⟨isoString (yearFromDay (localDay tz now2) - 1) 1 1,
            isoString (yearFromDay (localDay tz now2) - 1) 12 31⟩)) ∧
      (includes (toLowerCase text.toList) "last year".toList = false →
        (includes (toLowerCase text.toList) "this year".toList ||
          includes (toLowerCase text.toList) "year to date".toList ||
          includes (toLowerCase text.toList) "ytd".toList) = true →
        parsed parse tz now1 now2 text =
          .ok (some ⟨isoString (yearFromDay (localDay tz now2)) 1 1,
            isoDate (localDay tz now2)⟩)) := by
  have hy := hR.year
  have hp : parsed parse tz now1 now2 text =
      firstOf [ruleLastYear (normalize tz (some now2)) (toLowerCase text.toList),
        ruleThisYear (normalize tz (some now2)) (toLowerCase text.toList)] := by
    rw [parsed_of_secondary parse tz now1 now2 text hprim, firstOf_drop _ 6 hsec]
    rfl
  rw [normalize_now tz now2 hR] at hp
  have hjan : ∀ y : Int, ¬(0 ≤ y ∧ y ≤ 99) → -270000 ≤ y ∧ y ≤ 270000 →
      format (dateUTC (some y) (some 0) (some 1)) = .ok (isoString y 1 1) := by
    intro y h0 hb
    have hd := daysInMonth_pos y 0
    exact format_dateUTC y 0 1 h0 hb (by omega) (by omega)
  have hdec : ∀ y : Int, ¬(0 ≤ y ∧ y ≤ 99) → -270000 ≤ y ∧ y ≤ 270000 →
      format (dateUTC (some y) (some 11) (some 31)) = .ok (isoString y 12 31) := by
    intro y h0 hb
    have hd : daysInMonth y 11 = 31 := by unfold daysInMonth; omega
    exact format_dateUTC y 11 31 h0 hb (by omega) (by omega)
  refine ⟨?_, ?_⟩
  · intro h
    rw [hp]
    simp only [ruleLastYear, h, if_true, firstOf_some, getUTCFullYear_midnight, jsSub,
      Option.bind]
    rw [mkRange_ok (hjan _ (by omega) (by omega)) (hdec _ (by omega) (by omega))]
    rfl
  · intro h1 h2
    rw [hp, ruleLastYear_none _ _ h1, firstOf_none]
    simp only [ruleThisYear, h2, if_true, firstOf_some, getUTCFullYear_midnight]
    rw [mkRange_ok (hjan _ (by omega) (by omega)) (format_midnight _)]
    rfl

theorem last_year_this_year_witness :
    parsed (jsDateParse 28800000) 28800000 1762300800000 1762300800000 "sales of last year" =
        .ok (some ⟨"2024-01-01", "2024-12-31"⟩) ∧
      parsed (jsDateParse 28800000) 28800000 1762300800000 1762300800000 "donations ytd" =
        .ok (some ⟨"2025-01-01", "2025-11-05"⟩) :=
  ⟨((last_year_this_year (jsDateParse 28800000) 28800000 1762300800000 1762300800000
      "sales of last year" (by unfold RefDate localDay day msPerDay; decide) (by decide!)
      (by unfold noneTaken; decide!)).1 (by decide!)).trans (by decide!),
    ((last_year_this_year (jsDateParse 28800000) 28800000 1762300800000 1762300800000
      "donations ytd" (by unfold RefDate localDay day msPerDay; decide) (by decide!)
      (by unfold noneTaken; decide!)).2 (by decide!) (by decide!)).trans (by decide!)⟩

/-- C24 as stated fails for a text that an earlier secondary rule takes: on the
reference date 2025-11-05 "weekly summary of last year" contains "last year" and
resolves by the rule of "weekly" to the seven days 2025-10-30 to 2025-11-05, not to
the year 2024, and "monthly revenue this year" contains "this year" and resolves by
the rule of "monthly" to November 2025, not to 2025-01-01 through the reference
date. -/
theorem last_year_shadowed_by_weekly :
    isoDate (localDay 28800000 1762300800000) = "2025-11-05" ∧
      parseDateRange (jsDateParse 28800000) 28800000 1762300800000
        "weekly summary of last year" = .ok none ∧
      includes (toLowerCase "weekly summary of last year".toList) "last year".toList = true ∧
      parsed (jsDateParse 28800000) 28800000 1762300800000 1762300800000
        "weekly summary of last year" = .ok (some ⟨"2025-10-30", "2025-11-05"⟩) ∧
      parseDateRange (jsDateParse 28800000) 28800000 1762300800000
        "monthly revenue this year" = .ok none ∧
      includes (toLowerCase "monthly revenue this year".toList) "this year".toList = true ∧
      includes (toLowerCase "monthly revenue this year".toList) "last year".toList = false ∧
      parsed (jsDateParse 28800000) 28800000 1762300800000 1762300800000
        "monthly revenue this year" = .ok (some ⟨"2025-11-01", "2025-11-30"⟩) := by
  decide!

/-! ## The form of the dates returned -/

theorem toDigits_cases (n : Nat) (h : n ≤ 9999) :
    Nat.toDigits 10 n =
      if n < 10 then [Nat.digitChar n]
      else if n < 100 then [Nat.digitChar (n / 10), Nat.digitChar (n % 10)]
      else if n < 1000 then
        [Nat.digitChar (n / 100), Nat.digitChar (n / 10 % 10), Nat.digitChar (n % 10)]
      else [Nat.digitChar (n / 1000), Nat.digitChar (n / 100 % 10), Nat.digitChar (n / 10 % 10),
        Nat.digitChar (n % 10)] := by
  show Nat.toDigitsCore 10 (n + 1) n [] = _
  by_cases h1 : n < 10
  · rw [if_pos h1, toDigitsCore_step, if_pos (by omega), Nat.mod_eq_of_lt h1]
  · rw [if_neg h1]
    by_cases h2 : n < 100
    · obtain ⟨f, hf⟩ : ∃ f, n + 1 = f + 1 + 1 := ⟨n - 1, by omega⟩
      rw [if_pos h2, hf, toDigitsCore_step, if_neg (by omega), toDigitsCore_step,
        if_pos (by omega), Nat.mod_eq_of_lt (show n / 10 < 10 by omega)]
    · rw [if_neg h2]
      by_cases h3 : n < 1000
      · obtain ⟨f, hf⟩ : ∃ f, n + 1 = f + 1 + 1 + 1 := ⟨n - 2, by omega⟩
        rw [if_pos h3, hf, toDigitsCore_step, if_neg (by omega), toDigitsCore_step,
          if_neg (by omega), toDigitsCore_step, if_pos (by omega),
          show n / 10 / 10 % 10 = n / 100 by omega]
      · obtain ⟨f, hf⟩ : ∃ f, n + 1 = f + 1 + 1 + 1 + 1 := ⟨n - 3, by omega⟩
        rw [if_neg h3, hf, toDigitsCore_step, if_neg (by omega), toDigitsCore_step,
          if_neg (by omega), toDigitsCore_step, if_neg (by omega), toDigitsCore_step,
          if_pos (by omega), show n / 10 / 10 / 10 % 10 = n / 1000 by omega,
          show n / 10 / 10 % 10 = n / 100 % 10 by omega]

/-- A number below 10000 padded to four digits. -/
theorem pad4_digits (n : Nat) (h : n ≤ 9999) :
    pad 4 n = [Nat.digitChar (n / 1000), Nat.digitChar (n / 100 % 10),
      Nat.digitChar (n / 10 % 10), Nat.digitChar (n % 10)] := by
  unfold pad
  simp only [toDigits_cases n h]
  by_cases h1 : n < 10
  · simp only [if_pos h1, List.length_singleton]
    rw [show n / 1000 = 0 by omega, show n / 100 % 10 = 0 by omega,
      show n / 10 % 10 = 0 by omega, Nat.mod_eq_of_lt h1]
    rfl
  · simp only [if_neg h1]
    by_cases h2 : n < 100
    · simp only [if_pos h2, List.length_cons, List.length_nil]
      rw [show n / 1000 = 0 by omega, show n / 100 % 10 = 0 by omega,
        show n / 10 % 10 = n / 10 by omega]
      rfl
    · simp only [if_neg h2]
      by_cases h3 : n < 1000
      · simp only [if_pos h3, List.length_cons, List.length_nil]
        rw [show n / 1000 = 0 by omega, show n / 100 % 10 = n / 100 by omega]
        rfl
      · simp only [if_neg h3, List.length_cons, List.length_nil]
        rfl

/-- A number below 100 padded to two digits. -/
theorem pad2_digits (n : Nat) (h : n ≤ 99) :
    pad 2 n = [Nat.digitChar (n / 10), Nat.digitChar (n % 10)] := by
  unfold pad
  simp only [toDigits_cases n (by omega)]
  by_cases h1 : n < 10
  · simp only [if_pos h1, List.length_singleton]
    rw [show n / 10 = 0 by omega, Nat.mod_eq_of_lt h1]
    rfl
  · simp only [if_neg h1, if_pos (show n < 100 by omega), List.length_cons, List.length_nil]
    rfl

/-- The date text of a year from 0 to 9999, a month and a day of that month has the
form `YYYY-MM-DD`. -/
theorem isoString_shaped (y mo d : Int) (hy : 0 ≤ y ∧ y ≤ 9999) (hm : 1 ≤ mo ∧ mo ≤ 12)
    (hd : 1 ≤ d ∧ d ≤ daysInMonth y (mo - 1)) : isoShaped (isoString y mo d) = true := by
  have hdm := daysInMonth_pos y (mo - 1)
  obtain ⟨yn, rfl⟩ : ∃ yn : Nat, y = yn := ⟨y.toNat, by omega⟩
  obtain ⟨mn, rfl⟩ : ∃ mn : Nat, mo = mn := ⟨mo.toNat, by omega⟩
  obtain ⟨dn, rfl⟩ : ∃ dn : Nat, d = dn := ⟨d.toNat, by omega⟩
  have hyn : yn ≤ 9999 := by omega
  have hmn : mn ≤ 99 := by omega
  have hdn : dn ≤ 99 := by omega
  obtain ⟨a1, _, _, _, a5, _⟩ := digitChar_facts (yn / 1000) (by omega)
  obtain ⟨b1, _, _, _, b5, _⟩ := digitChar_facts (yn / 100 % 10) (by omega)
  obtain ⟨c1, _, _, _, c5, _⟩ := digitChar_facts (yn / 10 % 10) (by omega)
  obtain ⟨e1, _, _, _, e5, _⟩ := digitChar_facts (yn % 10) (by omega)
  obtain ⟨f1, _, _, _, f5, _⟩ := digitChar_facts (mn / 10) (by omega)
  obtain ⟨g1, _, _, _, g5, _⟩ := digitChar_facts (mn % 10) (by omega)
  obtain ⟨i1, _, _, _, i5, _⟩ := digitChar_facts (dn / 10) (by omega)
  obtain ⟨j1, _, _, _, j5, _⟩ := digitChar_facts (dn % 10) (by omega)
  have hlist : (isoString (yn : Int) (mn : Int) (dn : Int)).toList =
      [Nat.digitChar (yn / 1000), Nat.digitChar (yn / 100 % 10), Nat.digitChar (yn / 10 % 10),
        Nat.digitChar (yn % 10), '-', Nat.digitChar (mn / 10), Nat.digitChar (mn % 10), '-',
        Nat.digitChar (dn / 10), Nat.digitChar (dn % 10)] := by
    unfold isoString isoYear
    rw [if_pos (by omega)]
    simp only [Int.toNat_ofNat, pad4_digits yn hyn, pad2_digits mn hmn, pad2_digits dn hdn]
    rfl
  have py : parseInt [Nat.digitChar (yn / 1000), Nat.digitChar (yn / 100 % 10),
      Nat.digitChar (yn / 10 % 10), Nat.digitChar (yn % 10)] = (yn : Int) := by
    simp only [parseInt, List.foldl, a5, b5, c5, e5]
    simp only [Int.ofNat_eq_coe, Nat.cast_inj]
    omega
  have pm : parseInt [Nat.digitChar (mn / 10), Nat.digitChar (mn % 10)] = (mn : Int) := by
    simp only [parseInt, List.foldl, f5, g5]
    simp only [Int.ofNat_eq_coe, Nat.cast_inj]
    omega
  have pd : parseInt [Nat.digitChar (dn / 10), Nat.digitChar (dn % 10)] = (dn : Int) := by
    simp only [parseInt, List.foldl, i5, j5]
    simp only [Int.ofNat_eq_coe, Nat.cast_inj]
    omega
  unfold isoShaped
  rw [hlist]
  simp only [py, pm, pd, List.all_cons, List.all_nil, a1, b1, c1, e1, f1, g1, i1, j1,
    Bool.and_self, Bool.and_true, Bool.true_and, decide_eq_true_eq]
  rw [← daysInMonth_gregorian]
  simp only [Bool.and_eq_true, decide_eq_true_eq]
  exact ⟨trivial, hm.1, hm.2, hd.1, hd.2⟩

/-- The date text of a day of the years 0 to 9999 has the form `YYYY-MM-DD`. -/
theorem isoDate_shaped (z : Int) (h : 0 ≤ yearFromDay z ∧ yearFromDay z ≤ 9999) :
    isoShaped (isoDate z) = true := by
  have hm := monthFromDay_range z
  have hd := dateFromDay_range z
  unfold isoDate
  exact isoString_shaped _ _ _ h (by omega) (by rw [show monthFromDay z + 1 - 1 = monthFromDay z by omega]; exact hd)
/-- A number of five or six digits padded to six digits. -/
theorem pad6_digits (n : Nat) (h : n ≤ 999999) :
    pad 6 n = [Nat.digitChar (n / 100000), Nat.digitChar (n / 10000 % 10),
      Nat.digitChar (n / 1000 % 10), Nat.digitChar (n / 100 % 10),
      Nat.digitChar (n / 10 % 10), Nat.digitChar (n % 10)] := by
  by_cases h4 : n ≤ 9999
  · have e := pad4_digits n h4
    unfold pad at e ⊢
    simp only [toDigits_cases n h4] at e ⊢
    rw [show n / 100000 = 0 by omega, show n / 10000 % 10 = 0 by omega,
      show n / 1000 % 10 = n / 1000 by omega]
    by_cases h1 : n < 10
    · simp only [if_pos h1, List.length_singleton] at e ⊢
      rw [← e]
      rfl
    · simp only [if_neg h1] at e ⊢
      by_cases h2 : n < 100
      · simp only [if_pos h2, List.length_cons, List.length_nil] at e ⊢
        rw [← e]
        rfl
      · simp only [if_neg h2] at e ⊢
        by_cases h3 : n < 1000
        · simp only [if_pos h3, List.length_cons, List.length_nil] at e ⊢
          rw [← e]
          rfl
        · simp only [if_neg h3, List.length_cons, List.length_nil] at e ⊢
          rw [← e]
          rfl
  · have hd : Nat.toDigits 10 n =
        if n < 100000 then [Nat.digitChar (n / 10000), Nat.digitChar (n / 1000 % 10),
          Nat.digitChar (n / 100 % 10), Nat.digitChar (n / 10 % 10), Nat.digitChar (n % 10)]
        else [Nat.digitChar (n / 100000), Nat.digitChar (n / 10000 % 10),
          Nat.digitChar (n / 1000 % 10), Nat.digitChar (n / 100 % 10),
          Nat.digitChar (n / 10 % 10), Nat.digitChar (n % 10)] := by
      show Nat.toDigitsCore 10 (n + 1) n [] = _
      by_cases h5 : n < 100000
      · obtain ⟨f, hf⟩ : ∃ f, n + 1 = f + 1 + 1 + 1 + 1 + 1 := ⟨n - 4, by omega⟩
        rw [if_pos h5, hf, toDigitsCore_step, if_neg (by omega), toDigitsCore_step,
          if_neg (by omega), toDigitsCore_step, if_neg (by omega), toDigitsCore_step,
          if_neg (by omega), toDigitsCore_step, if_pos (by omega),
          show n / 10 / 10 / 10 / 10 % 10 = n / 10000 by omega,
          show n / 10 / 10 / 10 % 10 = n / 1000 % 10 by omega,
          show n / 10 / 10 % 10 = n / 100 % 10 by omega]
      · obtain ⟨f, hf⟩ : ∃ f, n + 1 = f + 1 + 1 + 1 + 1 + 1 + 1 := ⟨n - 5, by omega⟩
        rw [if_neg h5, hf, toDigitsCore_step, if_neg (by omega), toDigitsCore_step,
          if_neg (by omega), toDigitsCore_step, if_neg (by omega), toDigitsCore_step,
          if_neg (by omega), toDigitsCore_step, if_neg (by omega), toDigitsCore_step,
          if_pos (by omega),
          show n / 10 / 10 / 10 / 10 / 10 % 10 = n / 100000 by omega,
          show n / 10 / 10 / 10 / 10 % 10 = n / 10000 % 10 by omega,
          show n / 10 / 10 / 10 % 10 = n / 1000 % 10 by omega,
          show n / 10 / 10 % 10 = n / 100 % 10 by omega]
    unfold pad
    simp only [hd]
    by_cases h5 : n < 100000
    · simp only [if_pos h5, List.length_cons, List.length_nil]
      rw [show n / 100000 = 0 by omega, show n / 10000 % 10 = n / 10000 by omega]
      rfl
    · simp only [if_neg h5, List.length_cons, List.length_nil]
      rfl

/-- The date text of a year outside 0 to 9999 that six digits can write, a month and a
day of that month has the expanded form. -/
theorem isoString_expanded (y mo d : Int) (hy : ¬(0 ≤ y ∧ y ≤ 9999))
    (hy6 : -999999 ≤ y ∧ y ≤ 999999) (hm : 1 ≤ mo ∧ mo ≤ 12)
    (hd : 1 ≤ d ∧ d ≤ daysInMonth y (mo - 1)) : expandedShaped (isoString y mo d) = true := by
  have hdm := daysInMonth_pos y (mo - 1)
  obtain ⟨yn, hyn⟩ : ∃ yn : Nat, y.natAbs = yn := ⟨_, rfl⟩
  obtain ⟨mn, rfl⟩ : ∃ mn : Nat, mo = mn := ⟨mo.toNat, by omega⟩
  obtain ⟨dn, rfl⟩ : ∃ dn : Nat, d = dn := ⟨d.toNat, by omega⟩
  have hyn6 : yn ≤ 999999 := by omega
  have hmn : mn ≤ 99 := by omega
  have hdn : dn ≤ 99 := by omega
  have hsign : (y < 0 → -(yn : Int) = y ∧ 1 ≤ (yn : Int)) ∧
      (¬y < 0 → (yn : Int) = y ∧ 10000 ≤ (yn : Int)) := by omega
  obtain ⟨a1, _, _, _, a5, _⟩ := digitChar_facts (yn / 100000) (by omega)
  obtain ⟨b1, _, _, _, b5, _⟩ := digitChar_facts (yn / 10000 % 10) (by omega)
  obtain ⟨c1, _, _, _, c5, _⟩ := digitChar_facts (yn / 1000 % 10) (by omega)
  obtain ⟨e1, _, _, _, e5, _⟩ := digitChar_facts (yn / 100 % 10) (by omega)
  obtain ⟨k1, _, _, _, k5, _⟩ := digitChar_facts (yn / 10 % 10) (by omega)
  obtain ⟨l1, _, _, _, l5, _⟩ := digitChar_facts (yn % 10) (by omega)
  obtain ⟨f1, _, _, _, f5, _⟩ := digitChar_facts (mn / 10) (by omega)
  obtain ⟨g1, _, _, _, g5, _⟩ := digitChar_facts (mn % 10) (by omega)
  obtain ⟨i1, _, _, _, i5, _⟩ := digitChar_facts (dn / 10) (by omega)
  obtain ⟨j1, _, _, _, j5, _⟩ := digitChar_facts (dn % 10) (by omega)
  have hlist : (isoString y (mn : Int) (dn : Int)).toList =
      [if y < 0 then '-' else '+', Nat.digitChar (yn / 100000), Nat.digitChar (yn / 10000 % 10),
        Nat.digitChar (yn / 1000 % 10), Nat.digitChar (yn / 100 % 10),
        Nat.digitChar (yn / 10 % 10), Nat.digitChar (yn % 10), '-',
        Nat.digitChar (mn / 10), Nat.digitChar (mn % 10), '-',
        Nat.digitChar (dn / 10), Nat.digitChar (dn % 10)] := by
    unfold isoString isoYear
    rw [if_neg hy, hyn]
    simp only [Int.toNat_ofNat, pad6_digits yn hyn6, pad2_digits mn hmn, pad2_digits dn hdn]
    rfl
  have py : parseInt [Nat.digitChar (yn / 100000), Nat.digitChar (yn / 10000 % 10),
      Nat.digitChar (yn / 1000 % 10), Nat.digitChar (yn / 100 % 10),
      Nat.digitChar (yn / 10 % 10), Nat.digitChar (yn % 10)] = (yn : Int) := by
    simp only [parseInt, List.foldl, a5, b5, c5, e5, k5, l5]
    simp only [Int.ofNat_eq_coe, Nat.cast_inj]
    omega
  have pm : parseInt [Nat.digitChar (mn / 10), Nat.digitChar (mn % 10)] = (mn : Int) := by
    simp only [parseInt, List.foldl, f5, g5]
    simp only [Int.ofNat_eq_coe, Nat.cast_inj]
    omega
  have pd : parseInt [Nat.digitChar (dn / 10), Nat.digitChar (dn % 10)] = (dn : Int) := by
    simp only [parseInt, List.foldl, i5, j5]
    simp only [Int.ofNat_eq_coe, Nat.cast_inj]
    omega
  rw [daysInMonth_gregorian] at hd
  unfold expandedShaped
  rw [hlist]
  simp only [py, pm, pd, List.all_cons, List.all_nil, a1, b1, c1, e1, k1, l1, f1, g1, i1, j1,
    Bool.and_self, Bool.and_true, Bool.true_and]
  by_cases hneg : y < 0
  · obtain ⟨hyv, hy1⟩ := hsign.1 hneg
    simp only [if_pos hneg, hyv, if_true, Bool.and_eq_true, Bool.or_eq_true, decide_eq_true_eq]
    exact ⟨⟨⟨Or.inr trivial, trivial⟩, trivial⟩, hy1, hm.1, hm.2, hd.1, hd.2⟩
  · obtain ⟨hyv, hy1⟩ := hsign.2 hneg
    have hpm : ¬(('+' : Char) = '-') := by decide
    simp only [if_neg hneg, hyv, hpm, if_false, Bool.and_eq_true, Bool.or_eq_true,
      decide_eq_true_eq]
    exact ⟨⟨⟨Or.inl trivial, trivial⟩, trivial⟩, hyv ▸ hy1, hm.1, hm.2, hd.1, hd.2⟩

/-- The year of a day number that a time value in the range of `TimeClip` can have. -/
theorem yearFromDay_clipped (z : Int) (h : -100000000 ≤ z ∧ z ≤ 100000000) :
    -271821 ≤ yearFromDay z ∧ yearFromDay z ≤ 275760 := by
  have h0 : yearFromDay (-100000000) = -271821 := by decide
  have h1 : yearFromDay 100000000 = 275760 := by decide
  have a := yearFromDay_mono (show (-100000000 : Int) ≤ z by omega)
  have b := yearFromDay_mono (show z ≤ 100000000 by omega)
  omega

/-- The date text of a day that a valid date can fall on. -/
theorem isoDate_text (z : Int) (h : -100000000 ≤ z ∧ z ≤ 100000000) : DateText (isoDate z) := by
  refine ⟨z, rfl, ?_⟩
  have hy := yearFromDay_clipped z h
  have hm := monthFromDay_range z
  have hd := dateFromDay_range z
  split
  · exact isoDate_shaped z (by assumption)
  · unfold isoDate
    exact isoString_expanded _ _ _ (by assumption) (by omega) (by omega)
      (by rw [show monthFromDay z + 1 - 1 = monthFromDay z by omega]; exact hd)

theorem clipped_none : Clipped none := by
  intro t h
  simp at h

theorem clipped_timeClip (t : Int) : Clipped (timeClip t) := by
  intro u h
  have e := timeClip_some h
  unfold timeClip at h
  split_ifs at h
  omega

theorem clipped_dateUTC (y m d : JSNum) : Clipped (dateUTC y m d) := by
  cases y with
  | none => exact clipped_none
  | some yv =>
    cases m with
    | none => exact clipped_none
    | some mv =>
      cases d with
      | none => exact clipped_none
      | some dv => exact clipped_timeClip _

theorem clipped_setUTCDate (d : JSDate) (dt : JSNum) : Clipped (setUTCDate d dt) := by
  cases d with
  | none => exact clipped_none
  | some t =>
    cases dt with
    | none => exact clipped_none
    | some v => exact clipped_timeClip _

theorem clipped_normalize (tz : Int) (d : JSDate) : Clipped (normalize tz d) :=
  clipped_dateUTC _ _ _

/-- What `format` writes of a valid date is a date text. -/
theorem format_text {d : JSDate} {s : String} (hc : Clipped d) (h : format d = .ok s) :
    DateText s := by
  cases d with
  | none => simp [format] at h
  | some t =>
    simp only [format, Except.ok.injEq] at h
    rw [← h]
    have hb := hc t rfl
    apply isoDate_text
    unfold day msPerDay
    omega

theorem mkRange_text {a b : JSDate} {r : DateRange} (h : mkRange a b = .ok r)
    (ha : Clipped a) (hb : Clipped b) : DateText r.startDate ∧ DateText r.endDate := by
  obtain ⟨ta, tb, e1, e2, hr⟩ := mkRange_inv h
  subst e1 e2
  rw [hr]
  exact ⟨format_text ha rfl, format_text hb rfl⟩

theorem ruleText_none : RuleText none := by
  intro r h
  simp at h

theorem ruleText_some (a b : JSDate) (ha : Clipped a) (hb : Clipped b) :
    RuleText (some (mkRange a b)) := by
  intro r h
  exact mkRange_text (Option.some.inj h) ha hb

theorem ruleText_ite (c : Prop) [Decidable c] (x : Rule) (hx : RuleText x) :
    RuleText (if c then x else none) := by
  split
  · exact hx
  · exact ruleText_none

theorem quarterRange_text (q year : JSNum) : RuleText (some (quarterRange q year)) :=
  ruleText_some _ _ (clipped_dateUTC _ _ _) (clipped_dateUTC _ _ _)

theorem firstOf_text (rules : List Rule) (h : ∀ rule ∈ rules, RuleText rule)
    (r : DateRange) (hr : firstOf rules = .ok (some r)) :
    DateText r.startDate ∧ DateText r.endDate := by
  induction rules with
  | nil => simp [firstOf] at hr
  | cons rule rest ih =>
    cases rule with
    | none => exact ih (fun x hx => h x (List.mem_cons_of_mem _ hx)) hr
    | some res =>
      cases res with
      | error e => simp [firstOf, Except.map] at hr
      | ok v =>
        simp only [firstOf, Except.map, Except.ok.injEq, Option.some.injEq] at hr
        subst hr
        exact h _ (List.mem_cons_self _ _) v rfl
theorem ruleExplicitRange_text (parse : String → JSDate) (tz : Int) (m : List Char) :
    RuleText (ruleExplicitRange parse tz m) := by
  unfold ruleExplicitRange
  cases jsMatch rangeRe m with
  | none => exact ruleText_none
  | some caps =>
    dsimp only
    exact ruleText_ite _ _ (ruleText_some _ _ (clipped_normalize tz _) (clipped_normalize tz _))

theorem ruleSingleDate_text (parse : String → JSDate) (tz : Int) (text : String) :
    RuleText (ruleSingleDate parse tz text) := by
  unfold ruleSingleDate
  dsimp only
  exact ruleText_ite _ _ (ruleText_some _ _ (clipped_normalize tz _) (clipped_normalize tz _))

theorem ruleLastNDays_text (today : JSDate) (ht : Clipped today) (m : List Char) :
    RuleText (ruleLastNDays today m) := by
  unfold ruleLastNDays
  cases jsMatch lastNDaysRe m with
  | none => exact ruleText_none
  | some caps => exact ruleText_some _ _ (clipped_setUTCDate _ _) ht

theorem ruleNWeeks_text (today : JSDate) (ht : Clipped today) (m : List Char) :
    RuleText (ruleNWeeks today m) := by
  unfold ruleNWeeks
  cases jsMatch nWeeksRe m with
  | none => exact ruleText_none
  | some caps => exact ruleText_some _ _ (clipped_setUTCDate _ _) ht

theorem ruleNDays_text (today : JSDate) (ht : Clipped today) (m : List Char) :
    RuleText (ruleNDays today m) := by
  unfold ruleNDays
  cases jsMatch nDaysRe m with
  | none => exact ruleText_none
  | some caps => exact ruleText_some _ _ (clipped_setUTCDate _ _) ht

theorem ruleThisWeek_text (today : JSDate) (m : List Char) : RuleText (ruleThisWeek today m) :=
  ruleText_ite _ _ (ruleText_some _ _ (clipped_setUTCDate _ _) (clipped_setUTCDate _ _))

theorem ruleLastWeek_text (today : JSDate) (m : List Char) : RuleText (ruleLastWeek today m) :=
  ruleText_ite _ _ (ruleText_some _ _ (clipped_setUTCDate _ _) (clipped_setUTCDate _ _))

theorem ruleThisMonth_text (today : JSDate) (m : List Char) : RuleText (ruleThisMonth today m) :=
  ruleText_ite _ _ (ruleText_some _ _ (clipped_dateUTC _ _ _) (clipped_dateUTC _ _ _))

theorem ruleLastMonth_text (today : JSDate) (m : List Char) : RuleText (ruleLastMonth today m) :=
  ruleText_ite _ _ (ruleText_some _ _ (clipped_dateUTC _ _ _) (clipped_dateUTC _ _ _))

theorem ruleThisQuarter_text (tz : Int) (today : JSDate) (m : List Char) :
    RuleText (ruleThisQuarter tz today m) :=
  ruleText_ite _ _ (quarterRange_text _ _)

theorem ruleLastQuarter_text (tz : Int) (today : JSDate) (m : List Char) :
    RuleText (ruleLastQuarter tz today m) := by
  unfold ruleLastQuarter
  refine ruleText_ite _ _ ?_
  dsimp only
  split
  · exact quarterRange_text _ _
  · exact quarterRange_text _ _

theorem ruleQuarterYear_text (m : List Char) : RuleText (ruleQuarterYear m) := by
  unfold ruleQuarterYear
  cases jsMatch quarterRe m with
  | none => exact ruleText_none
  | some caps => exact quarterRange_text _ _

theorem monthLoop_text (today : JSDate) (m : List Char) (names : List String) (i : Int) :
    RuleText (monthLoop today m names i) := by
  induction names generalizing i with
  | nil => exact ruleText_none
  | cons name rest ih =>
    unfold monthLoop
    split
    · exact ruleText_some _ _ (clipped_dateUTC _ _ _) (clipped_dateUTC _ _ _)
    · exact ih (i + 1)

theorem ruleMonthName_text (today : JSDate) (m : List Char) : RuleText (ruleMonthName today m) :=
  monthLoop_text today m monthNames 0

theorem ruleToday_text (today : JSDate) (ht : Clipped today) (m : List Char) :
    RuleText (ruleToday today m) :=
  ruleText_ite _ _ (ruleText_some _ _ ht ht)

theorem ruleYesterday_text (today : JSDate) (m : List Char) : RuleText (ruleYesterday today m) :=
  ruleText_ite _ _ (ruleText_some _ _ (clipped_setUTCDate _ _) (clipped_setUTCDate _ _))

theorem ruleDaily_text (today : JSDate) (ht : Clipped today) (m : List Char) :
    RuleText (ruleDaily today m) :=
  ruleText_ite _ _ (ruleText_some _ _ ht ht)

theorem ruleWeekly_text (today : JSDate) (ht : Clipped today) (m : List Char) :
    RuleText (ruleWeekly today m) :=
  ruleText_ite _ _ (ruleText_some _ _ (clipped_setUTCDate _ _) ht)

theorem ruleMonthly_text (today : JSDate) (m : List Char) : RuleText (ruleMonthly today m) :=
  ruleText_ite _ _ (ruleText_some _ _ (clipped_dateUTC _ _ _) (clipped_dateUTC _ _ _))

theorem rulePastWeek_text (today : JSDate) (ht : Clipped today) (m : List Char) :
    RuleText (rulePastWeek today m) :=
  ruleText_ite _ _ (ruleText_some _ _ (clipped_setUTCDate _ _) ht)

theorem ruleLastYear_text (today : JSDate) (m : List Char) : RuleText (ruleLastYear today m) :=
  ruleText_ite _ _ (ruleText_some _ _ (clipped_dateUTC _ _ _) (clipped_dateUTC _ _ _))

theorem ruleThisYear_text (today : JSDate) (ht : Clipped today) (m : List Char) :
    RuleText (ruleThisYear today m) :=
  ruleText_ite _ _ (ruleText_some _ _ (clipped_dateUTC _ _ _) ht)

/-- C25 as amended: for every text, every zone, every reading of the clock and every
string parser, the two dates of a range that the resolver returns are each the
zero-padded date text of a day, with a month of two digits from 01 to 12 and a day of
two digits of that month: `YYYY-MM-DD`, ten characters with a year of four digits,
when the year of the day is one of 0 to 9999, and thirteen characters, a sign and a
year of six digits before `-MM-DD`, when it is not. -/
theorem dates_zero_padded (parse : String → JSDate) (tz now1 now2 : Int) (text : String)
    (r : DateRange) (hres : parsed parse tz now1 now2 text = .ok (some r)) :
    DateText r.startDate ∧ DateText r.endDate := by
  rw [parsed_eq_firstOf] at hres
  refine firstOf_text _ ?_ r hres
  intro rule hmem
  have h1 := clipped_normalize tz (some now1)
  have h2 := clipped_normalize tz (some now2)
  simp only [primaryRules, secondaryRules, List.cons_append, List.nil_append, List.mem_cons,
    List.mem_singleton, List.not_mem_nil, or_false] at hmem
  rcases hmem with rfl | rfl | rfl | rfl | rfl | rfl | rfl | rfl | rfl | rfl | rfl | rfl | rfl |
    rfl | rfl | rfl | rfl | rfl | rfl | rfl | rfl
  · exact ruleExplicitRange_text parse tz _
  · exact ruleLastNDays_text _ h1 _
  · exact ruleThisWeek_text _ _
  · exact ruleLastWeek_text _ _
  · exact ruleThisMonth_text _ _
  · exact ruleLastMonth_text _ _
  · exact ruleThisQuarter_text tz _ _
  · exact ruleLastQuarter_text tz _ _
  · exact ruleQuarterYear_text _
  · exact ruleMonthName_text _ _
  · exact ruleToday_text _ h1 _
  · exact ruleYesterday_text _ _
  · exact ruleSingleDate_text parse tz _
  · exact ruleNWeeks_text _ h2 _
  · exact ruleNDays_text _ h2 _
  · exact ruleDaily_text _ h2 _
  · exact ruleWeekly_text _ h2 _
  · exact ruleMonthly_text _ _
  · exact rulePastWeek_text _ h2 _
  · exact ruleLastYear_text _ _
  · exact ruleThisYear_text _ h2 _

theorem dates_zero_padded_witness :
    parsed (jsDateParse 28800000) 28800000 1762300800000 1762300800000
        "from March 1, 2024 to 2024-03-15" = .ok (some ⟨"2024-03-01", "2024-03-15"⟩) ∧
      DateText "2024-03-01" ∧ DateText "2024-03-15" :=
  ⟨by decide!,
    dates_zero_padded (jsDateParse 28800000) 28800000 1762300800000 1762300800000
      "from March 1, 2024 to 2024-03-15" ⟨"2024-03-01", "2024-03-15"⟩ (by decide!)⟩

/-- C25 as stated fails for dates outside the years 0 to 9999: ECMAScript reads
"+010000-01-01" as the first day of the year 10000, the single-date rule returns it,
and `toISOString` writes such a year with a sign and six digits, so the dates
returned have thirteen characters; so does the explicit range with a year before
0. -/
theorem expanded_year_not_ten_characters :
    parsed (jsDateParse 0) 0 1762300800000 1762300800000 "+010000-01-01" =
        .ok (some ⟨"+010000-01-01", "+010000-01-01"⟩) ∧
      "+010000-01-01".length = 13 ∧ isoShaped "+010000-01-01" = false ∧
      expandedShaped "+010000-01-01" = true ∧
      parsed (jsDateParse 0) 0 1762300800000 1762300800000
        "from -000001-01-01 to 2024-01-01" = .ok (some ⟨"-000001-01-01", "2024-01-01"⟩) ∧
      isoShaped "-000001-01-01" = false ∧ expandedShaped "-000001-01-01" = true ∧
      isoShaped "2024-01-01" = true ∧ expandedShaped "2024-01-01" = false ∧
      isoShaped "2024-02-30" = false ∧ isoShaped "2024-2-3" = false ∧
      expandedShaped "+002024-01-01" = false ∧ expandedShaped "+010000-02-30" = false := by
  decide!

/-! ## The synonyms of the secondary pass -/

/-- What `normalize` makes of a clock reading depends on its local date only. -/
theorem normalize_localDay (tz a b : Int) (h : localDay tz a = localDay tz b) :
    normalize tz (some a) = normalize tz (some b) := by
  unfold localDay at h
  simp only [normalize, getFullYear, getMonth, getDate, Option.map, h]

/-- The text "today" reaches the rule "today". -/
theorem today_text :
    jsMatch rangeRe (toLowerCase "today".toList) = none ∧
      jsMatch lastNDaysRe (toLowerCase "today".toList) = none ∧
      includes (toLowerCase "today".toList) "this week".toList = false ∧
      includes (toLowerCase "today".toList) "last week".toList = false ∧
      includes (toLowerCase "today".toList) "this month".toList = false ∧
      includes (toLowerCase "today".toList) "last month".toList = false ∧
      includes (toLowerCase "today".toList) "this quarter".toList = false ∧
      includes (toLowerCase "today".toList) "last quarter".toList = false ∧
      jsMatch quarterRe (toLowerCase "today".toList) = none ∧
      monthNames.all (fun name => !includes (toLowerCase "today".toList) name.toList) = true ∧
      includes (toLowerCase "today".toList) "today".toList = true := by
  decide!

/-- The primary pass on the text "this month", for any clock. -/
theorem parseDateRange_thisMonth_any (parse : String → JSDate) (tz now : Int) :
    parseDateRange parse tz now "this month" =
      (mkRange (firstDayOfMonth (getUTCFullYear (normalize tz (some now)))
          (getUTCMonth (normalize tz (some now))))
        (lastDayOfMonth (getUTCFullYear (normalize tz (some now)))
          (getUTCMonth (normalize tz (some now))))).map some := by
  obtain ⟨⟨h1, h2, h3, h4, h5⟩, _⟩ := month_texts
  unfold parseDateRange
  simp only [ruleExplicitRange_none _ _ _ h1, ruleLastNDays_none _ _ h2,
    ruleThisWeek_none _ _ h3, ruleLastWeek_none _ _ h4, firstOf_none, ruleThisMonth, h5, if_true,
    firstOf_some]

/-- The primary pass on the text "today", for any clock. -/
theorem parseDateRange_today_any (parse : String → JSDate) (tz now : Int) :
    parseDateRange parse tz now "today" =
      (mkRange (normalize tz (some now)) (normalize tz (some now))).map some := by
  obtain ⟨h1, h2, h3, h4, h5, h6, h7, h8, h9, h10, h11⟩ := today_text
  unfold parseDateRange
  simp only [ruleExplicitRange_none _ _ _ h1, ruleLastNDays_none _ _ h2,
    ruleThisWeek_none _ _ h3, ruleLastWeek_none _ _ h4, ruleThisMonth_none _ _ h5,
    ruleLastMonth_none _ _ h6, ruleThisQuarter_none _ _ _ h7, ruleLastQuarter_none _ _ _ h8,
    ruleQuarterYear_none _ h9, ruleMonthName_none _ _ h10, firstOf_none, ruleToday, h11, if_true,
    firstOf_some]

/-- The result of the two passes when the primary pass decides. -/
theorem parsed_primary_map (parse : String → JSDate) (tz now1 now2 : Int) (text : String)
    (res : Except JSError DateRange) (h : parseDateRange parse tz now1 text = res.map some) :
    parsed parse tz now1 now2 text = res.map some := by
  unfold parsed
  rw [h]
  cases res with
  | error e => rfl
  | ok v => rfl

/-- C26: a text resolved by the secondary rule "monthly" gets what the text
"this month" gets, and a text resolved by the secondary rule "a day", "one day",
"day report", "daily" gets what the text "today" gets, whenever the clock readings
behind the two resolutions fall on the same reference date. -/
theorem secondary_synonyms (parse : String → JSDate) (tz now1 now2 nowA nowB : Int)
    (text : String) (hprim : parseDateRange parse tz now1 text = .ok none)
    (hsame : localDay tz now2 = localDay tz nowA) :
    (noneTaken (secondaryRules tz now2 text) 4 →
        includes (toLowerCase text.toList) "monthly".toList = true →
        parsed parse tz now1 now2 text = parsed parse tz nowA nowB "this month") ∧
      (noneTaken (secondaryRules tz now2 text) 2 →
        (includes (toLowerCase text.toList) "a day".toList ||
          includes (toLowerCase text.toList) "one day".toList ||
          includes (toLowerCase text.toList) "day report".toList ||
          includes (toLowerCase text.toList) "daily".toList) = true →
        parsed parse tz now1 now2 text = parsed parse tz nowA nowB "today") := by
  have hn := normalize_localDay tz now2 nowA hsame
  refine ⟨?_, ?_⟩
  · intro hsec h
    rw [parsed_of_secondary parse tz now1 now2 text hprim, firstOf_drop _ 4 hsec,
      parsed_primary_map parse tz nowA nowB _ _ (parseDateRange_thisMonth_any parse tz nowA), ← hn]
    simp only [secondaryRules, List.drop, ruleMonthly, h, if_true, firstOf_some, firstDayOfMonth,
      lastDayOfMonth]
  · intro hsec h
    rw [parsed_of_secondary parse tz now1 now2 text hprim, firstOf_drop _ 2 hsec,
      parsed_primary_map parse tz nowA nowB _ _ (parseDateRange_today_any parse tz nowA), ← hn]
    simp only [secondaryRules, List.drop, ruleDaily, h, if_true, firstOf_some]

theorem secondary_synonyms_witness :
    parsed (jsDateParse 28800000) 28800000 1762300800000 1762300800000 "monthly report" =
        parsed (jsDateParse 28800000) 28800000 1762300800000 1762300800000 "this month" ∧
      parsed (jsDateParse 28800000) 28800000 1762300800000 1762300800000 "daily report" =
        parsed (jsDateParse 28800000) 28800000 1762300800000 1762300800000 "today" ∧
      parsed (jsDateParse 28800000) 28800000 1762300800000 1762300800000 "monthly report" =
        .ok (some ⟨"2025-11-01", "2025-11-30"⟩) ∧
      parsed (jsDateParse 28800000) 28800000 1762300800000 1762300800000 "daily report" =
        .ok (some ⟨"2025-11-05", "2025-11-05"⟩) :=
  ⟨(secondary_synonyms (jsDateParse 28800000) 28800000 1762300800000 1762300800000
      1762300800000 1762300800000 "monthly report" (by decide!) rfl).1
      (by unfold noneTaken; decide!) (by decide!),
    (secondary_synonyms (jsDateParse 28800000) 28800000 1762300800000 1762300800000
      1762300800000 1762300800000 "daily report" (by decide!) rfl).2
      (by unfold noneTaken; decide!) (by decide!),
    by decide!, by decide!⟩

/-! ## The option "1 month" of the chat -/

/-- East of UTC (by at most a day) the text built for the option "1 month" names the
day before the first and the day before the last day of the current local month:
local midnight of a date is still the day before in UTC, which is what
`toISOString` writes. -/
theorem oneMonth_text_east (tz now0 : Int) (startDate endDate : String)
    (hR : RefDate (localDay tz now0)) (htz : 0 < tz ∧ tz ≤ 86400000) :
    dateRangeText tz now0 "1month" startDate endDate =
      .ok ("from " ++
        isoDate (makeDay (yearFromDay (localDay tz now0)) (monthFromDay (localDay tz now0)) 1 - 1) ++
        " to " ++
        isoDate (makeDay (yearFromDay (localDay tz now0))
          (monthFromDay (localDay tz now0) + 1) 0 - 1)) := by
  have hy := hR.year
  have hm := monthFromDay_range (localDay tz now0)
  have hd := daysInMonth_pos (yearFromDay (localDay tz now0)) (monthFromDay (localDay tz now0))
  have b1 := makeDay_in_year (yearFromDay (localDay tz now0)) (monthFromDay (localDay tz now0)) 1
    hm (by omega)
  have b2 := makeDay_zero_next (yearFromDay (localDay tz now0)) (monthFromDay (localDay tz now0)) hm
  have b3 := makeDay_in_year (yearFromDay (localDay tz now0)) (monthFromDay (localDay tz now0))
    (daysInMonth (yearFromDay (localDay tz now0)) (monthFromDay (localDay tz now0)))
    hm (by omega)
  have b4 := dayFromYear_range (yearFromDay (localDay tz now0)) (by omega)
  have hlocal : day (now0 + tz) = localDay tz now0 := rfl
  have c1 : timeClip (makeDate (makeDay (yearFromDay (localDay tz now0))
      (monthFromDay (localDay tz now0)) 1) 0 - tz) =
      some (makeDate (makeDay (yearFromDay (localDay tz now0))
        (monthFromDay (localDay tz now0)) 1) 0 - tz) := by
    unfold timeClip makeDate msPerDay
    rw [if_pos (by omega)]
  have c2 : timeClip (makeDate (makeDay (yearFromDay (localDay tz now0))
      (monthFromDay (localDay tz now0) + 1) 0) 0 - tz) =
      some (makeDate (makeDay (yearFromDay (localDay tz now0))
        (monthFromDay (localDay tz now0) + 1) 0) 0 - tz) := by
    unfold timeClip makeDate msPerDay
    rw [if_pos (by omega)]
  have d1 : ∀ D : Int, day (makeDate D 0 - tz) = D - 1 := by
    intro D
    unfold day makeDate msPerDay
    omega
  have hne1 : ("1month" = "all") = False := by decide
  simp only [dateRangeText, hne1, if_false, if_true, getFullYear, getMonth, Option.map, hlocal,
    dateLocal, Option.bind, jsAdd, if_neg (show ¬(0 ≤ yearFromDay (localDay tz now0) ∧
      yearFromDay (localDay tz now0) ≤ 99) by omega), c1, c2, format, d1, Except.bind]

/-- C27 fails in the code: in a browser at UTC+8 on 2025-11-05 the option "1 month"
builds the text "from 2025-10-31 to 2025-11-29" (local midnight of the first and of
the last day of November, written by `toISOString` in UTC, where it is still the day
before), and the report is asked for 2025-10-31 to 2025-11-29 instead of 2025-11-01
to 2025-11-30. At UTC-5 the text is "from 2025-11-01 to 2025-11-30" but resolving it
gives 2025-10-31 to 2025-11-29 again; only at UTC are the text and the range those of
the current month. -/
theorem one_month_option_off_by_one :
    (getFullYear 28800000 (some 1762300800000) = some 2025 ∧
      getMonth 28800000 (some 1762300800000) = some 10 ∧
      dateRangeText 28800000 1762300800000 "1month" "" "" =
        .ok "from 2025-10-31 to 2025-11-29" ∧
      generateReportWithDateRange (jsDateParse 28800000) 28800000 1762300800000 1762300800000
        1762300800000 1762300800000 "1month" "" "" "visitor report" =
        .ok (some ⟨"visitor_analytics", "2025-10-31", "2025-11-29", true, true, true, true, true,
          "visitor report from 2025-10-31 to 2025-11-29", none⟩)) ∧
    (getMonth (-18000000) (some 1762300800000) = some 10 ∧
      dateRangeText (-18000000) 1762300800000 "1month" "" "" =
        .ok "from 2025-11-01 to 2025-11-30" ∧
      generateReportWithDateRange (jsDateParse (-18000000)) (-18000000) 1762300800000
        1762300800000 1762300800000 1762300800000 "1month" "" "" "visitor report" =
        .ok (some ⟨"visitor_analytics", "2025-10-31", "2025-11-29", true, true, true, true, true,
          "visitor report from 2025-11-01 to 2025-11-30", none⟩)) ∧
    (dateRangeText 0 1762300800000 "1month" "" "" = .ok "from 2025-11-01 to 2025-11-30" ∧
      generateReportWithDateRange (jsDateParse 0) 0 1762300800000 1762300800000
        1762300800000 1762300800000 "1month" "" "" "visitor report" =
        .ok (some ⟨"visitor_analytics", "2025-11-01", "2025-11-30", true, true, true, true, true,
          "visitor report from 2025-11-01 to 2025-11-30", none⟩)) := by
  refine ⟨⟨?_, ?_, ?_, ?_⟩, ⟨?_, ?_, ?_⟩, ⟨?_, ?_⟩⟩ <;> decide!

/-! ## Several month names in one text -/

/-- The texts of the first days of two different months of a year differ. -/
theorem isoString_month_injective (y : Int) (i j : Fin 12)
    (h : isoString y (i.val + 1) 1 = isoString y (j.val + 1) 1) : i = j := by
  have key : ∀ a b : Fin 12, ('-' :: pad 2 ((a.val : Int) + 1).toNat ++ '-' :: pad 2 (1 : Int).toNat) =
      ('-' :: pad 2 ((b.val : Int) + 1).toNat ++ '-' :: pad 2 (1 : Int).toNat) → a = b := by
    decide!
  unfold isoString at h
  have hd : isoYear y ++ '-' :: pad 2 ((i.val : Int) + 1).toNat ++ '-' :: pad 2 (1 : Int).toNat =
      isoYear y ++ '-' :: pad 2 ((j.val : Int) + 1).toNat ++ '-' :: pad 2 (1 : Int).toNat :=
    congrArg String.data h
  rw [List.append_assoc, List.append_assoc] at hd
  exact key i j (List.append_cancel_left hd)

/-- What the patterns find in "june and march". -/
theorem juneAndMarch_text :
    jsMatch rangeRe (toLowerCase "june and march".toList) = none ∧
      noEarlyPhrase (toLowerCase "june and march".toList) = true ∧
      jsMatch quarterRe (toLowerCase "june and march".toList) = none ∧
      jsMatch yearRe (toLowerCase "june and march".toList) = none ∧
      firstIncluded (toLowerCase "june and march".toList) monthNames 0 = some 2 ∧
      includes (toLowerCase "june and march".toList) "june".toList = true ∧
      "june and march".toList.take 4 = "june".toList := by
  decide!

/-- C28: when a text contains two month names, the month the resolver uses (no earlier
rule applying) is the one that comes first in the calendar, whichever of them is
written first: with M the first month name of the calendar that the text contains
and N another one it contains, the range is month M of the chosen year and does not
start with month N; "june and march" resolves to March of the year of the reference
date. -/
theorem first_month_in_calendar_order (parse : String → JSDate) (tz now now2 : Int)
    (text : String) (i j : Fin 12) (hR : RefDate (localDay tz now))
    (hearly : noneTaken (primaryRules parse tz now text) 9)
    (hi : includes (toLowerCase text.toList) (monthNames.get i).toList = true)
    (hj : includes (toLowerCase text.toList) (monthNames.get j).toList = true)
    (hij : i ≠ j)
    (hfirst : ∀ l : Fin 12, l < i →
      includes (toLowerCase text.toList) (monthNames.get l).toList = false) :
    (i < j ∧
      ∃ y e, parsed parse tz now now2 text = .ok (some ⟨isoString y (i.val + 1) 1, e⟩) ∧
        e = isoString y (i.val + 1) (lastDayGregorian y i.val) ∧
        isoString y (i.val + 1) 1 ≠ isoString y (j.val + 1) 1) ∧
    parsed parse tz now now2 "june and march" =
      .ok (some ⟨isoString (yearFromDay (localDay tz now)) 3 1,
        isoString (yearFromDay (localDay tz now)) 3 31⟩) := by
  refine ⟨⟨?_, ?_⟩, ?_⟩
  · rcases lt_trichotomy i j with h | h | h
    · exact h
    · exact absurd h hij
    · have := hfirst j h
      rw [hj] at this
      exact absurd this (by decide)
  · refine ⟨(firstYearToken none (toLowerCase text.toList)).getD (yearFromDay (localDay tz now)),
      _, ?_, rfl, fun h => hij (isoString_month_injective _ i j h)⟩
    apply parsed_of_primary
    rw [parseDateRange_eq_firstOf, firstOf_drop _ 9 hearly]
    simp only [primaryRules, List.drop]
    rw [normalize_now tz now hR, ruleMonthName_year _ hR _ i hi hfirst, firstOf_some]
    rfl
  · obtain ⟨_, h1, h2, h3, h4, _, _⟩ := juneAndMarch_text
    apply parsed_of_primary
    rw [parseDateRange_month parse tz now _ 2 hR (by omega) ⟨h1, h2, h3, h4⟩]
    rfl

theorem first_month_in_calendar_order_witness :
    parsed (jsDateParse 28800000) 28800000 1762300800000 1762300800000 "june and march" =
      .ok (some ⟨"2025-03-01", "2025-03-31"⟩) :=
  ((first_month_in_calendar_order (jsDateParse 28800000) 28800000 1762300800000 1762300800000
    "june and march" 2 5 (by unfold RefDate localDay day msPerDay; decide)
    (by unfold noneTaken; decide!) (by decide!) (by decide!) (by decide) (by decide!)).2).trans
    (by decide!)

/-! ## The two sides of an explicit range -/

theorem rangeChar_cases (c : Char) (h : isRangeChar c = true) :
    (97 ≤ c.toNat ∧ c.toNat ≤ 122) ∨ (48 ≤ c.toNat ∧ c.toNat ≤ 57) ∨ c = ' ' ∨ c = ',' ∨
      c = '/' ∨ c = '-' := by
  unfold isRangeChar at h
  simp only [Bool.or_eq_true, Bool.and_eq_true, decide_eq_true_eq] at h
  rcases h with ((((h | h) | h) | h) | h) | h
  · left
    exact ⟨h.1, h.2⟩
  · right; left
    exact isDigit_value c h
  · right; right; left; exact h
  · right; right; right; left; exact h
  · right; right; right; right; left; exact h
  · right; right; right; right; right; exact h

/-- The only white space of the class of the explicit-range pattern is the space. -/
theorem rangeChar_space (c : Char) (h : isRangeChar c = true) (hs : isSpace c = true) :
    c = ' ' := by
  rcases rangeChar_cases c h with h | h | h | h | h | h
  · unfold isSpace at hs
    simp only [Bool.or_eq_true, Bool.and_eq_true, decide_eq_true_eq] at hs
    omega
  · unfold isSpace at hs
    simp only [Bool.or_eq_true, Bool.and_eq_true, decide_eq_true_eq] at hs
    omega
  · exact h
  · subst h; exact absurd hs (by decide)
  · subst h; exact absurd hs (by decide)
  · subst h; exact absurd hs (by decide)

/-- A greedy class runs to the end of a text made of its characters, when the
continuation matches there. -/
theorem repRun_greedy_all (p : Char → Bool) (k : Cursor → Option Caps) (c : Caps) (z : Char)
    (hz : p z = true) (hk : k ⟨some z, []⟩ = some c) :
    ∀ (E : List Char) (lo : Nat) (prev : Option Char), lo ≤ E.length + 1 →
      (∀ x ∈ E, p x = true) → repRun p true k lo none prev (E ++ [z]) = some c := by
  intro E
  induction E with
  | nil =>
    intro lo prev hlo _
    have h0 : lo - 1 = 0 := by simp at hlo; omega
    simp [repRun, hz, h0, hk]
  | cons x xs ih =>
    intro lo prev hlo hall
    have hx : p x = true := hall x (List.mem_cons_self _ _)
    have hrec := ih (lo - 1) (some x) (by simp at hlo ⊢; omega)
      (fun y hy => hall y (List.mem_cons_of_mem _ hy))
    simp [repRun, hx, hrec]

/-- A lazy class stops at the first position where the continuation matches. -/
theorem repRun_lazy_skip (p : Char → Bool) (k : Cursor → Option Caps) (c : Caps) (z : Char)
    (S : List Char) (hz : p z = true) (hk : k ⟨some z, S⟩ = some c) :
    ∀ (init : List Char) (lo : Nat) (prev : Option Char), lo ≤ 1 →
      (∀ x ∈ init, p x = true) → (lo = 0 → k ⟨prev, init ++ z :: S⟩ = none) →
      (∀ pre suf prev1, init = pre ++ suf → pre ≠ [] → k ⟨prev1, suf ++ z :: S⟩ = none) →
      repRun p false k lo none prev (init ++ z :: S) = some c := by
  have hend : repRun p false k 0 none (some z) S = some c := by
    cases S with
    | nil => simp [repRun, hk]
    | cons y ys => simp [repRun, hk]
  intro init
  induction init with
  | nil =>
    intro lo prev hlo _ h0 _
    have hl : lo - 1 = 0 := by omega
    by_cases hz0 : lo = 0
    · have := h0 hz0
      simp only [List.nil_append] at this
      simp [repRun, hz, hl, hend, hz0, this]
    · simp [repRun, hz, hl, hend, hz0]
  | cons x xs ih =>
    intro lo prev hlo hall h0 hmid
    have hx : p x = true := hall x (List.mem_cons_self _ _)
    have hl : lo - 1 = 0 := by omega
    have hrec := ih 0 (some x) (by omega) (fun y hy => hall y (List.mem_cons_of_mem _ hy))
      (fun _ => hmid [x] xs (some x) rfl (by simp))
      (fun pre suf prev1 e hne => hmid (x :: pre) suf prev1 (by rw [e]; rfl) (by simp))
    by_cases hz0 : lo = 0
    · have := h0 hz0
      simp only [List.cons_append] at this
      simp [repRun, hx, hl, hrec, hz0, this]
    · simp [repRun, hx, hl, hrec, hz0]

/-- The separator group followed by white space fails on a text that does not start
with "to" or "and" and a white space. -/
theorem separator_none (r : Re) (prev : Option Char) (t : List Char) (caps : Caps)
    (k : Cursor → Caps → Option Caps)
    (hto : ∀ w tl, t = 't' :: 'o' :: w :: tl → isSpace w = false)
    (hand : ∀ w tl, t = 'a' :: 'n' :: 'd' :: w :: tl → isSpace w = false) :
    (Re.seq (Re.grp 3 (Re.alt (Re.word "to") (Re.word "and"))) (Re.seq Re.spaces r)).run
      ⟨prev, t⟩ caps k = none := by
  have hword : Re.word "to" = Re.seq (Re.chr 't') (Re.seq (Re.chr 'o') Re.eps) := rfl
  have hword2 : Re.word "and" =
      Re.seq (Re.chr 'a') (Re.seq (Re.chr 'n') (Re.seq (Re.chr 'd') Re.eps)) := rfl
  rw [hword, hword2]
  match t with
  | [] => simp [Re.run]
  | [a] => simp [Re.run]
  | [a, b] =>
    by_cases h1 : a = 't' <;> by_cases h2 : b = 'o' <;> simp [Re.run, Re.spaces, repRun, h1, h2]
  | a :: b :: c :: tl =>
    by_cases h1 : a = 't'
    · by_cases h2 : b = 'o'
      · subst h1 h2
        have := hto c tl rfl
        simp [Re.run, Re.spaces, repRun, this]
      · simp [Re.run, Re.spaces, repRun, h1, h2]
    · by_cases h3 : a = 'a'
      · by_cases h4 : b = 'n'
        · by_cases h5 : c = 'd'
          · subst h3 h4 h5
            cases tl with
            | nil => simp [Re.run, Re.spaces, repRun]
            | cons w tl2 =>
              have := hand w tl2 rfl
              simp [Re.run, Re.spaces, repRun, this]
          · simp [Re.run, Re.spaces, repRun, h1, h3, h4, h5]
        · simp [Re.run, Re.spaces, repRun, h1, h3, h4]
      · simp [Re.run, Re.spaces, repRun, h1, h3]

/-- A run of the class that is not followed by a separator does not start like one. -/
theorem no_separator_start (V E : List Char) (hV : V ≠ [])
    (hr : ∀ x ∈ V, isRangeChar x = true)
    (hto : List.isPrefixOf [' ', 't', 'o', ' '] (' ' :: V ++ [' ']) = false)
    (hand : List.isPrefixOf [' ', 'a', 'n', 'd', ' '] (' ' :: V ++ [' ']) = false) :
    (∀ w tl, V ++ ' ' :: 't' :: 'o' :: ' ' :: E = 't' :: 'o' :: w :: tl → isSpace w = false) ∧
      (∀ w tl, V ++ ' ' :: 't' :: 'o' :: ' ' :: E = 'a' :: 'n' :: 'd' :: w :: tl →
        isSpace w = false) := by
  constructor
  · intro w tl e
    match V, hV, hr, hto with
    | [a], _, _, _ => simp at e
    | [a, b], _, _, hto =>
      simp only [List.cons_append, List.nil_append, List.cons.injEq] at e
      obtain ⟨rfl, rfl, rfl, _⟩ := e
      simp [List.isPrefixOf] at hto
    | a :: b :: c :: V2, _, hr, hto =>
      simp only [List.cons_append, List.cons.injEq] at e
      obtain ⟨rfl, rfl, rfl, _⟩ := e
      cases hs : isSpace c with
      | false => rfl
      | true =>
        have hc := rangeChar_space c (hr c (by simp)) hs
        subst hc
        simp [List.isPrefixOf] at hto
  · intro w tl e
    match V, hV, hr, hand with
    | [a], _, _, _ => simp at e
    | [a, b], _, _, _ => simp at e
    | [a, b, c], _, _, hand =>
      simp only [List.cons_append, List.nil_append, List.cons.injEq] at e
      obtain ⟨rfl, rfl, rfl, rfl, _⟩ := e
      simp [List.isPrefixOf] at hand
    | a :: b :: c :: d :: V2, _, hr, hand =>
      simp only [List.cons_append, List.cons.injEq] at e
      obtain ⟨rfl, rfl, rfl, rfl, _⟩ := e
      cases hs : isSpace d with
      | false => rfl
      | true =>
        have hc := rangeChar_space d (hr d (by simp)) hs
        subst hc
        simp [List.isPrefixOf] at hand

/-- After some white space inside the start side the separator is not found, when
the start side holds no separator. -/
theorem spaces_separator_none0 (r : Re) (caps : Caps) (k : Cursor → Caps → Option Caps)
    (E : List Char) :
    ∀ (U : List Char) (prev : Option Char), U ≠ [] → (∀ x ∈ U, isRangeChar x = true) →
      U.getLast? ≠ some ' ' →
      includes (' ' :: U ++ [' ']) [' ', 't', 'o', ' '] = false →
      includes (' ' :: U ++ [' ']) [' ', 'a', 'n', 'd', ' '] = false →
      repRun isSpace true (fun cur1 =>
        (Re.seq (Re.grp 3 (Re.alt (Re.word "to") (Re.word "and"))) (Re.seq Re.spaces r)).run
          cur1 caps k) 0 none prev (U ++ ' ' :: 't' :: 'o' :: ' ' :: E) = none := by
  intro U
  induction U with
  | nil => intro prev h; exact absurd rfl h
  | cons y U2 ih =>
    intro prev _ hr hlast hto hand
    have hto2 : List.isPrefixOf [' ', 't', 'o', ' '] (' ' :: (y :: U2) ++ [' ']) = false ∧
        includes ((y :: U2) ++ [' ']) [' ', 't', 'o', ' '] = false := by
      simpa [includes] using hto
    have hand2 : List.isPrefixOf [' ', 'a', 'n', 'd', ' '] (' ' :: (y :: U2) ++ [' ']) = false ∧
        includes ((y :: U2) ++ [' ']) [' ', 'a', 'n', 'd', ' '] = false := by
      simpa [includes] using hand
    obtain ⟨s1, s2⟩ := no_separator_start (y :: U2) E (by simp) hr hto2.1 hand2.1
    have hstop := separator_none r prev ((y :: U2) ++ ' ' :: 't' :: 'o' :: ' ' :: E) caps k s1 s2
    cases hs : isSpace y with
    | false =>
      simp only [List.cons_append] at hstop ⊢
      simp [repRun, hs, hstop]
    | true =>
      have hy := rangeChar_space y (hr y (List.mem_cons_self _ _)) hs
      subst hy
      have hne : U2 ≠ [] := by
        intro e
        subst e
        exact hlast rfl
      have hlast2 : U2.getLast? ≠ some ' ' := by
        intro e
        apply hlast
        obtain ⟨b, U3, rfl⟩ := List.exists_cons_of_ne_nil hne
        rw [List.getLast?_cons_cons]
        exact e
      have hrec := ih (some ' ') hne (fun x hx => hr x (List.mem_cons_of_mem _ hx)) hlast2
        hto2.2 hand2.2
      simp only [List.cons_append] at hstop hrec ⊢
      simp [repRun, hs, hstop, hrec]

/-- The part of the pattern after the start side fails inside a start side that holds
no separator. -/
theorem tail_none (r : Re) (caps : Caps) (k : Cursor → Caps → Option Caps) (E U : List Char)
    (prev : Option Char) (hU : U ≠ []) (hr : ∀ x ∈ U, isRangeChar x = true)
    (hlast : U.getLast? ≠ some ' ')
    (hto : includes (U ++ [' ']) [' ', 't', 'o', ' '] = false)
    (hand : includes (U ++ [' ']) [' ', 'a', 'n', 'd', ' '] = false) :
    (Re.seq Re.spaces (Re.seq (Re.grp 3 (Re.alt (Re.word "to") (Re.word "and")))
      (Re.seq Re.spaces r))).run ⟨prev, U ++ ' ' :: 't' :: 'o' :: ' ' :: E⟩ caps k = none := by
  show repRun isSpace true (fun cur1 =>
    (Re.seq (Re.grp 3 (Re.alt (Re.word "to") (Re.word "and"))) (Re.seq Re.spaces r)).run
      cur1 caps k) 1 none prev (U ++ ' ' :: 't' :: 'o' :: ' ' :: E) = none
  obtain ⟨x, U2, rfl⟩ := List.exists_cons_of_ne_nil hU
  cases hs : isSpace x with
  | false => simp [repRun, hs]
  | true =>
    have hx := rangeChar_space x (hr x (List.mem_cons_self _ _)) hs
    subst hx
    have hne : U2 ≠ [] := by
      intro e
      subst e
      exact hlast rfl
    have hlast2 : U2.getLast? ≠ some ' ' := by
      intro e
      apply hlast
      obtain ⟨b, U3, rfl⟩ := List.exists_cons_of_ne_nil hne
      rw [List.getLast?_cons_cons]
      exact e
    have hrec := spaces_separator_none0 r caps k E U2 (some ' ') hne
      (fun y hy => hr y (List.mem_cons_of_mem _ hy)) hlast2 hto hand
    simp only [List.cons_append] at hrec ⊢
    simp [repRun, hs, hrec]

/-- The part of the pattern after the start side, at the separator " to ". -/
theorem tail_some (r : Re) (caps : Caps) (k : Cursor → Caps → Option Caps) (c : Caps)
    (prev : Option Char) (e : Char) (E2 : List Char) (he : isSpace e = false)
    (h : r.run ⟨some ' ', e :: E2⟩ ((3, ['t', 'o']) :: caps) k = some c) :
    (Re.seq Re.spaces (Re.seq (Re.grp 3 (Re.alt (Re.word "to") (Re.word "and")))
      (Re.seq Re.spaces r))).run ⟨prev, ' ' :: 't' :: 'o' :: ' ' :: e :: E2⟩ caps k = some c := by
  have hword : Re.word "to" = Re.seq (Re.chr 't') (Re.seq (Re.chr 'o') Re.eps) := rfl
  have hword2 : Re.word "and" =
      Re.seq (Re.chr 'a') (Re.seq (Re.chr 'n') (Re.seq (Re.chr 'd') Re.eps)) := rfl
  have s1 : isSpace ' ' = true := by decide
  have s2 : isSpace 't' = false := by decide
  rw [hword, hword2]
  simp [Re.run, Re.spaces, repRun, s1, s2, he, h]

/-- The end side: the greedy class runs to the end of the text. -/
theorem end_side_some (caps : Caps) (prev : Option Char) (Einit : List Char) (zE : Char)
    (hall : ∀ x ∈ Einit, isRangeChar x = true) (hz : isRangeChar zE = true)
    (hw : isWordChar zE = true) :
    (Re.seq (Re.grp 4 (Re.rep isRangeChar 1 none true)) (Re.seq Re.wordB Re.eps)).run
      ⟨prev, Einit ++ [zE]⟩ caps (fun _ c => some c) = some ((4, Einit ++ [zE]) :: caps) := by
  show repRun isRangeChar true (fun cur1 => (Re.seq Re.wordB Re.eps).run cur1
    ((4, (Einit ++ [zE]).take ((Einit ++ [zE]).length - cur1.rest.length)) :: caps)
    (fun _ c => some c)) 1 none prev (Einit ++ [zE]) = _
  apply repRun_greedy_all _ _ _ zE hz _ Einit 1 prev (by omega) hall
  simp [Re.run, atWordBoundary, hw]

/-- The start of the pattern on a text that starts with "from" and a space. -/
theorem start_some (r : Re) (k : Cursor → Caps → Option Caps) (c : Caps) (a : Char)
    (rest : List Char) (ha : isSpace a = false)
    (h : r.run ⟨some ' ', a :: rest⟩ [(1, ['f', 'r', 'o', 'm'])] k = some c) :
    (Re.seq Re.wordB (Re.seq (Re.grp 1 (Re.alt (Re.word "from") (Re.word "between")))
      (Re.seq Re.spaces r))).run ⟨none, 'f' :: 'r' :: 'o' :: 'm' :: ' ' :: a :: rest⟩ [] k =
      some c := by
  have hword : Re.word "from" =
      Re.seq (Re.chr 'f') (Re.seq (Re.chr 'r') (Re.seq (Re.chr 'o') (Re.seq (Re.chr 'm') Re.eps))) :=
    rfl
  have hword2 : Re.word "between" = Re.seq (Re.chr 'b') (Re.word "etween") := rfl
  have s1 : isSpace ' ' = true := by decide
  have w1 : isWordChar 'f' = true := by decide
  rw [hword, hword2]
  simp [Re.run, Re.spaces, repRun, atWordBoundary, s1, w1, ha, h]

/-- The start side: the lazy class stops at the first separator. -/
theorem start_side_some (r : Re) (caps : Caps) (k : Cursor → Caps → Option Caps) (c : Caps)
    (prev : Option Char) (init : List Char) (z : Char) (S : List Char)
    (hall : ∀ x ∈ init, isRangeChar x = true) (hz : isRangeChar z = true)
    (hmid : ∀ pre suf prev1 caps1, init = pre ++ suf → pre ≠ [] →
      r.run ⟨prev1, suf ++ z :: S⟩ caps1 k = none)
    (hend : r.run ⟨some z, S⟩ ((2, init ++ [z]) :: caps) k = some c) :
    (Re.seq (Re.grp 2 (Re.rep isRangeChar 1 none false)) r).run ⟨prev, init ++ z :: S⟩ caps k =
      some c := by
  show repRun isRangeChar false (fun cur1 => r.run cur1
    ((2, (init ++ z :: S).take ((init ++ z :: S).length - cur1.rest.length)) :: caps) k)
    1 none prev (init ++ z :: S) = some c
  apply repRun_lazy_skip _ _ _ z S hz _ init 1 prev (by omega) hall (by simp)
  · intro pre suf prev1 e hne
    exact hmid pre suf prev1 _ e hne
  · have ht : (init ++ z :: S).take ((init ++ z :: S).length - S.length) = init ++ [z] := by
      have e1 : init ++ z :: S = (init ++ [z]) ++ S := by simp
      rw [e1, List.length_append, Nat.add_sub_cancel, List.take_left']
      rfl
    simp only [ht]
    exact hend

/-- Trimming a text that neither starts nor ends with white space changes nothing. -/
theorem trim_id (s : List Char) (h1 : ∀ x, s.head? = some x → isSpace x = false)
    (h2 : ∀ x, s.getLast? = some x → isSpace x = false) : trim s = s := by
  unfold trim
  have d1 : s.dropWhile isSpace = s := by
    cases s with
    | nil => rfl
    | cons a t => simp [List.dropWhile, h1 a rfl]
  rw [d1]
  have d2 : s.reverse.dropWhile isSpace = s.reverse := by
    cases hrev : s.reverse with
    | nil => rfl
    | cons a t =>
      have : s.getLast? = some a := by
        rw [List.getLast?_eq_head?_reverse, hrev]
        rfl
      simp [List.dropWhile, h2 a this]
  rw [d2, List.reverse_reverse]

/-- What the explicit-range pattern captures in "from A to E". -/
theorem rangeRe_sides (A E : List Char)
    (hA : A ≠ [] ∧ (∀ x ∈ A, isRangeChar x = true) ∧ A.head? ≠ some ' ' ∧ A.getLast? ≠ some ' ')
    (hsep : includes (A ++ [' ']) " to ".toList = false ∧
      includes (A ++ [' ']) " and ".toList = false)
    (hE : (∀ x ∈ E, isRangeChar x = true) ∧ E.head? ≠ some ' ' ∧
      ∃ z, E.getLast? = some z ∧ isWordChar z = true) :
    jsMatch rangeRe ("from ".toList ++ A ++ " to ".toList ++ E) =
      some [(4, E), (3, "to".toList), (2, A), (1, "from".toList)] := by
  obtain ⟨hAne, hAr, hAh, hAl⟩ := hA
  obtain ⟨hEr, hEh, zE, hEl, hEw⟩ := hE
  have hto : includes (A ++ [' ']) [' ', 't', 'o', ' '] = false := hsep.1
  have hand : includes (A ++ [' ']) [' ', 'a', 'n', 'd', ' '] = false := hsep.2
  -- the last characters of the two sides
  obtain ⟨init, z, rfl⟩ : ∃ init z, A = init ++ [z] := by
    rcases List.eq_nil_or_concat A with h | ⟨L, b, h⟩
    · exact absurd h hAne
    · exact ⟨L, b, by rw [h, List.concat_eq_append]⟩
  obtain ⟨Einit, rfl⟩ : ∃ Einit, E = Einit ++ [zE] := by
    rcases List.eq_nil_or_concat E with h | ⟨L, b, h⟩
    · subst h
      simp at hEl
    · rw [List.concat_eq_append] at h
      subst h
      simp at hEl
      exact ⟨L, by rw [hEl]⟩
  have hz : isRangeChar z = true := hAr z (by simp)
  have hzE : isRangeChar zE = true := hEr zE (by simp)
  have hzs : z ≠ ' ' := by
    intro e
    apply hAl
    simp [e]
  -- the first characters of the two sides
  obtain ⟨a, A2, hA2⟩ : ∃ a A2, init ++ [z] = a :: A2 :=
    List.exists_cons_of_ne_nil hAne
  obtain ⟨e, E2, hE2⟩ : ∃ e E2, Einit ++ [zE] = e :: E2 :=
    List.exists_cons_of_ne_nil (by simp)
  have ha : isSpace a = false := by
    cases hs : isSpace a with
    | false => rfl
    | true =>
      have := rangeChar_space a (hAr a (by rw [hA2]; simp)) hs
      subst this
      rw [hA2] at hAh
      exact absurd rfl hAh
  have he : isSpace e = false := by
    cases hs : isSpace e with
    | false => rfl
    | true =>
      have := rangeChar_space e (hEr e (by rw [hE2]; simp)) hs
      subst this
      rw [hE2] at hEh
      exact absurd rfl hEh
  -- the end side and the separator
  have h4 := end_side_some [(3, ['t', 'o']), (2, init ++ [z]), (1, ['f', 'r', 'o', 'm'])]
    (some ' ') Einit zE (fun x hx => hEr x (by simp [hx])) hzE hEw
  rw [hE2] at h4
  have h3 := tail_some _ [(2, init ++ [z]), (1, ['f', 'r', 'o', 'm'])] _ _ (some z) e E2 he h4
  rw [← hE2] at h3
  -- the start side
  have h2 := start_side_some _ [(1, ['f', 'r', 'o', 'm'])] _ _ (some ' ') init z
    (' ' :: 't' :: 'o' :: ' ' :: (Einit ++ [zE])) (fun x hx => hAr x (by simp [hx])) hz
    (by
      intro pre suf prev1 caps1 hsplit hne
      have hU : suf ++ z :: ' ' :: 't' :: 'o' :: ' ' :: (Einit ++ [zE]) =
          (suf ++ [z]) ++ ' ' :: 't' :: 'o' :: ' ' :: (Einit ++ [zE]) := by simp
      rw [hU]
      have hinc : ∀ p, includes (init ++ [z] ++ [' ']) p = false →
          includes (suf ++ [z] ++ [' ']) p = false := by
        intro p hp
        cases hq : includes (suf ++ [z] ++ [' ']) p with
        | false => rfl
        | true =>
          have := includes_append_left pre _ p hq
          rw [hsplit] at hp
          simp only [List.append_assoc] at hp this
          rw [this] at hp
          exact absurd hp (by decide)
      exact tail_none _ caps1 _ (Einit ++ [zE]) (suf ++ [z]) prev1 (by simp)
        (fun x hx => hAr x (by
          rw [hsplit]
          simp only [List.mem_append, List.mem_singleton] at hx ⊢
          rcases hx with hx | hx
          · exact Or.inl (Or.inr hx)
          · exact Or.inr hx))
        (by simp [hzs]) (hinc _ hto) (hinc _ hand))
    h3
  have hcons : init ++ z :: ' ' :: 't' :: 'o' :: ' ' :: (Einit ++ [zE]) =
      a :: (A2 ++ ' ' :: 't' :: 'o' :: ' ' :: (Einit ++ [zE])) := by
    have e1 : init ++ z :: ' ' :: 't' :: 'o' :: ' ' :: (Einit ++ [zE]) =
        (init ++ [z]) ++ ' ' :: 't' :: 'o' :: ' ' :: (Einit ++ [zE]) := by simp
    rw [e1, hA2]
    rfl
  rw [hcons] at h2
  have h1 := start_some _ _ _ a _ ha h2
  rw [← hcons] at h1
  have hm : "from ".toList ++ (init ++ [z]) ++ " to ".toList ++ (Einit ++ [zE]) =
      'f' :: 'r' :: 'o' :: 'm' :: ' ' ::
        (init ++ z :: ' ' :: 't' :: 'o' :: ' ' :: (Einit ++ [zE])) := by
    have f1 : "from ".toList = ['f', 'r', 'o', 'm', ' '] := rfl
    have f2 : " to ".toList = [' ', 't', 'o', ' '] := rfl
    rw [f1, f2]
    simp
  rw [hm]
  unfold jsMatch Re.search
  have hdef : rangeRe = Re.seq Re.wordB (Re.seq (Re.grp 1 (Re.alt (Re.word "from")
      (Re.word "between"))) (Re.seq Re.spaces (Re.seq (Re.grp 2 (Re.rep isRangeChar 1 none false))
      (Re.seq Re.spaces (Re.seq (Re.grp 3 (Re.alt (Re.word "to") (Re.word "and")))
      (Re.seq Re.spaces (Re.seq (Re.grp 4 (Re.rep isRangeChar 1 none true))
      (Re.seq Re.wordB Re.eps)))))))) := rfl
  rw [hdef, h1]
  rfl

/-- C29: in a text "from A to B W", where the start side A holds no separator " to "
or " and " and neither starts nor ends with a space, and B and the further words W
are made of the characters of the class (letters, digits, spaces, commas, slashes,
hyphens) and end in a letter or a digit, the explicit-range pattern captures A as
start side and the whole of "B W" as end side; so the rule returns a range exactly
when A and "B W" both parse as dates, and when "B W" does not parse the text is
decided by the later rules. -/
theorem end_side_is_longest_run (parse : String → JSDate) (tz : Int) (A B W : List Char)
    (hA : A ≠ [] ∧ (∀ x ∈ A, isRangeChar x = true) ∧ A.head? ≠ some ' ' ∧ A.getLast? ≠ some ' ')
    (hsep : includes (A ++ [' ']) " to ".toList = false ∧
      includes (A ++ [' ']) " and ".toList = false)
    (hB : B ≠ [] ∧ (∀ x ∈ B, isRangeChar x = true) ∧ B.head? ≠ some ' ')
    (hW : (∀ x ∈ W, isRangeChar x = true) ∧ ∃ z, W.getLast? = some z ∧ isWordChar z = true) :
    jsMatch rangeRe ("from ".toList ++ A ++ " to ".toList ++ (B ++ ' ' :: W)) =
        some [(4, B ++ ' ' :: W), (3, "to".toList), (2, A), (1, "from".toList)] ∧
      ruleExplicitRange parse tz ("from ".toList ++ A ++ " to ".toList ++ (B ++ ' ' :: W)) =
        (if (parse (String.mk A)).isSome && (parse (String.mk (B ++ ' ' :: W))).isSome then
          some (mkRange (normalize tz (parse (String.mk A)))
            (normalize tz (parse (String.mk (B ++ ' ' :: W)))))
        else none) ∧
      (parse (String.mk (B ++ ' ' :: W)) = none →
        ∀ (text : String) (now now2 : Int),
          toLowerCase text.toList = "from ".toList ++ A ++ " to ".toList ++ (B ++ ' ' :: W) →
          parsed parse tz now now2 text =
            firstOf ((primaryRules parse tz now text).drop 1 ++ secondaryRules tz now2 text)) := by
  obtain ⟨hBne, hBr, hBh⟩ := hB
  obtain ⟨hWr, zW, hWl, hWw⟩ := hW
  obtain ⟨b, B2, rfl⟩ := List.exists_cons_of_ne_nil hBne
  have hWne : W ≠ [] := by
    intro e
    subst e
    simp at hWl
  have hEl : (b :: B2 ++ ' ' :: W).getLast? = some zW := by
    rw [List.getLast?_append_of_ne_nil _ (by simp)]
    obtain ⟨w, W2, rfl⟩ := List.exists_cons_of_ne_nil hWne
    rw [List.getLast?_cons_cons]
    exact hWl
  have hEr : ∀ x ∈ b :: B2 ++ ' ' :: W, isRangeChar x = true := by
    intro x hx
    simp only [List.mem_append, List.mem_cons] at hx
    rcases hx with (hx | hx) | hx | hx
    · exact hBr x (by simp [hx])
    · exact hBr x (by simp [hx])
    · subst hx
      decide
    · exact hWr x hx
  have hm := rangeRe_sides A (b :: B2 ++ ' ' :: W) hA hsep ⟨hEr, hBh, zW, hEl, hWw⟩
  have hnotsp : ∀ x, isRangeChar x = true → x ≠ ' ' → isSpace x = false := by
    intro x hx hne
    cases hs : isSpace x with
    | false => rfl
    | true => exact absurd (rangeChar_space x hx hs) hne
  have hzW : zW ≠ ' ' := by
    intro e
    subst e
    exact absurd hWw (by decide)
  have tA : trim A = A := by
    apply trim_id
    · intro x hx
      exact hnotsp x (hA.2.1 x (List.mem_of_mem_head? hx)) (fun e => hA.2.2.1 (by rw [hx, e]))
    · intro x hx
      exact hnotsp x (hA.2.1 x (List.mem_of_mem_getLast? hx)) (fun e => hA.2.2.2 (by rw [hx, e]))
  have tE : trim (b :: B2 ++ ' ' :: W) = b :: B2 ++ ' ' :: W := by
    apply trim_id
    · intro x hx
      simp only [List.cons_append, List.head?_cons, Option.some.injEq] at hx
      subst hx
      exact hnotsp b (hBr b (by simp)) (fun e => hBh (by rw [e]; rfl))
    · intro x hx
      rw [hEl] at hx
      simp only [Option.some.injEq] at hx
      subst hx
      exact hnotsp zW (hEr zW (List.mem_of_mem_getLast? hEl)) hzW
  have hrule : ruleExplicitRange parse tz
      ("from ".toList ++ A ++ " to ".toList ++ (b :: B2 ++ ' ' :: W)) =
      (if (parse (String.mk A)).isSome && (parse (String.mk (b :: B2 ++ ' ' :: W))).isSome then
        some (mkRange (normalize tz (parse (String.mk A)))
          (normalize tz (parse (String.mk (b :: B2 ++ ' ' :: W)))))
      else none) := by
    unfold ruleExplicitRange
    rw [hm]
    have c2 : capture [(4, b :: B2 ++ ' ' :: W), (3, "to".toList), (2, A), (1, "from".toList)] 2 =
        A := rfl
    have c4 : capture [(4, b :: B2 ++ ' ' :: W), (3, "to".toList), (2, A), (1, "from".toList)] 4 =
        b :: B2 ++ ' ' :: W := rfl
    simp only [c2, c4, tA, tE]
  refine ⟨hm, hrule, ?_⟩
  intro hp text now now2 htext
  rw [parsed_eq_firstOf]
  have h1 : noneTaken (primaryRules parse tz now text ++ secondaryRules tz now2 text) 1 := by
    intro x hx
    simp only [primaryRules, List.cons_append, List.take_succ_cons, List.take_zero,
      List.mem_singleton] at hx
    rw [hx, htext, hrule, hp]
    simp
  rw [firstOf_drop _ 1 h1]
  rfl

theorem end_side_is_longest_run_witness :
    parsed (jsDateParse 28800000) 28800000 1762300800000 1762300800000
        "from 2024-03-01 to 2024-03-15 please" = .ok none ∧
      parsed (jsDateParse 28800000) 28800000 1762300800000 1762300800000
        "from 2024-03-01 to 2024-03-15" = .ok (some ⟨"2024-03-01", "2024-03-15"⟩) :=
  ⟨((end_side_is_longest_run (jsDateParse 28800000) 28800000 "2024-03-01".toList
      "2024-03-15".toList "please".toList (by decide!) (by decide!) (by decide!)
      ⟨by decide!, 'e', by decide!, by decide!⟩).2.2 (by decide!)
      "from 2024-03-01 to 2024-03-15 please" 1762300800000 1762300800000 (by decide!)).trans
      (by decide!),
    by decide!⟩

/-! ## The report types of the classifier and of the endpoint -/

theorem ite_mem_list {c : Prop} [Decidable c] {a b : String} {l : List String} (ha : a ∈ l)
    (hb : b ∈ l) : (if c then a else b) ∈ l := by
  split
  · exact ha
  · exact hb

/-- The classifier returns one of thirteen report types. -/
theorem classifyReportType_mem (lowerRequest : List Char) :
    classifyReportType lowerRequest ∈ ["visitor_analytics", "cultural_objects",
      "archive_analytics", "donation_type_report", "donation_report", "financial_report",
      "event_participants", "event_list", "exhibits_report", "exhibit_analytics",
      "staff_performance", "predictive_analytics", "comprehensive_dashboard"] := by
  unfold classifyReportType
  dsimp only
  repeat' apply ite_mem_list
  all_goals decide

/-- The switch of the endpoint answers "Invalid report type" to exactly three of the
report types of the classifier. -/
theorem dispatch_rejects_iff (lowerRequest : List Char) (raw effective : Option String × Option String) :
    dispatchReport (classifyReportType lowerRequest) raw effective = .error "Invalid report type" ↔
      classifyReportType lowerRequest = "event_participants" ∨
        classifyReportType lowerRequest = "predictive_analytics" ∨
        classifyReportType lowerRequest = "comprehensive_dashboard" := by
  have h := classifyReportType_mem lowerRequest
  simp only [List.mem_cons, List.mem_singleton, List.not_mem_nil, or_false] at h
  rcases h with h | h | h | h | h | h | h | h | h | h | h | h | h <;> rw [h] <;>
    unfold dispatchReport <;> simp +decide

/-- C30 fails in the code: a request without any keyword of the classifier, such as
"show me a summary", is given the default report type `comprehensive_dashboard`, which is
not a case of the switch of `POST /generate`, so the request sent by the chat is
answered 400 "Invalid report type"; so are the requests classified as
`event_participants` and as `predictive_analytics`. -/
theorem classified_type_rejected :
    (generateReport (jsDateParse 28800000) 28800000 1762300800000 1762300800000 1762300800000
        "show me a summary" =
        .ok (some ⟨"comprehensive_dashboard", "2025-08-07", "2025-12-05", true, true, true, true,
          true, "show me a summary", none⟩) ∧
      generateEndpoint ⟨some "comprehensive_dashboard", some "2025-08-07", some "2025-12-05",
        some "show me a summary"⟩ = .error "Invalid report type") ∧
    (classifyReportType (toLowerCase "event participants today".toList) = "event_participants" ∧
      generateEndpoint ⟨some "event_participants", some "2025-11-05", some "2025-11-05",
        some "event participants today"⟩ = .error "Invalid report type") ∧
    (classifyReportType (toLowerCase "forecast for this month".toList) = "predictive_analytics" ∧
      generateEndpoint ⟨some "predictive_analytics", some "2025-11-01", some "2025-11-30",
        some "forecast for this month"⟩ = .error "Invalid report type") ∧
    "comprehensive_dashboard" ∉ endpointReportTypes ∧
    "event_participants" ∉ endpointReportTypes ∧
    "predictive_analytics" ∉ endpointReportTypes := by
  refine ⟨⟨?_, ?_⟩, ⟨?_, ?_⟩, ⟨?_, ?_⟩, ?_, ?_, ?_⟩ <;> decide!

end Museoo
